import Mathlib

/-!
Verification of the Encapsula stego codec core.

The definitions below are a shallow embedding of the TypeScript source:
the encode side (`Enc` namespace) models the Encode screen's codec
functions and the decode side (`Dec` namespace) models the Decode
screen's codec functions.  Buffers are `List Nat` of byte values;
external primitives (HMAC-SHA-256, scrypt, AES-256-GCM, the PNG pixel
codec) are abstracted as fields of a `Prims` structure, since they live
in Node's `crypto` / `pngjs` libraries, not in this repository.
-/

namespace Encapsula


/-- Bit `k` of a natural number, as in JS `(v >> k) & 1`. -/
def getBit (v k : Nat) : Nat := v / 2 ^ k % 2

/-- JS `(v & ~(1 << k)) | (b << k)` for a byte `v` and bit value `b`:
clear bit `k` then or in `b` at plane `k`.  Since `v &&& 2^k` contributes
exactly `getBit v k * 2^k` to `v`, this equals the subtract-and-add form. -/
def setBit (v k b : Nat) : Nat := v - getBit v k * 2 ^ k + b * 2 ^ k

/-- `buf[i]`, 0 beyond the end (JS `undefined` never arises on the paths we model). -/
def byteAt (l : List Nat) (i : Nat) : Nat := l.getD i 0

/-- Node `Buffer.writeUInt32BE(n >>> 0)`: four big-endian bytes of `n % 2^32`. -/
def u32be (n : Nat) : List Nat :=
  [n % 2 ^ 32 / 2 ^ 24 % 256, n % 2 ^ 32 / 2 ^ 16 % 256, n % 2 ^ 32 / 2 ^ 8 % 256, n % 2 ^ 32 % 256]

/-- Node `Buffer.writeUInt32LE(n >>> 0)`: four little-endian bytes of `n % 2^32`. -/
def u32le (n : Nat) : List Nat :=
  [n % 2 ^ 32 % 256, n % 2 ^ 32 / 2 ^ 8 % 256, n % 2 ^ 32 / 2 ^ 16 % 256, n % 2 ^ 32 / 2 ^ 24 % 256]

/-- Node `Buffer.writeUInt16BE n` for `n < 2^16`. -/
def u16be (n : Nat) : List Nat := [n / 2 ^ 8 % 256, n % 256]

/-- Node `Buffer.readUInt16BE` at offset `pos`. -/
def readU16BE (l : List Nat) (pos : Nat) : Nat := byteAt l pos * 256 + byteAt l (pos + 1)

/-- Node `Buffer.readUInt32BE` at offset `pos`. -/
def readU32BE (l : List Nat) (pos : Nat) : Nat :=
  ((byteAt l pos * 256 + byteAt l (pos + 1)) * 256 + byteAt l (pos + 2)) * 256 + byteAt l (pos + 3)

/-- Node `Buffer.readUInt32LE` at offset `pos`. -/
def readU32LE (l : List Nat) (pos : Nat) : Nat :=
  ((byteAt l (pos + 3) * 256 + byteAt l (pos + 2)) * 256 + byteAt l (pos + 1)) * 256 + byteAt l pos

/-! ## Shared constants (`must match Decode` per the source comments) -/

/-- ASCII bytes of `"ECAP"`, the header magic. -/
def MAGIC : List Nat := [69, 67, 65, 80]

def VERSION : Nat := 1

def HEADER_SIZE : Nat := 60

def KDF_SCRYPT : Nat := 1

/-- ASCII bytes of `"ECAPTR"`, the trailer signature. -/
def TRAILER_SIG : List Nat := [69, 67, 65, 80, 84, 82]

/-- ASCII bytes of `"ECAP-PERMUTE"`, the HMAC label for the PRNG key. -/
def ECAP_PERMUTE : List Nat := [69, 67, 65, 80, 45, 80, 69, 82, 77, 85, 84, 69]

/-- Argument record of `buildHeader` in the Encode source. -/
structure HeaderParams where
  encrypted : Bool
  randomized : Bool
  bitsPerChannel : Nat
  channelsMask : Nat
  payloadLen : Nat
  kdf : Nat
  logN : Nat
  r : Nat
  p : Nat
  salt : List Nat
  iv : List Nat
  tag : List Nat
deriving Repr, DecidableEq

/-- Result record of `parseHeader` in the Decode source. -/
structure ParsedHeader where
  version : Nat
  encrypted : Bool
  randomized : Bool
  bitsPerChannel : Nat
  channelsMask : Nat
  payloadLen : Nat
  kdf : Nat
  logN : Nat
  r : Nat
  p : Nat
  salt : List Nat
  iv : List Nat
  tag : List Nat
deriving Repr, DecidableEq

namespace Enc

/-- `buildHeader` from the Encode source: 60-byte layout
magic(4) ver(1) flags(1) bits(1) channels(1) payloadLen(4) kdf(1) logN(1)
r(1) p(1) salt(16) iv(12) tag(16).  The source throws when the salt, iv or
tag buffer lengths are wrong; `x & 0xff` is modelled as `x % 256`. -/
def buildHeader (hp : HeaderParams) : Except String (List Nat) :=
  if hp.salt.length ≠ 16 then .error "salt must be 16 bytes"
  else if hp.iv.length ≠ 12 then .error "iv must be 12 bytes"
  else if hp.tag.length ≠ 16 then .error "tag must be 16 bytes"
  else
    let flags := (if hp.encrypted then 1 else 0) + (if hp.randomized then 2 else 0)
    .ok (MAGIC ++ VERSION :: flags % 256 :: hp.bitsPerChannel % 256 :: hp.channelsMask % 256 ::
      (u32be hp.payloadLen ++ hp.kdf % 256 :: hp.logN % 256 :: hp.r % 256 :: hp.p % 256 ::
        (hp.salt ++ hp.iv ++ hp.tag)))

end Enc

namespace Dec

/-- `parseHeader` from the Decode source: checks length, magic, version and
KDF id, then reads the fixed layout.  `(flags & 1) !== 0` and
`(flags & 2) !== 0` are the encrypted/randomized bits. -/
def parseHeader (h : List Nat) : Except String ParsedHeader :=
  if h.length < HEADER_SIZE then .error "Header too small"
  else if h.take 4 ≠ MAGIC then .error "Not an Encapsula carrier (magic mismatch)"
  else if byteAt h 4 ≠ VERSION then .error "Unsupported version"
  else if byteAt h 12 ≠ KDF_SCRYPT then .error "Unsupported KDF"
  else
    let flags := byteAt h 5
    .ok { version := byteAt h 4
          encrypted := decide (getBit flags 0 ≠ 0)
          randomized := decide (getBit flags 1 ≠ 0)
          bitsPerChannel := byteAt h 6
          channelsMask := byteAt h 7
          payloadLen := readU32BE h 8
          kdf := byteAt h 12
          logN := byteAt h 13
          r := byteAt h 14
          p := byteAt h 15
          salt := (h.drop 16).take 16
          iv := (h.drop 32).take 12
          tag := (h.drop 44).take 16 }

end Dec

/-! ## HMAC-SHA-256 counter PRNG and Fisher-Yates shuffle.

The PRNG class and `shufflePositions` appear verbatim in both the Encode
and the Decode source file; each namespace carries its own copy.  The
HMAC-SHA-256 primitive itself is a parameter `hmac : key → message → digest`. -/

/-- A `(byteIndex, plane)` payload bit position. -/
structure BitPos where
  byteIndex : Nat
  plane : Nat
deriving Repr, DecidableEq

/-- In-place swap `positions[i] ↔ positions[j]` on a list model. -/
def listSwap {α : Type} (l : List α) (i j : Nat) (d : α) : List α :=
  (l.set i (l.getD j d)).set j (l.getD i d)

namespace Enc

/-- PRNG state: 32-byte key, 32-bit counter from 0, buffer and read pointer. -/
structure HmacPRNG where
  key : List Nat
  counter : Nat
  buf : List Nat
  ptr : Nat
deriving Repr, DecidableEq

def prngInit (key : List Nat) : HmacPRNG := ⟨key, 0, [], 0⟩

/-- `refill`: `buf = HMAC_SHA256(key, be32(counter++))`, pointer reset. -/
def prngRefill (hmac : List Nat → List Nat → List Nat) (s : HmacPRNG) : HmacPRNG :=
  { s with buf := hmac s.key (u32be s.counter), counter := s.counter + 1, ptr := 0 }

/-- `nextByte`: refill when the buffer is exhausted, then read `buf[ptr++]`. -/
def nextByte (hmac : List Nat → List Nat → List Nat) (s : HmacPRNG) : Nat × HmacPRNG :=
  if s.ptr < s.buf.length then (byteAt s.buf s.ptr, { s with ptr := s.ptr + 1 })
  else
    let t := prngRefill hmac s
    (byteAt t.buf 0, { t with ptr := 1 })

/-- `nextUint32`: four `nextByte`s, big-endian, `>>> 0`. -/
def nextUint32 (hmac : List Nat → List Nat → List Nat) (s : HmacPRNG) : Nat × HmacPRNG :=
  let (b0, s0) := nextByte hmac s
  let (b1, s1) := nextByte hmac s0
  let (b2, s2) := nextByte hmac s1
  let (b3, s3) := nextByte hmac s2
  ((((b0 * 256 + b1) * 256 + b2) * 256 + b3) % 2 ^ 32, s3)

/-- Fisher-Yates body: handle index `i`, counting down to 1. -/
def shuffleGo (hmac : List Nat → List Nat → List Nat) :
    List BitPos → HmacPRNG → Nat → List BitPos × HmacPRNG
  | l, s, 0 => (l, s)
  | l, s, i + 1 =>
    let (x, s') := nextUint32 hmac s
    let j := x % (i + 2)
    shuffleGo hmac (listSwap l (i + 1) j ⟨0, 0⟩) s' i

/-- `shufflePositions` from the Encode source: Fisher-Yates driven by the PRNG. -/
def shufflePositions (hmac : List Nat → List Nat → List Nat)
    (positions : List BitPos) (prng : HmacPRNG) : List BitPos × HmacPRNG :=
  shuffleGo hmac positions prng (positions.length - 1)

/-- `enumerateRGBByteIndices` body: `for (i = 0; i < len; i += 4) push i, i+1, i+2`. -/
def enumRGBAux (i len : Nat) : List Nat :=
  if i < len then i :: (i + 1) :: (i + 2) :: enumRGBAux (i + 4) len
  else []
termination_by len - i
decreasing_by omega

def enumerateRGBByteIndices (pixels : List Nat) : List Nat :=
  enumRGBAux 0 pixels.length

/-- `buildPayloadPositions`: plane 0 for each usable RGB byte index, plus
plane 1 when `bitsPerChannel == 2`. -/
def buildPayloadPositions (pixels : List Nat) (bitsPerChannel : Nat) : List BitPos :=
  ((enumerateRGBByteIndices pixels).drop (HEADER_SIZE * 8)).flatMap
    (fun i => if bitsPerChannel = 2 then [⟨i, 0⟩, ⟨i, 1⟩] else [⟨i, 0⟩])

end Enc

namespace Dec

/-- PRNG state, Decode-side copy. -/
structure HmacPRNG where
  key : List Nat
  counter : Nat
  buf : List Nat
  ptr : Nat
deriving Repr, DecidableEq

def prngInit (key : List Nat) : HmacPRNG := ⟨key, 0, [], 0⟩

def prngRefill (hmac : List Nat → List Nat → List Nat) (s : HmacPRNG) : HmacPRNG :=
  { s with buf := hmac s.key (u32be s.counter), counter := s.counter + 1, ptr := 0 }

def nextByte (hmac : List Nat → List Nat → List Nat) (s : HmacPRNG) : Nat × HmacPRNG :=
  if s.ptr < s.buf.length then (byteAt s.buf s.ptr, { s with ptr := s.ptr + 1 })
  else
    let t := prngRefill hmac s
    (byteAt t.buf 0, { t with ptr := 1 })

def nextUint32 (hmac : List Nat → List Nat → List Nat) (s : HmacPRNG) : Nat × HmacPRNG :=
  let (b0, s0) := nextByte hmac s
  let (b1, s1) := nextByte hmac s0
  let (b2, s2) := nextByte hmac s1
  let (b3, s3) := nextByte hmac s2
  ((((b0 * 256 + b1) * 256 + b2) * 256 + b3) % 2 ^ 32, s3)

def shuffleGo (hmac : List Nat → List Nat → List Nat) :
    List BitPos → HmacPRNG → Nat → List BitPos × HmacPRNG
  | l, s, 0 => (l, s)
  | l, s, i + 1 =>
    let (x, s') := nextUint32 hmac s
    let j := x % (i + 2)
    shuffleGo hmac (listSwap l (i + 1) j ⟨0, 0⟩) s' i

/-- `shufflePositions` from the Decode source. -/
def shufflePositions (hmac : List Nat → List Nat → List Nat)
    (positions : List BitPos) (prng : HmacPRNG) : List BitPos × HmacPRNG :=
  shuffleGo hmac positions prng (positions.length - 1)

def enumRGBAux (i len : Nat) : List Nat :=
  if i < len then i :: (i + 1) :: (i + 2) :: enumRGBAux (i + 4) len
  else []
termination_by len - i
decreasing_by omega

def enumerateRGBByteIndices (pixels : List Nat) : List Nat :=
  enumRGBAux 0 pixels.length

def buildPayloadPositions (pixels : List Nat) (bitsPerChannel : Nat) : List BitPos :=
  ((enumerateRGBByteIndices pixels).drop (HEADER_SIZE * 8)).flatMap
    (fun i => if bitsPerChannel = 2 then [⟨i, 0⟩, ⟨i, 1⟩] else [⟨i, 0⟩])

end Dec

namespace Enc

/-- Bits of one byte, MSB first, as in `for (b = 7; b >= 0; b--)`. -/
def byteBitsMSB (b : Nat) : List Nat :=
  [getBit b 7, getBit b 6, getBit b 5, getBit b 4, getBit b 3, getBit b 2, getBit b 1, getBit b 0]

/-- All bits of a byte sequence, MSB first within each byte. -/
def dataToBits (data : List Nat) : List Nat := data.flatMap byteBitsMSB

/-- The write loop shared by `writeHeaderBits` and `embedBits`: set
`pixels[pos.byteIndex]` bit `pos.plane` to each successive bit. -/
def writeBits : List Nat → List BitPos → List Nat → List Nat
  | px, p :: ps, b :: bs =>
    writeBits (px.set p.byteIndex (setBit (byteAt px p.byteIndex) p.plane b)) ps bs
  | px, _, _ => px

/-- `writeHeaderBits`: the 480 header bits go into the LSBs of the first 480
RGB byte indices, MSB-first per header byte. -/
def writeHeaderBits (pixels : List Nat) (header : List Nat) :
    Except String (List Nat) :=
  let idxs := enumerateRGBByteIndices pixels
  if idxs.length < HEADER_SIZE * 8 then .error "Carrier too small for header"
  else .ok (writeBits pixels ((idxs.take (HEADER_SIZE * 8)).map (fun i => ⟨i, 0⟩))
    (dataToBits header))

/-- `embedBits`: payload bits go to the successive positions, MSB-first per byte. -/
def embedBits (pixels : List Nat) (positions : List BitPos) (data : List Nat) :
    Except String (List Nat) :=
  if positions.length < data.length * 8 then
    .error "Carrier capacity too small"
  else .ok (writeBits pixels (positions.take (data.length * 8)) (dataToBits data))

/-- `capacityBits`: `(pixels.length / 4) * 3 * bitsPerChannel - headerBits`,
an `Int` since the JS value goes negative on tiny carriers. -/
def capacityBits (pixels : List Nat) (bitsPerChannel : Nat) : Int :=
  (pixels.length / 4 * 3 * bitsPerChannel : Int) - (HEADER_SIZE * 8 : Nat)

end Enc

namespace Dec

/-- Read one bit position. -/
def readPos (pixels : List Nat) (p : BitPos) : Nat := getBit (byteAt pixels p.byteIndex) p.plane

/-- Regroup a bit stream into bytes, 8 bits MSB-first per byte, as in
`acc |= bit << b` for `b = 7..0`. -/
def bitsToBytes : List Nat → List Nat
  | b0 :: b1 :: b2 :: b3 :: b4 :: b5 :: b6 :: b7 :: rest =>
    (((((((b0 * 2 + b1) * 2 + b2) * 2 + b3) * 2 + b4) * 2 + b5) * 2 + b6) * 2 + b7)
      :: bitsToBytes rest
  | _ => []

/-- `readHeaderBits`: LSBs of the first 480 RGB byte indices, regrouped. -/
def readHeaderBits (pixels : List Nat) : Except String (List Nat) :=
  let idxs := enumerateRGBByteIndices pixels
  if idxs.length < HEADER_SIZE * 8 then .error "Carrier too small for header"
  else .ok (bitsToBytes ((idxs.take (HEADER_SIZE * 8)).map
    (fun i => readPos pixels ⟨i, 0⟩)))

/-- `extractBits`: read `byteCount` bytes from the successive positions. -/
def extractBits (pixels : List Nat) (positions : List BitPos) (byteCount : Nat) :
    Except String (List Nat) :=
  if positions.length < byteCount * 8 then
    .error "Carrier capacity too small for extraction"
  else .ok (bitsToBytes ((positions.take (byteCount * 8)).map (readPos pixels)))

end Dec

/-- Conversion between the two (identical) PRNG state structures. -/
def encDecState (s : Enc.HmacPRNG) : Dec.HmacPRNG := ⟨s.key, s.counter, s.buf, s.ptr⟩

/-! ## Container backends: JPEG APP15, WebP RIFF, trailer; carrier detection -/

/-- Carrier kinds distinguished by `detectCarrier`. -/
inductive CarrierKind where
  | png
  | jpeg
  | webp
  | pdf
  | other
deriving Repr, DecidableEq

/-- Node `Buffer.toString("ascii")` clears the top bit of every byte before
decoding; we model the resulting character codes. -/
def asciiStr (l : List Nat) : List Nat := l.map (fun b => b % 128)

namespace Enc

def isJpeg (buf : List Nat) : Bool :=
  decide (2 ≤ buf.length) && decide (byteAt buf 0 = 255) && decide (byteAt buf 1 = 216)

def isWebP (buf : List Nat) : Bool :=
  decide (12 ≤ buf.length) && decide (asciiStr (buf.take 4) = [82, 73, 70, 70])
    && decide (asciiStr ((buf.drop 8).take 4) = [87, 69, 66, 80])

/-- ASCII lowercase of a character-code list, as JS `toLowerCase` acts on
the extension strings involved here. -/
def extToLower (e : List Nat) : List Nat :=
  e.map (fun c => if 65 ≤ c ∧ c ≤ 90 then c + 32 else c)

/-- `detectCarrier`: magic-byte precedence, then extension fallback (the
extension is modelled as its character codes; `".png"` is
`[46, 112, 110, 103]` and so on).  Note the PNG signature comparison goes
through `toString("ascii")`, which clears the high bit of `0x89`, so the
decoded string can never equal the 8-byte PNG signature: PNG detection
effectively relies on the `.png` extension. -/
def detectCarrier (buf : List Nat) (ext : List Nat) : CarrierKind :=
  if 8 ≤ buf.length ∧ asciiStr (buf.take 8) = [137, 80, 78, 71, 13, 10, 26, 10] then .png
  else if isJpeg buf then .jpeg
  else if isWebP buf then .webp
  else if asciiStr (buf.take 5) = [37, 80, 68, 70, 45] then .pdf
  else
    let e := extToLower ext
    if e = [46, 112, 110, 103] then .png
    else if e = [46, 106, 112, 103] ∨ e = [46, 106, 112, 101, 103] then .jpeg
    else if e = [46, 119, 101, 98, 112] then .webp
    else if e = [46, 112, 100, 102] then .pdf
    else .other

/-- The marker walk of `insertJpegAPP15`: from offset 2, skip restart markers
by 2, stop at SOS/EOI, advance `2 + readUInt16BE` otherwise; stop when out of
bounds, on a non-`FF` byte, or on a segment length below 2. -/
def jpegWalk (l : List Nat) (pos : Nat) : Nat :=
  if h : pos + 4 ≤ l.length ∧ byteAt l pos = 255 then
    let code := byteAt l (pos + 1)
    if code = 218 ∨ code = 217 then pos
    else if hr : 208 ≤ code ∧ code ≤ 215 then jpegWalk l (pos + 2)
    else
      let segLen := readU16BE l (pos + 2)
      if hs : segLen < 2 then pos
      else jpegWalk l (pos + 2 + segLen)
  else pos
termination_by l.length - pos
decreasing_by
  · omega
  · omega

/-- `insertJpegAPP15`: insert `FF EF ‖ be16(blob.length + 2) ‖ blob` at the
walk position; fail when the blob exceeds `0xffff - 2` bytes. -/
def insertJpegAPP15 (original blob : List Nat) : Except String (List Nat) :=
  if ¬ isJpeg original then .error "Not a JPEG file"
  else if 65533 < blob.length then .error "Payload too large for one JPEG segment"
  else
    let pos := jpegWalk original 2
    .ok (original.take pos ++ 255 :: 239 :: (u16be (blob.length + 2) ++ blob)
      ++ original.drop pos)

/-- `insertWebPChunk`: append an `ECAP` chunk (little-endian size, pad byte on
odd length) to the RIFF body and rewrite the RIFF size. -/
def insertWebPChunk (original blob : List Nat) : Except String (List Nat) :=
  if ¬ isWebP original then .error "Not a WebP file"
  else
    let chunk := MAGIC ++ u32le blob.length ++ blob
      ++ (if blob.length % 2 = 1 then [0] else [])
    let body := original.drop 12
    let newBody := body ++ chunk
    .ok ([82, 73, 70, 70] ++ u32le (newBody.length + 4) ++ [87, 69, 66, 80] ++ newBody)

/-- `appendTrailer`: `original ‖ "ECAPTR" ‖ be32(blob.length) ‖ blob`. -/
def appendTrailer (original blob : List Nat) : List Nat :=
  original ++ TRAILER_SIG ++ u32be blob.length ++ blob

end Enc

namespace Dec

def isJpeg (buf : List Nat) : Bool :=
  decide (2 ≤ buf.length) && decide (byteAt buf 0 = 255) && decide (byteAt buf 1 = 216)

def isWebP (buf : List Nat) : Bool :=
  decide (12 ≤ buf.length) && decide (asciiStr (buf.take 4) = [82, 73, 70, 70])
    && decide (asciiStr ((buf.drop 8).take 4) = [87, 69, 66, 80])

/-- The scan loop of `extractJpegAPP15`: same stepping as the embed walk, but
with an in-bounds check on each segment and an `ECAP` test on each payload. -/
def extractJpegWalk (l : List Nat) (pos : Nat) : Option (List Nat) :=
  if h : pos + 4 ≤ l.length ∧ byteAt l pos = 255 then
    let code := byteAt l (pos + 1)
    if code = 218 ∨ code = 217 then none
    else if hr : 208 ≤ code ∧ code ≤ 215 then extractJpegWalk l (pos + 2)
    else
      let segLen := readU16BE l (pos + 2)
      if hs : segLen < 2 ∨ l.length < pos + 2 + segLen then none
      else
        let payload := (l.drop (pos + 4)).take (segLen - 2)
        if 4 ≤ payload.length ∧ payload.take 4 = MAGIC then some payload
        else extractJpegWalk l (pos + 2 + segLen)
  else none
termination_by l.length - pos
decreasing_by
  · omega
  · omega

def extractJpegAPP15 (original : List Nat) : Option (List Nat) :=
  if isJpeg original then extractJpegWalk original 2 else none

/-- The chunk scan of `extractWebPChunk`, also exposing the exit offset so
that clean chunk tilings can be characterised. -/
def webpScan (l : List Nat) (pos : Nat) : Option (List Nat) × Nat :=
  if _h : pos + 8 ≤ l.length then
    let size := readU32LE l (pos + 4)
    if hb : l.length < pos + 8 + size then (none, pos)
    else if asciiStr ((l.drop pos).take 4) = MAGIC then
      (some ((l.drop (pos + 8)).take size), pos)
    else webpScan l (pos + 8 + size + size % 2)
  else (none, pos)
termination_by l.length - pos
decreasing_by omega

def extractWebPChunk (original : List Nat) : Option (List Nat) :=
  if isWebP original then (webpScan original 12).1 else none

/-- Does `TRAILER_SIG` occur at offset `i`? -/
def sigAt (l : List Nat) (i : Nat) : Bool :=
  decide ((l.drop i).take 6 = TRAILER_SIG)

/-- `Buffer.lastIndexOf(TRAILER_SIG)`: the largest matching offset. -/
def lastIndexOfSig (l : List Nat) : Option Nat :=
  ((List.range (l.length + 1)).filter (fun i => sigAt l i)).getLast?

/-- `extractTrailer`: read `be32` length after the last `ECAPTR` and slice. -/
def extractTrailer (original : List Nat) : Option (List Nat) :=
  match lastIndexOfSig original with
  | none => none
  | some idx =>
    if original.length < idx + 6 + 4 then none
    else
      let len := readU32BE original (idx + 6)
      let start := idx + 6 + 4
      if original.length < start + len then none
      else some ((original.drop start).take len)

end Dec

/-! ## Abstract crypto primitives and the scrypt retry loop -/

/-- Classes of `crypto.scrypt` failures distinguished by `deriveKeyAdaptive`:
`memLimit` covers `ERR_CRYPTO_INVALID_SCRYPT_PARAMS` and "memory limit"
message errors; `other` is everything else. -/
inductive ScryptErr where
  | memLimit
  | other
deriving Repr, DecidableEq

/-- Whether the error is retried with a smaller `logN`. -/
def isMemStyle : ScryptErr → Bool
  | .memLimit => true
  | .other => false

/-- Failures of the adaptive KDF loop. -/
inductive KdfErr where
  | unsupported
  | propagated (e : ScryptErr)
deriving Repr, DecidableEq

/-- External primitives of the codec: HMAC-SHA-256, `crypto.scrypt`
(password, salt, keylen, N, r, p), AES-256-GCM encrypt/decrypt, and the
`pngjs` pixel codec.  These live in Node's libraries, outside this
repository; the codec is verified for any instantiation satisfying the
stated hypotheses. -/
structure Prims where
  hmac : List Nat → List Nat → List Nat
  scrypt : List Nat → List Nat → Nat → Nat → Nat → Nat → Except ScryptErr (List Nat)
  aesEnc : List Nat → List Nat → List Nat → List Nat × List Nat
  aesDec : List Nat → List Nat → List Nat → List Nat → Option (List Nat)
  pngRead : List Nat → Option (List Nat)
  pngWrite : List Nat → List Nat

/-- Facts about AES-256-GCM used by the round-trip arguments: ciphertext
length equals plaintext length, ciphertext and tag are byte-valued, the tag
is 16 bytes, and decryption inverts encryption. -/
structure PrimsOK (pr : Prims) : Prop where
  encLen : ∀ k iv pt, (pr.aesEnc k iv pt).1.length = pt.length
  encBytes : ∀ k iv pt, (∀ b ∈ pt, b < 256) → ∀ b ∈ (pr.aesEnc k iv pt).1, b < 256
  tagLen : ∀ k iv pt, (pr.aesEnc k iv pt).2.length = 16
  tagBytes : ∀ k iv pt, ∀ b ∈ (pr.aesEnc k iv pt).2, b < 256
  decInv : ∀ k iv pt, pr.aesDec k iv (pr.aesEnc k iv pt).1 (pr.aesEnc k iv pt).2 = some pt

namespace Enc

/-- The retry loop of `deriveKeyAdaptive`: attempt `try logN`, on a
memory-style failure decrement `logN` and retry, stop below 12 (the
structural recursion on `logN` mirrors `for (logN = preferred; logN >= 12;
logN--)`; at `logN = 0` the bound check fails just as it does below 12). -/
def deriveKeyAdaptiveGo (try' : Nat → Except ScryptErr (List Nat)) :
    Nat → Except KdfErr (List Nat × Nat)
  | 0 => .error .unsupported
  | logN + 1 =>
    if logN + 1 < 12 then .error .unsupported
    else
      match try' (logN + 1) with
      | .ok k => .ok (k, logN + 1)
      | .error e =>
        if isMemStyle e then deriveKeyAdaptiveGo try' logN
        else .error (.propagated e)

/-- `deriveKeyAdaptive`: scrypt at `N = 1 << logN`, key length 32, stepping
`logN` down from the preferred value on memory-style failures. -/
def deriveKeyAdaptive (pr : Prims) (password salt : List Nat)
    (preferredLogN r p : Nat) : Except KdfErr (List Nat × Nat) :=
  deriveKeyAdaptiveGo (fun logN => pr.scrypt password salt 32 (1 <<< logN) r p) preferredLogN

end Enc

namespace Dec

/-- `deriveKeyFixed`: a single scrypt call at the stored parameters, key
length 32, `N = 1 << logN` (the JS shift masks the count by 32). -/
def deriveKeyFixed (pr : Prims) (password salt : List Nat) (logN r p : Nat) :
    Except ScryptErr (List Nat) :=
  pr.scrypt password salt 32 (1 <<< (logN % 32)) r p

end Dec

namespace Enc

/-- `embedAuto`: dispatch on the detected carrier kind and embed
`header ‖ ciphertext`.  The PNG branch checks capacity at 1 bit per channel,
writes the header bits, builds and shuffles the payload positions with the
PRNG keyed by `HMAC(key, "ECAP-PERMUTE")`, and embeds the ciphertext. -/
def embedAuto (pr : Prims) (fileBuffer : List Nat) (ext : List Nat)
    (header ciphertext key : List Nat) : Except String (List Nat) :=
  let blob := header ++ ciphertext
  match detectCarrier fileBuffer ext with
  | .png =>
    match pr.pngRead fileBuffer with
    | none => .error "Invalid PNG"
    | some data =>
      if capacityBits data 1 < (8 * ciphertext.length : Nat) then
        .error "Carrier too small"
      else
        match writeHeaderBits data header with
        | .error e => .error e
        | .ok data1 =>
          let positions := buildPayloadPositions data1 1
          let prngKey := pr.hmac key ECAP_PERMUTE
          let prng := prngInit prngKey
          let positions2 := (shufflePositions pr.hmac positions prng).1
          match embedBits data1 positions2 ciphertext with
          | .error e => .error e
          | .ok data2 => .ok (pr.pngWrite data2)
  | .jpeg =>
    if 65533 < blob.length then
      .error "Message too large for a single JPEG chunk"
    else insertJpegAPP15 fileBuffer blob
  | .webp => insertWebPChunk fileBuffer blob
  | .pdf => .ok (appendTrailer fileBuffer blob)
  | .other => .ok (appendTrailer fileBuffer blob)

/-- Failures of `processEncoding` before any output is produced. -/
inductive EncodeFailure where
  | kdfFailed (e : KdfErr)
  | headerFailed (e : String)
deriving Repr, DecidableEq

/-- Outcome of the embedding stage of `processEncoding`: on `embedAuto`
failure the source records the error message in `state.error` and still
writes a fallback output produced by `appendTrailer`. -/
structure EncOutcome where
  err : Option String
  bytes : List Nat
deriving Repr, DecidableEq

/-- The codec core of `processEncoding`: adaptive KDF at preferred
logN 15, r 8, p 1; AES-256-GCM; header with `encrypted: true`,
`randomized: true`, `bitsPerChannel: 1`, `channelsMask: 0b111`; then
`embedAuto`, falling back to a trailer append on embedding failure. -/
def processEncoding (pr : Prims) (fileBuffer : List Nat) (ext : List Nat)
    (plaintext password salt iv : List Nat) : Except EncodeFailure EncOutcome :=
  match deriveKeyAdaptive pr password salt 15 8 1 with
  | .error e => .error (.kdfFailed e)
  | .ok (key, logNUsed) =>
    let ct := (pr.aesEnc key iv plaintext).1
    let tag := (pr.aesEnc key iv plaintext).2
    let hp : HeaderParams :=
      { encrypted := true, randomized := true, bitsPerChannel := 1,
        channelsMask := 7, payloadLen := plaintext.length, kdf := KDF_SCRYPT,
        logN := logNUsed, r := 8, p := 1, salt := salt, iv := iv, tag := tag }
    match buildHeader hp with
    | .error e => .error (.headerFailed e)
    | .ok header =>
      match embedAuto pr fileBuffer ext header ct key with
      | .ok out => .ok ⟨none, out⟩
      | .error e => .ok ⟨some e, appendTrailer fileBuffer (header ++ ct)⟩

end Enc

namespace Dec

/-- The PNG branch of `processDecoding`: read the pixels, take the header
from the LSBs, parse it, derive the key with the stored parameters, rebuild
and (when the randomized flag is set) shuffle the payload positions, extract
`payloadLen` bytes and decrypt.  Any failure falls through to the container
scan, modelled as `none`. -/
def pngDecodeAttempt (pr : Prims) (fileBuffer password : List Nat) : Option (List Nat) :=
  match pr.pngRead fileBuffer with
  | none => none
  | some data =>
    match readHeaderBits data with
    | .error _ => none
    | .ok header =>
      match parseHeader header with
      | .error _ => none
      | .ok meta =>
        match deriveKeyFixed pr password meta.salt meta.logN meta.r meta.p with
        | .error _ => none
        | .ok key =>
          let positions := buildPayloadPositions data meta.bitsPerChannel
          let positions2 :=
            if meta.randomized then
              (shufflePositions pr.hmac positions (prngInit (pr.hmac key ECAP_PERMUTE))).1
            else positions
          match extractBits data positions2 meta.payloadLen with
          | .error _ => none
          | .ok ciphertext => pr.aesDec key meta.iv ciphertext meta.tag

/-- Errors reported by `processDecoding`. -/
inductive DecodeError where
  | noPayload
  | processingFailed
  | extractFailed
deriving Repr, DecidableEq

/-- The container scan: JPEG APP15, then WebP chunk, then trailer. -/
def extractContainerBlob (fileBuffer : List Nat) : Option (List Nat) :=
  match extractJpegAPP15 fileBuffer with
  | some b => some b
  | none =>
    match extractWebPChunk fileBuffer with
    | some b => some b
    | none => extractTrailer fileBuffer

/-- The container branch of `processDecoding`: reject a missing blob or one
shorter than `HEADER_SIZE + 1` as no-payload; parse the header, derive the
key from the stored parameters and decrypt the remainder of the blob (a
parse, KDF, or auth failure escapes to the outer catch). -/
def containerDecode (pr : Prims) (fileBuffer password : List Nat) :
    Except DecodeError (List Nat) :=
  match extractContainerBlob fileBuffer with
  | none => .error .noPayload
  | some blob =>
    if blob.length < HEADER_SIZE + 1 then .error .noPayload
    else
      match parseHeader (blob.take HEADER_SIZE) with
      | .error _ => .error .processingFailed
      | .ok meta =>
        match deriveKeyFixed pr password meta.salt meta.logN meta.r meta.p with
        | .error _ => .error .processingFailed
        | .ok key =>
          match pr.aesDec key meta.iv (blob.drop HEADER_SIZE) meta.tag with
          | none => .error .processingFailed
          | some pt => .ok pt

/-- The codec core of `processDecoding`: try the PNG path, fall back to the
container scan, and treat an empty decoded message as a failure (the source
checks the decoded string for truthiness, and `""` is falsy). -/
def processDecoding (pr : Prims) (fileBuffer password : List Nat) :
    Except DecodeError (List Nat) :=
  match pngDecodeAttempt pr fileBuffer password with
  | some msg => if msg = [] then .error .extractFailed else .ok msg
  | none =>
    match containerDecode pr fileBuffer password with
    | .ok pt => if pt = [] then .error .extractFailed else .ok pt
    | .error e => .error e

end Dec

/-- Concrete primitives for the C5 witness: scrypt succeeds only at
`N = 2^13` and reports a memory-style failure elsewhere. -/
def c5prims : Prims :=
  { hmac := fun _ _ => List.replicate 32 0
    scrypt := fun _ _ _ N _ _ =>
      if N = 2 ^ 13 then .ok (List.replicate 32 1) else .error .memLimit
    aesEnc := fun _ _ pt => (pt, List.replicate 16 0)
    aesDec := fun _ _ c _ => some c
    pngRead := fun _ => none
    pngWrite := fun d => d }

/-- Concrete valid header parameters for the C4 witness. -/
def c4hp : HeaderParams :=
  { encrypted := true, randomized := false, bitsPerChannel := 2, channelsMask := 7,
    payloadLen := 300, kdf := 1, logN := 14, r := 8, p := 1,
    salt := List.replicate 16 170, iv := List.replicate 12 187, tag := List.replicate 16 204 }

/-- The 60 serialized bytes of `c4hp`. -/
def c4bytes : List Nat :=
  [69, 67, 65, 80, 1, 1, 2, 7, 0, 0, 1, 44, 1, 14, 8, 1]
    ++ List.replicate 16 170 ++ List.replicate 12 187 ++ List.replicate 16 204

/-- Header parameters with a bad salt length for the C4 witness. -/
def c4hpBad : HeaderParams :=
  { encrypted := true, randomized := false, bitsPerChannel := 1, channelsMask := 7,
    payloadLen := 0, kdf := 1, logN := 15, r := 8, p := 1,
    salt := [1, 2, 3], iv := List.replicate 12 0, tag := List.replicate 16 0 }

/-- Primitives for the C2 scenario: a PNG codec that reads the carrier as a
single RGBA pixel, far below header capacity. -/
def c2prims : Prims :=
  { c5prims with pngRead := fun _ => some [0, 0, 0, 0] }

/-- The header built in the C2/C1 small-PNG scenario (logN lands at 13 with
`c5prims`-style scrypt, payload 1 byte). -/
def c2hdr : List Nat :=
  [69, 67, 65, 80, 1, 3, 1, 7, 0, 0, 0, 1, 1, 13, 8, 1]
    ++ List.replicate 16 0 ++ List.replicate 12 0 ++ List.replicate 16 0

/-- A concrete 160-pixel RGBA carrier for the C9 witness. -/
def c9data : List Nat := List.replicate 640 7

/-- The pixel buffer after header embedding in the C9 witness. -/
def c9d1 : List Nat :=
  Enc.writeBits c9data
    (((Enc.enumerateRGBByteIndices c9data).take (HEADER_SIZE * 8)).map (fun i => ⟨i, 0⟩))
    (Enc.dataToBits c2hdr)

/-- The appended `ECAP` chunk of `insertWebPChunk`. -/
def ecapChunk (blob : List Nat) : List Nat :=
  MAGIC ++ u32le blob.length ++ blob ++ (if blob.length % 2 = 1 then [0] else [])

/-- The rebuilt RIFF container of `insertWebPChunk`. -/
def webpOut (orig blob : List Nat) : List Nat :=
  [82, 73, 70, 70] ++ u32le ((orig.drop 12 ++ ecapChunk blob).length + 4)
    ++ [87, 69, 66, 80] ++ (orig.drop 12 ++ ecapChunk blob)

/-- The 60-byte header built by `processEncoding` for a 1-byte message with
all-zero salt and iv at the adaptive logN 13 of `c5prims`. -/
def c1hdr : List Nat :=
  [69, 67, 65, 80, 1, 3, 1, 7, 0, 0, 0, 1, 1, 13, 8, 1]
    ++ (List.replicate 16 0 ++ List.replicate 12 0 ++ List.replicate 16 0)

/-- The same header for a zero-length message. -/
def c1hdr0 : List Nat :=
  [69, 67, 65, 80, 1, 3, 1, 7, 0, 0, 0, 0, 1, 13, 8, 1]
    ++ (List.replicate 16 0 ++ List.replicate 12 0 ++ List.replicate 16 0)

theorem byteAt_nil (i : Nat) : byteAt [] i = 0 := by
  cases i <;> rfl

theorem byteAt_append_left {l₁ l₂ : List Nat} {i : Nat} (h : i < l₁.length) :
    byteAt (l₁ ++ l₂) i = byteAt l₁ i := by
  simp [byteAt, List.getD, List.getElem?_append_left h]

theorem byteAt_append_right {l₁ l₂ : List Nat} {i : Nat} (h : l₁.length ≤ i) :
    byteAt (l₁ ++ l₂) i = byteAt l₂ (i - l₁.length) := by
  simp [byteAt, List.getD, List.getElem?_append_right h]

theorem readU32BE_u32be_append (n : Nat) (rest : List Nat) :
    readU32BE (u32be n ++ rest) 0 = n % 2 ^ 32 := by
  have h0 : byteAt (u32be n ++ rest) 0 = n % 2 ^ 32 / 2 ^ 24 % 256 := by
    simp [u32be, byteAt]
  have h1 : byteAt (u32be n ++ rest) 1 = n % 2 ^ 32 / 2 ^ 16 % 256 := by
    simp [u32be, byteAt]
  have h2 : byteAt (u32be n ++ rest) 2 = n % 2 ^ 32 / 2 ^ 8 % 256 := by
    simp [u32be, byteAt]
  have h3 : byteAt (u32be n ++ rest) 3 = n % 2 ^ 32 % 256 := by
    simp [u32be, byteAt]
  simp only [readU32BE, h0, h1, h2, h3]
  omega

theorem u32be_length (n : Nat) : (u32be n).length = 4 := rfl

theorem u32le_length (n : Nat) : (u32le n).length = 4 := rfl

theorem getBit_le_one (v k : Nat) : getBit v k ≤ 1 := by
  have := Nat.mod_lt (v / 2 ^ k) (show 0 < 2 by norm_num)
  simp only [getBit]
  omega

theorem bit_decomp (v k : Nat) :
    v = v % 2 ^ k + getBit v k * 2 ^ k + v / 2 ^ (k + 1) * 2 ^ (k + 1) := by
  have h1 := Nat.div_add_mod v (2 ^ (k + 1))
  have h2 : v % 2 ^ (k + 1) = v % 2 ^ k + 2 ^ k * (v / 2 ^ k % 2) := by
    rw [pow_succ]
    exact Nat.mod_mul
  rw [Nat.mul_comm (2 ^ k)] at h2
  rw [Nat.mul_comm (2 ^ (k + 1))] at h1
  simp only [getBit]
  omega

theorem setBit_eq (v k b : Nat) :
    setBit v k b = v % 2 ^ k + b * 2 ^ k + v / 2 ^ (k + 1) * 2 ^ (k + 1) := by
  have h := bit_decomp v k
  simp only [setBit]
  omega

theorem getBit_add_high (lo m j k : Nat) (hjk : j < k) :
    getBit (lo + 2 ^ k * m) j = getBit lo j := by
  have hk : 2 ^ k * m = 2 ^ (k - j) * m * 2 ^ j := by
    have hpow : (2 : Nat) ^ k = 2 ^ (k - j) * 2 ^ j := by
      rw [← pow_add]
      congr 1
      omega
    rw [hpow]
    ring
  have hpos : 0 < 2 ^ j := Nat.pos_pow_of_pos j (by norm_num)
  rw [getBit, hk, Nat.add_mul_div_right _ _ hpos]
  have heven : 2 ^ (k - j) * m % 2 = 0 := by
    obtain ⟨t, ht⟩ : ∃ t, k - j = t + 1 := ⟨k - j - 1, by omega⟩
    rw [ht, pow_succ, mul_comm (2 ^ t) 2, mul_assoc]
    exact Nat.mul_mod_right 2 _
  rw [getBit, Nat.add_mod, heven]
  simp

theorem getBit_lo_add_mul (lo hi j k : Nat) (hlo : lo < 2 ^ (k + 1)) (hkj : k < j) :
    getBit (lo + hi * 2 ^ (k + 1)) j = getBit (hi * 2 ^ (k + 1)) j := by
  have hstep : (lo + hi * 2 ^ (k + 1)) / 2 ^ (k + 1) = hi := by
    rw [Nat.add_mul_div_right _ _ (Nat.pos_pow_of_pos _ (by norm_num))]
    rw [Nat.div_eq_of_lt hlo]
    omega
  have hstep2 : hi * 2 ^ (k + 1) / 2 ^ (k + 1) = hi :=
    Nat.mul_div_cancel _ (Nat.pos_pow_of_pos _ (by norm_num))
  have hj : (2 : Nat) ^ j = 2 ^ (k + 1) * 2 ^ (j - (k + 1)) := by
    rw [← pow_add]
    congr 1
    omega
  rw [getBit, getBit, hj, ← Nat.div_div_eq_div_mul, ← Nat.div_div_eq_div_mul, hstep, hstep2]

theorem getBit_setBit_self (v k b : Nat) (hb : b ≤ 1) :
    getBit (setBit v k b) k = b := by
  rw [setBit_eq]
  have hlo : v % 2 ^ k < 2 ^ k := Nat.mod_lt _ (Nat.pos_pow_of_pos _ (by norm_num))
  rw [getBit]
  have h1 : (v % 2 ^ k + b * 2 ^ k + v / 2 ^ (k + 1) * 2 ^ (k + 1)) / 2 ^ k
      = b + v / 2 ^ (k + 1) * 2 := by
    have h2 : (2 : Nat) ^ (k + 1) = 2 ^ k * 2 := by rw [pow_succ]
    rw [h2, show v % 2 ^ k + b * 2 ^ k + v / (2 ^ k * 2) * (2 ^ k * 2)
        = v % 2 ^ k + (b + v / (2 ^ k * 2) * 2) * 2 ^ k by ring]
    rw [Nat.add_mul_div_right _ _ (Nat.pos_pow_of_pos k (by norm_num)),
      Nat.div_eq_of_lt hlo]
    omega
  rw [h1]
  omega

theorem getBit_setBit_ne (v k b j : Nat) (hb : b ≤ 1) (hne : j ≠ k) :
    getBit (setBit v k b) j = getBit v j := by
  rcases Nat.lt_or_ge j k with hj | hj
  · rw [setBit_eq]
    have hsplit : v % 2 ^ k + b * 2 ^ k + v / 2 ^ (k + 1) * 2 ^ (k + 1)
        = v % 2 ^ k + 2 ^ k * (b + v / 2 ^ (k + 1) * 2) := by
      rw [pow_succ]
      ring
    rw [hsplit, getBit_add_high _ _ _ _ hj]
    conv_rhs => rw [bit_decomp v k]
    have hsplit2 : v % 2 ^ k + getBit v k * 2 ^ k + v / 2 ^ (k + 1) * 2 ^ (k + 1)
        = v % 2 ^ k + 2 ^ k * (getBit v k + v / 2 ^ (k + 1) * 2) := by
      rw [pow_succ]
      ring
    rw [hsplit2, getBit_add_high _ _ _ _ hj]
  · have hj' : k < j := by omega
    rw [setBit_eq]
    have hlo : v % 2 ^ k + b * 2 ^ k < 2 ^ (k + 1) := by
      have h1 := Nat.mod_lt v (show 0 < 2 ^ k from Nat.pos_pow_of_pos _ (by norm_num))
      have h2 : b * 2 ^ k ≤ 1 * 2 ^ k := Nat.mul_le_mul_right _ hb
      rw [pow_succ]
      linarith
    rw [show v % 2 ^ k + b * 2 ^ k + v / 2 ^ (k + 1) * 2 ^ (k + 1)
      = (v % 2 ^ k + b * 2 ^ k) + v / 2 ^ (k + 1) * 2 ^ (k + 1) by ring]
    rw [getBit_lo_add_mul _ _ _ _ hlo hj']
    conv_rhs => rw [bit_decomp v k]
    have hlo2 : v % 2 ^ k + getBit v k * 2 ^ k < 2 ^ (k + 1) := by
      have h1 := Nat.mod_lt v (show 0 < 2 ^ k from Nat.pos_pow_of_pos _ (by norm_num))
      have h2 : getBit v k * 2 ^ k ≤ 1 * 2 ^ k := Nat.mul_le_mul_right _ (getBit_le_one v k)
      rw [pow_succ]
      linarith
    rw [show v % 2 ^ k + getBit v k * 2 ^ k + v / 2 ^ (k + 1) * 2 ^ (k + 1)
      = (v % 2 ^ k + getBit v k * 2 ^ k) + v / 2 ^ (k + 1) * 2 ^ (k + 1) by ring]
    rw [getBit_lo_add_mul _ _ _ _ hlo2 hj']

theorem setBit_zero_div_two (v b : Nat) (hb : b ≤ 1) :
    setBit v 0 b / 2 = v / 2 := by
  rw [setBit_eq]
  simp only [pow_zero, pow_one, Nat.mul_one]
  omega

theorem buildHeader_ok (hp : HeaderParams) (hsalt : hp.salt.length = 16)
    (hiv : hp.iv.length = 12) (htag : hp.tag.length = 16) :
    Enc.buildHeader hp = .ok (MAGIC ++ VERSION ::
      ((if hp.encrypted then 1 else 0) + (if hp.randomized then 2 else 0)) % 256 ::
      hp.bitsPerChannel % 256 :: hp.channelsMask % 256 ::
      (u32be hp.payloadLen ++ hp.kdf % 256 :: hp.logN % 256 :: hp.r % 256 :: hp.p % 256 ::
        (hp.salt ++ hp.iv ++ hp.tag))) := by
  rw [Enc.buildHeader]
  rw [if_neg (by omega), if_neg (by omega), if_neg (by omega)]

theorem buildHeader_length (hp : HeaderParams) (bytes : List Nat)
    (h : Enc.buildHeader hp = .ok bytes) : bytes.length = 60 := by
  rw [Enc.buildHeader] at h
  by_cases h1 : hp.salt.length ≠ 16
  · rw [if_pos h1] at h
    exact absurd h (by simp)
  · rw [if_neg h1] at h
    by_cases h2 : hp.iv.length ≠ 12
    · rw [if_pos h2] at h
      exact absurd h (by simp)
    · rw [if_neg h2] at h
      by_cases h3 : hp.tag.length ≠ 16
      · rw [if_pos h3] at h
        exact absurd h (by simp)
      · rw [if_neg h3] at h
        have hb : bytes = MAGIC ++ VERSION ::
            ((if hp.encrypted then 1 else 0) + (if hp.randomized then 2 else 0)) % 256 ::
            hp.bitsPerChannel % 256 :: hp.channelsMask % 256 ::
            (u32be hp.payloadLen ++ hp.kdf % 256 :: hp.logN % 256 :: hp.r % 256 :: hp.p % 256 ::
              (hp.salt ++ hp.iv ++ hp.tag)) := by
          exact (Except.ok.injEq _ _ ▸ congrArg id h).symm ▸ by
            cases h
            rfl
        subst hb
        simp [MAGIC, u32be, List.length_append]
        omega

theorem parseHeader_buildHeader (hp : HeaderParams) (bytes : List Nat)
    (hbuild : Enc.buildHeader hp = .ok bytes)
    (hsalt : hp.salt.length = 16) (hiv : hp.iv.length = 12) (htag : hp.tag.length = 16)
    (hkdf : hp.kdf = 1) (hbpc : hp.bitsPerChannel < 256) (hmask : hp.channelsMask < 256)
    (hlogN : hp.logN < 256) (hr : hp.r < 256) (hq : hp.p < 256)
    (hpl : hp.payloadLen < 2 ^ 32) :
    Dec.parseHeader bytes = .ok
      { version := 1, encrypted := hp.encrypted, randomized := hp.randomized,
        bitsPerChannel := hp.bitsPerChannel, channelsMask := hp.channelsMask,
        payloadLen := hp.payloadLen, kdf := 1, logN := hp.logN, r := hp.r, p := hp.p,
        salt := hp.salt, iv := hp.iv, tag := hp.tag } := by
  have hb := buildHeader_ok hp hsalt hiv htag
  rw [hbuild] at hb
  have hbytes : bytes = MAGIC ++ VERSION ::
      ((if hp.encrypted then 1 else 0) + (if hp.randomized then 2 else 0)) % 256 ::
      hp.bitsPerChannel % 256 :: hp.channelsMask % 256 ::
      (u32be hp.payloadLen ++ hp.kdf % 256 :: hp.logN % 256 :: hp.r % 256 :: hp.p % 256 ::
        (hp.salt ++ hp.iv ++ hp.tag)) := by
    cases hb
    rfl
  subst hbytes
  have hflags : ((if hp.encrypted then 1 else 0) + (if hp.randomized then 2 else 0)) % 256
      = (if hp.encrypted then 1 else 0) + (if hp.randomized then 2 else 0) := by
    cases hp.encrypted <;> cases hp.randomized <;> rfl
  have hlen : (MAGIC ++ VERSION ::
      ((if hp.encrypted then 1 else 0) + (if hp.randomized then 2 else 0)) % 256 ::
      hp.bitsPerChannel % 256 :: hp.channelsMask % 256 ::
      (u32be hp.payloadLen ++ hp.kdf % 256 :: hp.logN % 256 :: hp.r % 256 :: hp.p % 256 ::
        (hp.salt ++ hp.iv ++ hp.tag))).length = 60 := by
    simp [MAGIC, u32be, List.length_append, hsalt, hiv, htag]
  rw [Dec.parseHeader]
  rw [if_neg (by rw [hlen]; norm_num [HEADER_SIZE])]
  rw [if_neg (by simp [MAGIC])]
  rw [if_neg (by simp [MAGIC, byteAt, VERSION])]
  rw [if_neg (by simp [MAGIC, byteAt, u32be, hkdf, KDF_SCRYPT])]
  set bytes' := MAGIC ++ VERSION ::
      ((if hp.encrypted then 1 else 0) + (if hp.randomized then 2 else 0)) % 256 ::
      hp.bitsPerChannel % 256 :: hp.channelsMask % 256 ::
      (u32be hp.payloadLen ++ hp.kdf % 256 :: hp.logN % 256 :: hp.r % 256 :: hp.p % 256 ::
        (hp.salt ++ hp.iv ++ hp.tag)) with hbytes'
  have hd16 : bytes'.drop 16 = hp.salt ++ hp.iv ++ hp.tag := by
    rw [hbytes']
    rfl
  have hd32 : bytes'.drop 32 = hp.iv ++ hp.tag := by
    have : bytes'.drop 32 = (bytes'.drop 16).drop 16 := by
      rw [List.drop_drop]
    rw [this, hd16, List.append_assoc, List.drop_left' hsalt]
  have hd44 : bytes'.drop 44 = hp.tag := by
    have : bytes'.drop 44 = (bytes'.drop 32).drop 12 := by
      rw [List.drop_drop]
    rw [this, hd32, List.drop_left' hiv]
  have hsalt' : (bytes'.drop 16).take 16 = hp.salt := by
    rw [hd16, List.append_assoc, List.take_left' hsalt]
  have hiv' : (bytes'.drop 32).take 12 = hp.iv := by
    rw [hd32, List.take_left' hiv]
  have htag' : (bytes'.drop 44).take 16 = hp.tag := by
    rw [hd44, ← htag, List.take_length]
  have hflagv : byteAt bytes' 5
      = (if hp.encrypted then 1 else 0) + (if hp.randomized then 2 else 0) := by
    rw [hbytes']
    show ((if hp.encrypted then 1 else 0) + (if hp.randomized then 2 else 0)) % 256 = _
    exact hflags
  have hpl' : readU32BE bytes' 8 = hp.payloadLen := by
    have b0 : byteAt bytes' 8 = hp.payloadLen % 2 ^ 32 / 2 ^ 24 % 256 := rfl
    have b1 : byteAt bytes' 9 = hp.payloadLen % 2 ^ 32 / 2 ^ 16 % 256 := rfl
    have b2 : byteAt bytes' 10 = hp.payloadLen % 2 ^ 32 / 2 ^ 8 % 256 := rfl
    have b3 : byteAt bytes' 11 = hp.payloadLen % 2 ^ 32 % 256 := rfl
    rw [readU32BE]
    rw [show (8 : Nat) + 1 = 9 from rfl, show (9 : Nat) + 1 = 10 from rfl,
      show (10 : Nat) + 1 = 11 from rfl]
    rw [b0, b1, b2, b3]
    omega
  simp only [Except.ok.injEq, ParsedHeader.mk.injEq]
  refine ⟨rfl, ?_, ?_, ?_, ?_, ?_, ?_, ?_, ?_, ?_, hsalt', hiv', htag'⟩
  · rw [hflagv]
    cases hp.encrypted <;> cases hp.randomized <;> simp [getBit]
  · rw [hflagv]
    cases hp.encrypted <;> cases hp.randomized <;> simp [getBit]
  · show hp.bitsPerChannel % 256 = hp.bitsPerChannel
    omega
  · show hp.channelsMask % 256 = hp.channelsMask
    omega
  · exact hpl'
  · show hp.kdf % 256 = 1
    omega
  · show hp.logN % 256 = hp.logN
    omega
  · show hp.r % 256 = hp.r
    omega
  · show hp.p % 256 = hp.p
    omega

theorem buildHeader_error_of_bad_lengths (hp : HeaderParams)
    (h : hp.salt.length ≠ 16 ∨ hp.iv.length ≠ 12 ∨ hp.tag.length ≠ 16) :
    ∃ e, Enc.buildHeader hp = .error e := by
  rw [Enc.buildHeader]
  by_cases h1 : hp.salt.length ≠ 16
  · rw [if_pos h1]
    exact ⟨_, rfl⟩
  · rw [if_neg h1]
    by_cases h2 : hp.iv.length ≠ 12
    · rw [if_pos h2]
      exact ⟨_, rfl⟩
    · rw [if_neg h2]
      have h3 : hp.tag.length ≠ 16 := by tauto
      rw [if_pos h3]
      exact ⟨_, rfl⟩

theorem nextByte_encDec (hmac : List Nat → List Nat → List Nat) (s : Enc.HmacPRNG) :
    Dec.nextByte hmac (encDecState s)
      = ((Enc.nextByte hmac s).1, encDecState (Enc.nextByte hmac s).2) := by
  rw [Enc.nextByte, Dec.nextByte]
  by_cases h : s.ptr < s.buf.length
  · rw [if_pos h, if_pos (show (encDecState s).ptr < (encDecState s).buf.length from h)]
    rfl
  · rw [if_neg h, if_neg (show ¬(encDecState s).ptr < (encDecState s).buf.length from h)]
    rfl

theorem nextUint32_encDec (hmac : List Nat → List Nat → List Nat) (s : Enc.HmacPRNG) :
    Dec.nextUint32 hmac (encDecState s)
      = ((Enc.nextUint32 hmac s).1, encDecState (Enc.nextUint32 hmac s).2) := by
  rw [Enc.nextUint32, Dec.nextUint32]
  simp only [nextByte_encDec]

theorem shuffleGo_encDec (hmac : List Nat → List Nat → List Nat) (i : Nat) :
    ∀ (l : List BitPos) (s : Enc.HmacPRNG),
      Dec.shuffleGo hmac l (encDecState s) i
        = ((Enc.shuffleGo hmac l s i).1, encDecState (Enc.shuffleGo hmac l s i).2) := by
  induction i with
  | zero =>
    intro l s
    rw [Enc.shuffleGo, Dec.shuffleGo]
  | succ n ih =>
    intro l s
    rw [Enc.shuffleGo, Dec.shuffleGo]
    simp only [nextUint32_encDec]
    exact ih _ _

theorem shufflePositions_encDec (hmac : List Nat → List Nat → List Nat)
    (positions : List BitPos) (s : Enc.HmacPRNG) :
    (Dec.shufflePositions hmac positions (encDecState s)).1
      = (Enc.shufflePositions hmac positions s).1 := by
  rw [Enc.shufflePositions, Dec.shufflePositions, shuffleGo_encDec]

theorem enumRGBAux_encDec (i len : Nat) : Enc.enumRGBAux i len = Dec.enumRGBAux i len := by
  induction i, len using Enc.enumRGBAux.induct with
  | case1 i len h ih =>
    rw [Enc.enumRGBAux, Dec.enumRGBAux, if_pos h, if_pos h, ih]
  | case2 i len h =>
    rw [Enc.enumRGBAux, Dec.enumRGBAux, if_neg h, if_neg h]

theorem buildPayloadPositions_encDec (px1 px2 : List Nat) (bpc : Nat)
    (hlen : px1.length = px2.length) :
    Enc.buildPayloadPositions px1 bpc = Dec.buildPayloadPositions px2 bpc := by
  rw [Enc.buildPayloadPositions, Dec.buildPayloadPositions,
    Enc.enumerateRGBByteIndices, Dec.enumerateRGBByteIndices, hlen, enumRGBAux_encDec]

theorem byteAt_set_self (l : List Nat) (i v : Nat) (h : i < l.length) :
    byteAt (l.set i v) i = v := by
  simp [byteAt, List.getD, List.getElem?_set, h]

theorem byteAt_set_ne (l : List Nat) (i j v : Nat) (h : i ≠ j) :
    byteAt (l.set i v) j = byteAt l j := by
  simp [byteAt, List.getD, List.getElem?_set, h]

theorem listSwap_perm {α : Type} [DecidableEq α] (l : List α) (i j : Nat) (d : α)
    (hi : i < l.length) (hj : j < l.length) : (listSwap l i j d).Perm l := by
  rw [listSwap, List.perm_iff_count]
  intro b
  have hgi : l.getD i d = l[i] := by
    rw [List.getD_eq_getElem?_getD, List.getElem?_eq_getElem hi]
    rfl
  have hgj : l.getD j d = l[j] := by
    rw [List.getD_eq_getElem?_getD, List.getElem?_eq_getElem hj]
    rfl
  rw [hgi, hgj]
  by_cases hij : i = j
  · subst hij
    have hlen : i < (l.set i l[i]).length := by
      simp only [List.length_set]
      exact hi
    rw [List.count_set _ _ _ _ hlen, List.count_set _ _ _ _ hi]
    have hset : (l.set i l[i])[i] = l[i] := by
      rw [List.getElem_set]
      simp
    rw [hset]
    by_cases hib : l[i] = b
    · have hmem : b ∈ l := hib ▸ List.getElem_mem hi
      have hc : 0 < l.count b := List.count_pos_iff.mpr hmem
      simp only [hib, beq_self_eq_true, if_true]
      omega
    · have hf : (l[i] == b) = false := by simpa using hib
      simp only [hf, Bool.false_eq_true, if_false]
      omega
  · have hjlen : j < (l.set i l[j]).length := by
      simp only [List.length_set]
      exact hj
    have hset : (l.set i l[j])[j] = l[j] := by
      rw [List.getElem_set]
      simp [hij]
    rw [List.count_set _ _ _ _ hjlen, hset, List.count_set _ _ _ _ hi]
    by_cases hib : l[i] = b <;> by_cases hjb : l[j] = b
    · have hmem : b ∈ l := hib ▸ List.getElem_mem hi
      have hc : 0 < l.count b := List.count_pos_iff.mpr hmem
      simp only [hib, hjb, beq_self_eq_true, if_true]
      omega
    · have hmem : b ∈ l := hib ▸ List.getElem_mem hi
      have hc : 0 < l.count b := List.count_pos_iff.mpr hmem
      have hf : (l[j] == b) = false := by simpa using hjb
      simp only [hib, beq_self_eq_true, if_true, hf, Bool.false_eq_true, if_false]
      omega
    · have hmem : b ∈ l := hjb ▸ List.getElem_mem hj
      have hc : 0 < l.count b := List.count_pos_iff.mpr hmem
      have hf : (l[i] == b) = false := by simpa using hib
      simp only [hjb, beq_self_eq_true, if_true, hf, Bool.false_eq_true, if_false]
      omega
    · have hf : (l[i] == b) = false := by simpa using hib
      have hf' : (l[j] == b) = false := by simpa using hjb
      simp only [hf, hf', Bool.false_eq_true, if_false]
      omega

theorem listSwap_length {α : Type} (l : List α) (i j : Nat) (d : α) :
    (listSwap l i j d).length = l.length := by
  simp [listSwap]

theorem shuffleGo_perm (hmac : List Nat → List Nat → List Nat) :
    ∀ (i : Nat) (l : List BitPos) (s : Enc.HmacPRNG), i < l.length →
      ((Enc.shuffleGo hmac l s i).1).Perm l := by
  intro i
  induction i with
  | zero =>
    intro l s _
    rw [Enc.shuffleGo]
  | succ n ih =>
    intro l s h
    rw [Enc.shuffleGo]
    have hj : (Enc.nextUint32 hmac s).1 % (n + 2) < l.length := by
      have := Nat.mod_lt (Enc.nextUint32 hmac s).1 (show 0 < n + 2 by omega)
      omega
    have hswap := listSwap_perm l (n + 1) ((Enc.nextUint32 hmac s).1 % (n + 2))
      (⟨0, 0⟩ : BitPos) h hj
    have hlen : n < (listSwap l (n + 1) ((Enc.nextUint32 hmac s).1 % (n + 2))
        (⟨0, 0⟩ : BitPos)).length := by
      rw [listSwap_length]
      omega
    exact (ih _ _ hlen).trans hswap

theorem shufflePositions_perm (hmac : List Nat → List Nat → List Nat)
    (l : List BitPos) (s : Enc.HmacPRNG) :
    ((Enc.shufflePositions hmac l s).1).Perm l := by
  rw [Enc.shufflePositions]
  match hl : l with
  | [] =>
    rw [show ([] : List BitPos).length - 1 = 0 from rfl, Enc.shuffleGo]
  | (x :: xs) =>
    have : (x :: xs).length - 1 < (x :: xs).length := by
      simp
    exact shuffleGo_perm hmac _ _ s this

theorem writeBits_nil (px : List Nat) (bs : List Nat) : Enc.writeBits px [] bs = px := by
  cases bs <;> rfl

theorem writeBits_cons_nil (px : List Nat) (p : BitPos) (ps : List BitPos) :
    Enc.writeBits px (p :: ps) [] = px := rfl

theorem writeBits_cons_cons (px : List Nat) (p : BitPos) (ps : List BitPos)
    (b : Nat) (bs : List Nat) :
    Enc.writeBits px (p :: ps) (b :: bs)
      = Enc.writeBits (px.set p.byteIndex (setBit (byteAt px p.byteIndex) p.plane b)) ps bs := rfl

theorem writeBits_length : ∀ (ps : List BitPos) (bs : List Nat) (px : List Nat),
    (Enc.writeBits px ps bs).length = px.length := by
  intro ps
  induction ps with
  | nil =>
    intro bs px
    rw [writeBits_nil]
  | cons p ps ih =>
    intro bs px
    match bs with
    | [] => rw [writeBits_cons_nil]
    | b :: bs' =>
      rw [writeBits_cons_cons, ih]
      simp

theorem byteAt_writeBits_not_mem : ∀ (ps : List BitPos) (bs : List Nat) (px : List Nat)
    (i : Nat), (∀ p ∈ ps, p.byteIndex ≠ i) →
    byteAt (Enc.writeBits px ps bs) i = byteAt px i := by
  intro ps
  induction ps with
  | nil =>
    intro bs px i _
    rw [writeBits_nil]
  | cons p ps ih =>
    intro bs px i h
    match bs with
    | [] => rw [writeBits_cons_nil]
    | b :: bs' =>
      rw [writeBits_cons_cons, ih _ _ _ (fun q hq => h q (List.mem_cons_of_mem p hq))]
      exact byteAt_set_ne _ _ _ _ (h p (List.mem_cons_self p ps))

theorem readPos_writeBits_not_mem : ∀ (ps : List BitPos) (bs : List Nat) (px : List Nat)
    (q : BitPos), (∀ b ∈ bs, b ≤ 1) → q ∉ ps →
    Dec.readPos (Enc.writeBits px ps bs) q = Dec.readPos px q := by
  intro ps
  induction ps with
  | nil =>
    intro bs px q _ _
    rw [writeBits_nil]
  | cons p ps ih =>
    intro bs px q hb hq
    match bs with
    | [] => rw [writeBits_cons_nil]
    | b :: bs' =>
      have hqp : q ≠ p := fun h => hq (h ▸ List.mem_cons_self p ps)
      have hqs : q ∉ ps := fun h => hq (List.mem_cons_of_mem p h)
      rw [writeBits_cons_cons, ih _ _ _ (fun x hx => hb x (List.mem_cons_of_mem b hx)) hqs]
      rw [Dec.readPos, Dec.readPos]
      by_cases hbyte : p.byteIndex = q.byteIndex
      · by_cases hinb : p.byteIndex < px.length
        · rw [hbyte] at hinb ⊢
          rw [byteAt_set_self _ _ _ hinb]
          have hplane : q.plane ≠ p.plane := by
            intro hpl
            exact hqp (by cases q; cases p; simp_all)
          rw [← hbyte]
          exact getBit_setBit_ne _ _ _ _ (hb b (List.mem_cons_self b bs')) hplane
        · rw [List.set_eq_of_length_le (by omega)]
      · rw [byteAt_set_ne _ _ _ _ hbyte]

theorem byteAt_writeBits_div2 : ∀ (ps : List BitPos) (bs : List Nat) (px : List Nat)
    (i : Nat), (∀ p ∈ ps, p.plane = 0) → (∀ b ∈ bs, b ≤ 1) →
    byteAt (Enc.writeBits px ps bs) i / 2 = byteAt px i / 2 := by
  intro ps
  induction ps with
  | nil =>
    intro bs px i _ _
    rw [writeBits_nil]
  | cons p ps ih =>
    intro bs px i hp hb
    match bs with
    | [] => rw [writeBits_cons_nil]
    | b :: bs' =>
      rw [writeBits_cons_cons,
        ih _ _ _ (fun q hq => hp q (List.mem_cons_of_mem p hq))
          (fun x hx => hb x (List.mem_cons_of_mem b hx))]
      by_cases hbyte : p.byteIndex = i
      · by_cases hinb : p.byteIndex < px.length
        · rw [hbyte] at hinb
          rw [hbyte, byteAt_set_self _ _ _ hinb, hp p (List.mem_cons_self p ps),
            setBit_zero_div_two _ _ (hb b (List.mem_cons_self b bs'))]
        · rw [List.set_eq_of_length_le (by omega)]
      · rw [byteAt_set_ne _ _ _ _ hbyte]

theorem map_readPos_writeBits : ∀ (ps : List BitPos) (bs : List Nat) (px : List Nat),
    ps.Nodup → bs.length = ps.length → (∀ b ∈ bs, b ≤ 1) →
    (∀ p ∈ ps, p.byteIndex < px.length) →
    ps.map (Dec.readPos (Enc.writeBits px ps bs)) = bs := by
  intro ps
  induction ps with
  | nil =>
    intro bs px _ hlen _ _
    simp at hlen
    simp [hlen]
  | cons p ps ih =>
    intro bs px hnd hlen hb hbound
    match bs with
    | [] => simp at hlen
    | b :: bs' =>
      rw [writeBits_cons_cons, List.map_cons]
      have hnd' : ps.Nodup := hnd.of_cons
      have hpnotin : p ∉ ps := by
        intro h
        exact (List.nodup_cons.mp hnd).1 h
      have hbound' : ∀ q ∈ ps, q.byteIndex <
          (px.set p.byteIndex (setBit (byteAt px p.byteIndex) p.plane b)).length := by
        intro q hq
        rw [List.length_set]
        exact hbound q (List.mem_cons_of_mem p hq)
      have htail := ih bs' _ hnd' (by simpa using hlen)
        (fun x hx => hb x (List.mem_cons_of_mem b hx)) hbound'
      rw [htail]
      congr 1
      rw [readPos_writeBits_not_mem _ _ _ _ (fun x hx => hb x (List.mem_cons_of_mem b hx)) hpnotin]
      rw [Dec.readPos, byteAt_set_self _ _ _ (hbound p (List.mem_cons_self p ps))]
      exact getBit_setBit_self _ _ _ (hb b (List.mem_cons_self b bs'))

theorem enumRGBAux_spec : ∀ (k i : Nat), i % 4 = 0 →
    (Enc.enumRGBAux i (i + 4 * k)).length = 3 * k ∧
    (∀ x ∈ Enc.enumRGBAux i (i + 4 * k), i ≤ x ∧ x < i + 4 * k ∧ x % 4 ≠ 3) ∧
    (Enc.enumRGBAux i (i + 4 * k)).Nodup := by
  intro k
  induction k with
  | zero =>
    intro i _
    rw [Enc.enumRGBAux]
    simp
  | succ n ih =>
    intro i h4
    have harg : i + 4 * (n + 1) = (i + 4) + 4 * n := by omega
    rw [Enc.enumRGBAux, if_pos (by omega), harg]
    obtain ⟨ihlen, ihmem, ihnd⟩ := ih (i + 4) (by omega)
    refine ⟨by simp [ihlen]; omega, ?_, ?_⟩
    · intro x hx
      simp only [List.mem_cons] at hx
      rcases hx with rfl | rfl | rfl | hx
      · omega
      · omega
      · omega
      · have := ihmem x hx
        omega
    · have m0 : i ∉ (i + 1) :: (i + 2) :: Enc.enumRGBAux (i + 4) (i + 4 + 4 * n) := by
        simp only [List.mem_cons]
        rintro (h | h | h)
        · omega
        · omega
        · have := ihmem i h
          omega
      have m1 : i + 1 ∉ (i + 2) :: Enc.enumRGBAux (i + 4) (i + 4 + 4 * n) := by
        simp only [List.mem_cons]
        rintro (h | h)
        · omega
        · have := ihmem (i + 1) h
          omega
      have m2 : i + 2 ∉ Enc.enumRGBAux (i + 4) (i + 4 + 4 * n) := by
        intro h
        have := ihmem (i + 2) h
        omega
      exact List.nodup_cons.mpr ⟨m0, List.nodup_cons.mpr ⟨m1, List.nodup_cons.mpr ⟨m2, ihnd⟩⟩⟩

theorem enumerateRGB_spec (px : List Nat) (h4 : 4 ∣ px.length) :
    (Enc.enumerateRGBByteIndices px).length = 3 * (px.length / 4) ∧
    (∀ x ∈ Enc.enumerateRGBByteIndices px, x < px.length ∧ x % 4 ≠ 3) ∧
    (Enc.enumerateRGBByteIndices px).Nodup := by
  have harg : px.length = 0 + 4 * (px.length / 4) := by
    omega
  rw [Enc.enumerateRGBByteIndices]
  obtain ⟨hlen, hmem, hnd⟩ := enumRGBAux_spec (px.length / 4) 0 (by omega)
  rw [← harg] at hlen hmem hnd
  exact ⟨hlen, fun x hx => by have := hmem x hx; omega, hnd⟩

theorem dataToBits_cons (d : Nat) (ds : List Nat) :
    Enc.dataToBits (d :: ds) = Enc.byteBitsMSB d ++ Enc.dataToBits ds := by
  rw [Enc.dataToBits, Enc.dataToBits, List.flatMap_cons]

theorem dataToBits_length (data : List Nat) :
    (Enc.dataToBits data).length = 8 * data.length := by
  induction data with
  | nil => rfl
  | cons d ds ih =>
    rw [dataToBits_cons, List.length_append, ih]
    simp [Enc.byteBitsMSB]
    omega

theorem dataToBits_le_one (data : List Nat) : ∀ b ∈ Enc.dataToBits data, b ≤ 1 := by
  induction data with
  | nil =>
    intro b hb
    simp [Enc.dataToBits] at hb
  | cons d ds ih =>
    intro b hb
    rw [dataToBits_cons, List.mem_append] at hb
    rcases hb with hb | hb
    · simp only [Enc.byteBitsMSB, List.mem_cons] at hb
      rcases hb with rfl | rfl | rfl | rfl | rfl | rfl | rfl | rfl | h
      · exact getBit_le_one _ _
      · exact getBit_le_one _ _
      · exact getBit_le_one _ _
      · exact getBit_le_one _ _
      · exact getBit_le_one _ _
      · exact getBit_le_one _ _
      · exact getBit_le_one _ _
      · exact getBit_le_one _ _
      · simp at h
    · exact ih b hb

set_option maxRecDepth 10000 in
theorem horner_getBit : ∀ b : Nat, b < 256 →
    (((((((getBit b 7 * 2 + getBit b 6) * 2 + getBit b 5) * 2 + getBit b 4) * 2
      + getBit b 3) * 2 + getBit b 2) * 2 + getBit b 1) * 2 + getBit b 0) = b := by
  decide

theorem bitsToBytes_byteBits (b : Nat) (rest : List Nat) :
    Dec.bitsToBytes (Enc.byteBitsMSB b ++ rest)
      = (((((((getBit b 7 * 2 + getBit b 6) * 2 + getBit b 5) * 2 + getBit b 4) * 2
        + getBit b 3) * 2 + getBit b 2) * 2 + getBit b 1) * 2 + getBit b 0)
        :: Dec.bitsToBytes rest := rfl

theorem bitsToBytes_dataToBits (data : List Nat) (h : ∀ b ∈ data, b < 256) :
    Dec.bitsToBytes (Enc.dataToBits data) = data := by
  induction data with
  | nil => rfl
  | cons d ds ih =>
    rw [dataToBits_cons, bitsToBytes_byteBits,
      horner_getBit d (h d (List.mem_cons_self d ds)),
      ih (fun b hb => h b (List.mem_cons_of_mem d hb))]

/-- C7: given the same HMAC primitive, derived key and carrier byte-buffer
length, the encoder's and the decoder's payload bit-position pipelines
(RGB byte indices after the first 480, plane 0 then plane 1, Fisher-Yates
shuffled by the HMAC-SHA-256 counter PRNG seeded with
`HMAC(key, "ECAP-PERMUTE")`) produce identical permuted position lists. -/
theorem c7_prng_position_determinism (hmac : List Nat → List Nat → List Nat)
    (key : List Nat) (px1 px2 : List Nat) (bpc : Nat)
    (hlen : px1.length = px2.length) :
    (Dec.shufflePositions hmac (Dec.buildPayloadPositions px2 bpc)
        (Dec.prngInit (hmac key ECAP_PERMUTE))).1
      = (Enc.shufflePositions hmac (Enc.buildPayloadPositions px1 bpc)
        (Enc.prngInit (hmac key ECAP_PERMUTE))).1 := by
  rw [← buildPayloadPositions_encDec px1 px2 bpc hlen]
  have hinit : Dec.prngInit (hmac key ECAP_PERMUTE)
      = encDecState (Enc.prngInit (hmac key ECAP_PERMUTE)) := rfl
  rw [hinit, shufflePositions_encDec]

/-- C7 witness. -/
theorem c7_witness :
    ([0, 0, 0, 0, 9, 9, 9, 9] : List Nat).length = [1, 1, 1, 1, 2, 2, 2, 2].length ∧
    (Dec.shufflePositions (fun _ _ => List.replicate 32 7)
        (Dec.buildPayloadPositions [1, 1, 1, 1, 2, 2, 2, 2] 1)
        (Dec.prngInit ((fun (_ _ : List Nat) => List.replicate 32 7) [5] ECAP_PERMUTE))).1
      = (Enc.shufflePositions (fun _ _ => List.replicate 32 7)
        (Enc.buildPayloadPositions [0, 0, 0, 0, 9, 9, 9, 9] 1)
        (Enc.prngInit ((fun (_ _ : List Nat) => List.replicate 32 7) [5] ECAP_PERMUTE))).1 :=
  ⟨rfl, c7_prng_position_determinism (fun _ _ => List.replicate 32 7) [5]
    [0, 0, 0, 0, 9, 9, 9, 9] [1, 1, 1, 1, 2, 2, 2, 2] 1 rfl⟩

/-- C4: parsing a serialized header is the identity on every valid header
parameter record (salt 16 bytes, iv 12 bytes, tag 16 bytes, field values
in the ranges of the header table), and serialization fails whenever the
salt is not 16, the iv is not 12, or the tag is not 16 bytes. -/
theorem c4_header_parse_serialize_identity :
    (∀ (hp : HeaderParams) (bytes : List Nat),
      Enc.buildHeader hp = .ok bytes →
      hp.salt.length = 16 → hp.iv.length = 12 → hp.tag.length = 16 →
      hp.kdf = 1 → (hp.bitsPerChannel = 1 ∨ hp.bitsPerChannel = 2) →
      hp.channelsMask = 7 → 12 ≤ hp.logN → hp.logN ≤ 20 →
      1 ≤ hp.r → hp.r < 256 → 1 ≤ hp.p → hp.p < 256 →
      hp.payloadLen ≤ 2 ^ 31 - 1 →
      Dec.parseHeader bytes = .ok
        { version := 1, encrypted := hp.encrypted, randomized := hp.randomized,
          bitsPerChannel := hp.bitsPerChannel, channelsMask := hp.channelsMask,
          payloadLen := hp.payloadLen, kdf := 1, logN := hp.logN, r := hp.r,
          p := hp.p, salt := hp.salt, iv := hp.iv, tag := hp.tag }) ∧
    (∀ hp : HeaderParams,
      hp.salt.length ≠ 16 ∨ hp.iv.length ≠ 12 ∨ hp.tag.length ≠ 16 →
      ∃ e, Enc.buildHeader hp = .error e) := by
  constructor
  · intro hp bytes hbuild hsalt hiv htag hkdf hbpc hmask hlogN1 hlogN2 hr1 hr2 hp1 hp2 hpl
    exact parseHeader_buildHeader hp bytes hbuild hsalt hiv htag hkdf
      (by omega) (by omega) (by omega) (by omega) (by omega) (by omega)
  · exact buildHeader_error_of_bad_lengths

/-! ## Behaviour of the adaptive KDF loop -/

theorem deriveKeyAdaptiveGo_unfold (try' : Nat → Except ScryptErr (List Nat)) (logN : Nat) :
    Enc.deriveKeyAdaptiveGo try' logN =
      if logN < 12 then .error .unsupported
      else
        match try' logN with
        | .ok k => .ok (k, logN)
        | .error e =>
          if isMemStyle e then Enc.deriveKeyAdaptiveGo try' (logN - 1)
          else .error (.propagated e) := by
  match logN with
  | 0 => rfl
  | n + 1 =>
    rw [Enc.deriveKeyAdaptiveGo]
    rfl

theorem go_first_success (try' : Nat → Except ScryptErr (List Nat)) :
    ∀ (n : Nat) (k : List Nat) (logN : Nat), 12 ≤ logN → logN ≤ n →
      try' logN = .ok k →
      (∀ m, logN < m → m ≤ n → try' m = .error .memLimit) →
      Enc.deriveKeyAdaptiveGo try' n = .ok (k, logN) := by
  intro n
  induction n with
  | zero =>
    intro k logN h1 h2 _ _
    omega
  | succ n ih =>
    intro k logN h1 h2 hok hmem
    rw [deriveKeyAdaptiveGo_unfold, if_neg (by omega)]
    by_cases heq : logN = n + 1
    · subst heq
      rw [hok]
    · have hm := hmem (n + 1) (by omega) (by omega)
      rw [hm]
      show Enc.deriveKeyAdaptiveGo try' n = .ok (k, logN)
      exact ih k logN h1 (by omega) hok (fun m hma hmb => hmem m hma (by omega))

theorem go_all_mem (try' : Nat → Except ScryptErr (List Nat)) :
    ∀ (n : Nat), (∀ m, 12 ≤ m → m ≤ n → try' m = .error .memLimit) →
      Enc.deriveKeyAdaptiveGo try' n = .error .unsupported := by
  intro n
  induction n with
  | zero =>
    intro _
    rw [deriveKeyAdaptiveGo_unfold, if_pos (by omega)]
  | succ n ih =>
    intro hmem
    rw [deriveKeyAdaptiveGo_unfold]
    by_cases h : n + 1 < 12
    · rw [if_pos h]
    · rw [if_neg h, hmem (n + 1) (by omega) (by omega)]
      show Enc.deriveKeyAdaptiveGo try' n = .error .unsupported
      exact ih (fun m hma hmb => hmem m hma (by omega))

theorem go_propagate (try' : Nat → Except ScryptErr (List Nat)) :
    ∀ (n logN : Nat), 12 ≤ logN → logN ≤ n →
      try' logN = .error .other →
      (∀ m, logN < m → m ≤ n → try' m = .error .memLimit) →
      Enc.deriveKeyAdaptiveGo try' n = .error (.propagated .other) := by
  intro n
  induction n with
  | zero =>
    intro logN h1 h2 _ _
    omega
  | succ n ih =>
    intro logN h1 h2 herr hmem
    rw [deriveKeyAdaptiveGo_unfold, if_neg (by omega)]
    by_cases heq : logN = n + 1
    · subst heq
      rw [herr]
      rfl
    · rw [hmem (n + 1) (by omega) (by omega)]
      show Enc.deriveKeyAdaptiveGo try' n = .error (.propagated .other)
      exact ih logN h1 (by omega) herr (fun m hma hmb => hmem m hma (by omega))

theorem go_ok_inv (try' : Nat → Except ScryptErr (List Nat)) :
    ∀ (n : Nat) (k : List Nat) (l : Nat),
      Enc.deriveKeyAdaptiveGo try' n = .ok (k, l) →
      12 ≤ l ∧ l ≤ n ∧ try' l = .ok k := by
  intro n
  induction n with
  | zero =>
    intro k l h
    rw [deriveKeyAdaptiveGo_unfold, if_pos (by omega)] at h
    exact absurd h (by simp)
  | succ n ih =>
    intro k l h
    rw [deriveKeyAdaptiveGo_unfold] at h
    by_cases hlt : n + 1 < 12
    · rw [if_pos hlt] at h
      exact absurd h (by simp)
    · rw [if_neg hlt] at h
      match htry : try' (n + 1) with
      | .ok k' =>
        rw [htry] at h
        simp only [Except.ok.injEq, Prod.mk.injEq] at h
        obtain ⟨rfl, rfl⟩ := h
        exact ⟨by omega, by omega, htry⟩
      | .error .memLimit =>
        rw [htry] at h
        have := ih k l h
        exact ⟨this.1, by omega, this.2.2⟩
      | .error .other =>
        rw [htry] at h
        exact absurd h (by simp [isMemStyle])

/-- C5: the encode-time KDF tries scrypt (key length 32) starting at
logN = 15; on a memory-limit / invalid-params style error it decrements
logN and retries; below logN = 12 it fails with the unsupported error;
any other error is propagated; on success it returns the derived key
together with the logN actually used (which the loop keeps in 12..15 and
whose attempt succeeded).  The decode-time KDF is a single scrypt call at
the stored logN, with no retry loop. -/
theorem c5_kdf_adaptive_and_fixed :
    (∀ (pr : Prims) (pw salt : List Nat) (r p k : _) (logN : Nat),
      12 ≤ logN → logN ≤ 15 →
      pr.scrypt pw salt 32 (1 <<< logN) r p = .ok k →
      (∀ m, logN < m → m ≤ 15 → pr.scrypt pw salt 32 (1 <<< m) r p = .error .memLimit) →
      Enc.deriveKeyAdaptive pr pw salt 15 r p = .ok (k, logN)) ∧
    (∀ (pr : Prims) (pw salt : List Nat) (r p : Nat),
      (∀ m, 12 ≤ m → m ≤ 15 → pr.scrypt pw salt 32 (1 <<< m) r p = .error .memLimit) →
      Enc.deriveKeyAdaptive pr pw salt 15 r p = .error .unsupported) ∧
    (∀ (pr : Prims) (pw salt : List Nat) (r p : Nat) (logN : Nat),
      12 ≤ logN → logN ≤ 15 →
      pr.scrypt pw salt 32 (1 <<< logN) r p = .error .other →
      (∀ m, logN < m → m ≤ 15 → pr.scrypt pw salt 32 (1 <<< m) r p = .error .memLimit) →
      Enc.deriveKeyAdaptive pr pw salt 15 r p = .error (.propagated .other)) ∧
    (∀ (pr : Prims) (pw salt : List Nat) (r p k : _) (l : Nat),
      Enc.deriveKeyAdaptive pr pw salt 15 r p = .ok (k, l) →
      12 ≤ l ∧ l ≤ 15 ∧ pr.scrypt pw salt 32 (1 <<< l) r p = .ok k) ∧
    (∀ (pr : Prims) (pw salt : List Nat) (logN r p : Nat), logN < 32 →
      Dec.deriveKeyFixed pr pw salt logN r p = pr.scrypt pw salt 32 (2 ^ logN) r p) := by
  refine ⟨?_, ?_, ?_, ?_, ?_⟩
  · intro pr pw salt r p k logN h1 h2 hok hmem
    exact go_first_success _ 15 k logN h1 h2 hok hmem
  · intro pr pw salt r p hmem
    exact go_all_mem _ 15 hmem
  · intro pr pw salt r p logN h1 h2 herr hmem
    exact go_propagate _ 15 logN h1 h2 herr hmem
  · intro pr pw salt r p k l h
    exact go_ok_inv _ 15 k l h
  · intro pr pw salt logN r p h
    rw [Dec.deriveKeyFixed]
    congr 1
    rw [Nat.mod_eq_of_lt h]
    rw [Nat.shiftLeft_eq]
    omega

/-- C5 witness: with memory-style failures at logN 15 and 14 and success at
13, the adaptive loop lands at logN 13, and the fixed KDF is the single
scrypt call at the stored logN. -/
theorem c5_witness :
    (12 ≤ 13 ∧ (13 : Nat) ≤ 15 ∧
      c5prims.scrypt [7] [9] 32 (1 <<< 13) 8 1 = .ok (List.replicate 32 1)) ∧
    Enc.deriveKeyAdaptive c5prims [7] [9] 15 8 1 = .ok (List.replicate 32 1, 13) ∧
    Dec.deriveKeyFixed c5prims [7] [9] 13 8 1 = c5prims.scrypt [7] [9] 32 (2 ^ 13) 8 1 := by
  refine ⟨⟨by norm_num, by norm_num, rfl⟩, ?_, ?_⟩
  · refine c5_kdf_adaptive_and_fixed.1 c5prims [7] [9] 8 1 (List.replicate 32 1) 13
      (by norm_num) (by norm_num) rfl ?_
    intro m h1 h2
    have hm : m = 14 ∨ m = 15 := by omega
    rcases hm with rfl | rfl
    · rfl
    · rfl
  · exact c5_kdf_adaptive_and_fixed.2.2.2.2 c5prims [7] [9] 13 8 1 (by norm_num)

/-- C4 witness: a concrete serialize/parse round trip, and a concrete
serialization failure on a 3-byte salt. -/
theorem c4_witness :
    Dec.parseHeader c4bytes = .ok
      { version := 1, encrypted := c4hp.encrypted, randomized := c4hp.randomized,
        bitsPerChannel := c4hp.bitsPerChannel, channelsMask := c4hp.channelsMask,
        payloadLen := c4hp.payloadLen, kdf := 1, logN := c4hp.logN, r := c4hp.r,
        p := c4hp.p, salt := c4hp.salt, iv := c4hp.iv, tag := c4hp.tag } ∧
    (∃ e, Enc.buildHeader c4hpBad = .error e) := by
  constructor
  · exact c4_header_parse_serialize_identity.1 c4hp c4bytes rfl (by decide)
      (by decide) (by decide) (by decide) (Or.inr (by decide)) (by decide)
      (by decide) (by decide) (by decide) (by decide) (by decide) (by decide)
      (by norm_num [c4hp])
  · exact c4_header_parse_serialize_identity.2 c4hpBad (Or.inl (by decide))

theorem buildHeader_flags_byte (hp : HeaderParams) (bytes : List Nat)
    (h : Enc.buildHeader hp = .ok bytes) (he : hp.encrypted = true)
    (hr : hp.randomized = true) : byteAt bytes 5 = 3 := by
  rw [Enc.buildHeader] at h
  by_cases h1 : hp.salt.length ≠ 16
  · rw [if_pos h1] at h
    exact absurd h (by simp)
  · rw [if_neg h1] at h
    by_cases h2 : hp.iv.length ≠ 12
    · rw [if_pos h2] at h
      exact absurd h (by simp)
    · rw [if_neg h2] at h
      by_cases h3 : hp.tag.length ≠ 16
      · rw [if_pos h3] at h
        exact absurd h (by simp)
      · rw [if_neg h3] at h
        cases h
        rw [he, hr]
        rfl

/-- C3 (amended): every header produced by a successful encode has flags
bit 0 (encrypted) set to 1 and flags bit 1 (randomized) also set to 1,
for every backend: `processEncoding` builds its single header with
`encrypted: true` and `randomized: true` before dispatching on the
carrier kind, so the randomized bit is 1 even for the JPEG, WebP and
trailer backends. -/
theorem c3_flags_always_set (pr : Prims) (fileBuffer : List Nat) (ext : List Nat)
    (plaintext password salt iv : List Nat) (outcome : Enc.EncOutcome)
    (hok : Enc.processEncoding pr fileBuffer ext plaintext password salt iv = .ok outcome) :
    ∃ (key : List Nat) (logNUsed : Nat) (header : List Nat),
      Enc.deriveKeyAdaptive pr password salt 15 8 1 = .ok (key, logNUsed) ∧
      Enc.buildHeader { encrypted := true, randomized := true, bitsPerChannel := 1, channelsMask := 7, payloadLen := plaintext.length, kdf := KDF_SCRYPT, logN := logNUsed, r := 8, p := 1, salt := salt, iv := iv, tag := (pr.aesEnc key iv plaintext).2 } = .ok header ∧
      byteAt header 5 = 3 ∧ getBit (byteAt header 5) 0 = 1 ∧ getBit (byteAt header 5) 1 = 1 := by
  rw [Enc.processEncoding] at hok
  match hkdf : Enc.deriveKeyAdaptive pr password salt 15 8 1 with
  | .error e =>
    rw [hkdf] at hok
    exact absurd hok (by simp)
  | .ok (key, logNUsed) =>
    rw [hkdf] at hok
    simp only [] at hok
    match hbuild : Enc.buildHeader { encrypted := true, randomized := true, bitsPerChannel := 1, channelsMask := 7, payloadLen := plaintext.length, kdf := KDF_SCRYPT, logN := logNUsed, r := 8, p := 1, salt := salt, iv := iv, tag := (pr.aesEnc key iv plaintext).2 } with
    | .error e =>
      rw [hbuild] at hok
      exact absurd hok (by simp)
    | .ok header =>
      have hb5 := buildHeader_flags_byte _ _ hbuild rfl rfl
      exact ⟨key, logNUsed, header, rfl, hbuild, hb5, by rw [hb5]; rfl, by rw [hb5]; rfl⟩

/-- C3 counterexample: the claim says the randomized bit is 0 when the
carrier is embedded via the trailer backend, but for the 1-byte carrier
`[37]` (detected as `other`, so embedded by `appendTrailer`) the header
byte at offset 5 of the produced output — offset 16 overall, after the
1-byte carrier, 6-byte signature and 4-byte length — is 3, whose bit 1
is 1, not 0. -/
theorem c3_counterexample :
    Enc.detectCarrier [37] [] = CarrierKind.other ∧
    (Enc.processEncoding c5prims [37] [] [104, 105] [7]
        (List.replicate 16 0) (List.replicate 12 0)).map
      (fun o => (o.err, getBit (byteAt o.bytes 16) 1)) = .ok (none, 1) := by
  constructor
  · rfl
  · rfl

/-- C3 witness for the amended claim, at the same concrete trailer-backend
encode. -/
theorem c3_witness :
    Enc.processEncoding c5prims [37] [] [104, 105] [7]
        (List.replicate 16 0) (List.replicate 12 0)
      = .ok ((Enc.processEncoding c5prims [37] [] [104, 105] [7]
        (List.replicate 16 0) (List.replicate 12 0)).toOption.getD ⟨none, []⟩) ∧
    (∃ (key : List Nat) (logNUsed : Nat) (header : List Nat),
      Enc.deriveKeyAdaptive c5prims [7] (List.replicate 16 0) 15 8 1 = .ok (key, logNUsed) ∧
      Enc.buildHeader { encrypted := true, randomized := true, bitsPerChannel := 1, channelsMask := 7, payloadLen := [104, 105].length, kdf := KDF_SCRYPT, logN := logNUsed, r := 8, p := 1, salt := List.replicate 16 0, iv := List.replicate 12 0, tag := (c5prims.aesEnc key (List.replicate 12 0) [104, 105]).2 } = .ok header ∧
      byteAt header 5 = 3 ∧ getBit (byteAt header 5) 0 = 1 ∧ getBit (byteAt header 5) 1 = 1) :=
  ⟨rfl, c3_flags_always_set c5prims [37] [] [104, 105] [7]
    (List.replicate 16 0) (List.replicate 12 0) _ rfl⟩

/-- C2 (amended): when the selected backend's embedding fails during encode
(in particular on PNG capacity failure), `processEncoding` surfaces the
error message in the outcome, but it does not fail outright: it still
writes a fallback output produced by appending a trailer blob
(`appendTrailer fileBuffer (header ‖ ciphertext)`).  When embedding
succeeds, the output is the backend's and no error is recorded. -/
theorem c2_embed_failure_fallback (pr : Prims) (fileBuffer : List Nat) (ext : List Nat)
    (plaintext password salt iv key header : List Nat) (logNUsed : Nat)
    (hkdf : Enc.deriveKeyAdaptive pr password salt 15 8 1 = .ok (key, logNUsed))
    (hbuild : Enc.buildHeader { encrypted := true, randomized := true, bitsPerChannel := 1, channelsMask := 7, payloadLen := plaintext.length, kdf := KDF_SCRYPT, logN := logNUsed, r := 8, p := 1, salt := salt, iv := iv, tag := (pr.aesEnc key iv plaintext).2 } = .ok header) :
    (∀ e, Enc.embedAuto pr fileBuffer ext header (pr.aesEnc key iv plaintext).1 key = .error e →
      Enc.processEncoding pr fileBuffer ext plaintext password salt iv
        = .ok ⟨some e, Enc.appendTrailer fileBuffer (header ++ (pr.aesEnc key iv plaintext).1)⟩) ∧
    (∀ out, Enc.embedAuto pr fileBuffer ext header (pr.aesEnc key iv plaintext).1 key = .ok out →
      Enc.processEncoding pr fileBuffer ext plaintext password salt iv = .ok ⟨none, out⟩) := by
  constructor
  · intro e hembed
    simp only [Enc.processEncoding, hkdf, hbuild, hembed]
  · intro out hembed
    simp only [Enc.processEncoding, hkdf, hbuild, hembed]

/-- C2 counterexample: the claim says encode fails on PNG capacity failure
and never produces an output carrier by a different embedding method; but
on a 1-pixel PNG carrier the code records the capacity error and still
produces an output — the trailer-append fallback. -/
theorem c2_counterexample :
    Enc.detectCarrier [0] [46, 112, 110, 103] = CarrierKind.png ∧
    Enc.processEncoding c2prims [0] [46, 112, 110, 103] [104] [7]
        (List.replicate 16 0) (List.replicate 12 0)
      = .ok ⟨some "Carrier too small", Enc.appendTrailer [0] (c2hdr ++ [104])⟩ := by
  constructor
  · rfl
  · rfl

/-- C2 witness for the amended claim at the same concrete input. -/
theorem c2_witness :
    Enc.deriveKeyAdaptive c2prims [7] (List.replicate 16 0) 15 8 1
      = .ok (List.replicate 32 1, 13) ∧
    Enc.embedAuto c2prims [0] [46, 112, 110, 103] c2hdr [104] (List.replicate 32 1)
      = .error "Carrier too small" ∧
    Enc.processEncoding c2prims [0] [46, 112, 110, 103] [104] [7]
        (List.replicate 16 0) (List.replicate 12 0)
      = .ok ⟨some "Carrier too small", Enc.appendTrailer [0] (c2hdr ++ [104])⟩ :=
  ⟨rfl, rfl,
    (c2_embed_failure_fallback c2prims [0] [46, 112, 110, 103] [104] [7]
      (List.replicate 16 0) (List.replicate 12 0) (List.replicate 32 1) c2hdr 13
      rfl rfl).1 "Carrier too small" rfl⟩

theorem buildPayloadPositions_one (px : List Nat) :
    Enc.buildPayloadPositions px 1
      = ((Enc.enumerateRGBByteIndices px).drop (HEADER_SIZE * 8)).map (fun i => ⟨i, 0⟩) := by
  rw [Enc.buildPayloadPositions]
  induction (Enc.enumerateRGBByteIndices px).drop (HEADER_SIZE * 8) with
  | nil => rfl
  | cons x xs ih =>
    rw [List.flatMap_cons, List.map_cons, ih]
    rfl

theorem embedAuto_png (pr : Prims) (fb : List Nat) (ext : List Nat)
    (header ct key data : List Nat)
    (hdet : Enc.detectCarrier fb ext = .png) (hread : pr.pngRead fb = some data) :
    Enc.embedAuto pr fb ext header ct key =
      if Enc.capacityBits data 1 < (8 * ct.length : Nat) then .error "Carrier too small"
      else
        match Enc.writeHeaderBits data header with
        | .error e => .error e
        | .ok data1 =>
          match Enc.embedBits data1
            ((Enc.shufflePositions pr.hmac (Enc.buildPayloadPositions data1 1)
              (Enc.prngInit (pr.hmac key ECAP_PERMUTE))).1) ct with
          | .error e => .error e
          | .ok data2 => .ok (pr.pngWrite data2) := by
  rw [Enc.embedAuto, hdet]
  simp only [hread]

/-- C6: for a PNG carrier (at the encoder's 1 bit per channel), the payload
capacity in bits equals the number of RGB byte indices after the first 480
times bits_per_channel, and the PNG embedding fails with the
carrier-too-small error if and only if 8 times the ciphertext length
exceeds this capacity; otherwise it succeeds, so a ciphertext of exactly
the capacity embeds and one more byte fails. -/
theorem c6_png_capacity_boundary :
    (∀ px : List Nat, 4 ∣ px.length → 480 ≤ 3 * (px.length / 4) →
      Enc.capacityBits px 1
        = (((Enc.enumerateRGBByteIndices px).drop (HEADER_SIZE * 8)).length : Int) * 1) ∧
    (∀ (pr : Prims) (fb ext header ct key data : List Nat),
      Enc.detectCarrier fb ext = .png → pr.pngRead fb = some data → 4 ∣ data.length →
      ((Enc.embedAuto pr fb ext header ct key = .error "Carrier too small")
          ↔ Enc.capacityBits data 1 < (8 * ct.length : Nat)) ∧
      (¬ Enc.capacityBits data 1 < (8 * ct.length : Nat) →
        ∃ out, Enc.embedAuto pr fb ext header ct key = .ok out)) := by
  have hcap : ∀ px : List Nat, 4 ∣ px.length → 480 ≤ 3 * (px.length / 4) →
      Enc.capacityBits px 1
        = (((Enc.enumerateRGBByteIndices px).drop (HEADER_SIZE * 8)).length : Int) * 1 := by
    intro px h4 hbig
    obtain ⟨hlen, _, _⟩ := enumerateRGB_spec px h4
    rw [Enc.capacityBits, List.length_drop, hlen]
    have h480 : HEADER_SIZE * 8 = 480 := rfl
    rw [h480]
    push_cast [Nat.sub_sub_self]
    omega
  refine ⟨hcap, ?_⟩
  intro pr fb ext header ct key data hdet hread h4
  have hemb := embedAuto_png pr fb ext header ct key data hdet hread
  by_cases hlt : Enc.capacityBits data 1 < (8 * ct.length : Nat)
  · rw [if_pos hlt] at hemb
    constructor
    · constructor
      · intro _
        exact hlt
      · intro _
        exact hemb
    · intro h
      exact absurd hlt h
  · rw [if_neg hlt] at hemb
    obtain ⟨hlen, _, _⟩ := enumerateRGB_spec data h4
    have hbig : 480 ≤ 3 * (data.length / 4) := by
      rw [Enc.capacityBits] at hlt
      have h480 : (HEADER_SIZE * 8 : Nat) = 480 := rfl
      rw [h480] at hlt
      push_cast at hlt
      omega
    have hwrite : ∃ d1, Enc.writeHeaderBits data header = .ok d1 ∧ d1.length = data.length := by
      rw [Enc.writeHeaderBits]
      rw [if_neg (by rw [hlen]; show ¬ (3 * (data.length / 4) < 480); omega)]
      exact ⟨_, rfl, writeBits_length _ _ _⟩
    obtain ⟨d1, hw, hd1len⟩ := hwrite
    rw [hw] at hemb
    simp only [] at hemb
    have hposlen : ((Enc.shufflePositions pr.hmac (Enc.buildPayloadPositions d1 1)
        (Enc.prngInit (pr.hmac key ECAP_PERMUTE))).1).length
        = 3 * (data.length / 4) - 480 := by
      have hperm := shufflePositions_perm pr.hmac (Enc.buildPayloadPositions d1 1)
        (Enc.prngInit (pr.hmac key ECAP_PERMUTE))
      rw [hperm.length_eq, buildPayloadPositions_one, List.length_map, List.length_drop]
      have : (Enc.enumerateRGBByteIndices d1).length = 3 * (d1.length / 4) := by
        obtain ⟨hlen1, _, _⟩ := enumerateRGB_spec d1 (by rw [hd1len]; exact h4)
        exact hlen1
      rw [this, hd1len]
      rfl
    have hembok : ∃ d2, Enc.embedBits d1
        ((Enc.shufflePositions pr.hmac (Enc.buildPayloadPositions d1 1)
          (Enc.prngInit (pr.hmac key ECAP_PERMUTE))).1) ct = .ok d2 := by
      rw [Enc.embedBits, hposlen]
      rw [if_neg ?hcond]
      · exact ⟨_, rfl⟩
      case hcond =>
        rw [Enc.capacityBits] at hlt
        have h480 : (HEADER_SIZE * 8 : Nat) = 480 := rfl
        rw [h480] at hlt
        push_cast at hlt
        omega
    obtain ⟨d2, he⟩ := hembok
    rw [he] at hemb
    simp only [] at hemb
    constructor
    · constructor
      · intro herr
        rw [hemb] at herr
        exact absurd herr (by simp)
      · intro h
        exact absurd h hlt
    · intro _
      exact ⟨_, hemb⟩

set_option maxRecDepth 10000 in
/-- C6 witness: the capacity formula at a 160-pixel RGBA buffer and the
failure direction of the boundary at a 1-pixel carrier with a 1-byte
ciphertext. -/
theorem c6_witness :
    ((4 : Nat) ∣ (List.replicate 640 0 : List Nat).length ∧
      Enc.capacityBits (List.replicate 640 0) 1
        = (((Enc.enumerateRGBByteIndices (List.replicate 640 0)).drop
            (HEADER_SIZE * 8)).length : Int) * 1) ∧
    ((Enc.embedAuto c2prims [0] [46, 112, 110, 103] c2hdr [104] (List.replicate 32 1)
        = .error "Carrier too small")
      ↔ Enc.capacityBits [0, 0, 0, 0] 1 < (8 * [104].length : Nat)) :=
  ⟨⟨by decide, c6_png_capacity_boundary.1 (List.replicate 640 0) (by decide) (by decide)⟩,
    (c6_png_capacity_boundary.2 c2prims [0] [46, 112, 110, 103] c2hdr [104]
      (List.replicate 32 1) [0, 0, 0, 0] rfl rfl (by decide)).1⟩

theorem writeHeaderBits_ok (data header d1 : List Nat)
    (h : Enc.writeHeaderBits data header = .ok d1) :
    d1 = Enc.writeBits data
        (((Enc.enumerateRGBByteIndices data).take (HEADER_SIZE * 8)).map (fun i => ⟨i, 0⟩))
        (Enc.dataToBits header)
      ∧ HEADER_SIZE * 8 ≤ (Enc.enumerateRGBByteIndices data).length := by
  rw [Enc.writeHeaderBits] at h
  by_cases hc : (Enc.enumerateRGBByteIndices data).length < HEADER_SIZE * 8
  · rw [if_pos hc] at h
    exact absurd h (by simp)
  · rw [if_neg hc] at h
    cases h
    exact ⟨rfl, by omega⟩

theorem embedBits_ok (px : List Nat) (positions : List BitPos) (data d : List Nat)
    (h : Enc.embedBits px positions data = .ok d) :
    d = Enc.writeBits px (positions.take (data.length * 8)) (Enc.dataToBits data)
      ∧ data.length * 8 ≤ positions.length := by
  rw [Enc.embedBits] at h
  by_cases hc : positions.length < data.length * 8
  · rw [if_pos hc] at h
    exact absurd h (by simp)
  · rw [if_neg hc] at h
    cases h
    exact ⟨rfl, by omega⟩

theorem embedAuto_png_success (pr : Prims) (fb ext header ct key data : List Nat)
    (hdet : Enc.detectCarrier fb ext = .png) (hread : pr.pngRead fb = some data)
    (h4 : 4 ∣ data.length)
    (hcap : ¬ Enc.capacityBits data 1 < (8 * ct.length : Nat)) :
    ∃ d1 d2, Enc.writeHeaderBits data header = .ok d1 ∧
      Enc.embedBits d1 ((Enc.shufflePositions pr.hmac (Enc.buildPayloadPositions d1 1)
        (Enc.prngInit (pr.hmac key ECAP_PERMUTE))).1) ct = .ok d2 ∧
      Enc.embedAuto pr fb ext header ct key = .ok (pr.pngWrite d2) := by
  have hemb := embedAuto_png pr fb ext header ct key data hdet hread
  rw [if_neg hcap] at hemb
  obtain ⟨hlen, _, _⟩ := enumerateRGB_spec data h4
  have hbig : 480 ≤ 3 * (data.length / 4) := by
    rw [Enc.capacityBits] at hcap
    have h480 : (HEADER_SIZE * 8 : Nat) = 480 := rfl
    rw [h480] at hcap
    push_cast at hcap
    omega
  have hwrite : ∃ d1, Enc.writeHeaderBits data header = .ok d1 ∧ d1.length = data.length := by
    rw [Enc.writeHeaderBits]
    rw [if_neg (by rw [hlen]; show ¬ (3 * (data.length / 4) < 480); omega)]
    exact ⟨_, rfl, writeBits_length _ _ _⟩
  obtain ⟨d1, hw, hd1len⟩ := hwrite
  rw [hw] at hemb
  simp only [] at hemb
  have hposlen : ((Enc.shufflePositions pr.hmac (Enc.buildPayloadPositions d1 1)
      (Enc.prngInit (pr.hmac key ECAP_PERMUTE))).1).length
      = 3 * (data.length / 4) - 480 := by
    have hperm := shufflePositions_perm pr.hmac (Enc.buildPayloadPositions d1 1)
      (Enc.prngInit (pr.hmac key ECAP_PERMUTE))
    rw [hperm.length_eq, buildPayloadPositions_one, List.length_map, List.length_drop]
    have hl1 : (Enc.enumerateRGBByteIndices d1).length = 3 * (d1.length / 4) := by
      obtain ⟨hlen1, _, _⟩ := enumerateRGB_spec d1 (by rw [hd1len]; exact h4)
      exact hlen1
    rw [hl1, hd1len]
    rfl
  have hembok : ∃ d2, Enc.embedBits d1
      ((Enc.shufflePositions pr.hmac (Enc.buildPayloadPositions d1 1)
        (Enc.prngInit (pr.hmac key ECAP_PERMUTE))).1) ct = .ok d2 := by
    rw [Enc.embedBits, hposlen]
    rw [if_neg ?hcnd]
    · exact ⟨_, rfl⟩
    case hcnd =>
      rw [Enc.capacityBits] at hcap
      have h480 : (HEADER_SIZE * 8 : Nat) = 480 := rfl
      rw [h480] at hcap
      push_cast at hcap
      omega
  obtain ⟨d2, he⟩ := hembok
  rw [he] at hemb
  simp only [] at hemb
  exact ⟨d1, d2, hw, he, hemb⟩

/-- C9: after PNG embedding, the final pixel buffer differs from the input
pixel buffer only in the least significant bit of RGB bytes actually
written by the header and payload embedding: the buffer length is
unchanged, every alpha byte (offset 3 mod 4) is unchanged, all higher bits
(the quotient by 2) of every byte are unchanged, and any byte that differs
lies among the first 480 RGB byte indices (header) or the byte indices of
the first `8·|ct|` permuted payload positions. -/
theorem c9_png_frame_effect (pr : Prims) (data header ct key d1 d2 : List Nat)
    (positions2 : List BitPos)
    (h4 : 4 ∣ data.length)
    (hw : Enc.writeHeaderBits data header = .ok d1)
    (hpos : positions2 = (Enc.shufflePositions pr.hmac (Enc.buildPayloadPositions d1 1)
      (Enc.prngInit (pr.hmac key ECAP_PERMUTE))).1)
    (he : Enc.embedBits d1 positions2 ct = .ok d2) :
    d2.length = data.length ∧
    (∀ i, i % 4 = 3 → byteAt d2 i = byteAt data i) ∧
    (∀ i, byteAt d2 i / 2 = byteAt data i / 2) ∧
    (∀ i, byteAt d2 i ≠ byteAt data i →
      i ∈ (Enc.enumerateRGBByteIndices data).take (HEADER_SIZE * 8)
        ∨ i ∈ (positions2.take (8 * ct.length)).map (fun p => p.byteIndex)) := by
  obtain ⟨hd1, hset1⟩ := writeHeaderBits_ok data header d1 hw
  obtain ⟨hd2, hset2⟩ := embedBits_ok d1 positions2 ct d2 he
  have hd1len : d1.length = data.length := by
    rw [hd1]
    exact writeBits_length _ _ _
  have henumEq : Enc.enumerateRGBByteIndices d1 = Enc.enumerateRGBByteIndices data := by
    rw [Enc.enumerateRGBByteIndices, Enc.enumerateRGBByteIndices, hd1len]
  obtain ⟨henumLen, henumMem, henumNodup⟩ := enumerateRGB_spec data h4
  -- membership facts for the payload positions
  have hposmem : ∀ p ∈ positions2, p.plane = 0 ∧
      p.byteIndex ∈ (Enc.enumerateRGBByteIndices data).drop (HEADER_SIZE * 8) := by
    intro p hp
    have hperm := shufflePositions_perm pr.hmac (Enc.buildPayloadPositions d1 1)
      (Enc.prngInit (pr.hmac key ECAP_PERMUTE))
    rw [hpos] at hp
    have hp2 := hperm.mem_iff.mp hp
    rw [buildPayloadPositions_one, henumEq] at hp2
    obtain ⟨i, hi, rfl⟩ := List.mem_map.mp hp2
    exact ⟨rfl, hi⟩
  have hhdrplane : ∀ q ∈ ((Enc.enumerateRGBByteIndices data).take (HEADER_SIZE * 8)).map
      (fun i => (⟨i, 0⟩ : BitPos)), q.plane = 0 := by
    intro q hq
    obtain ⟨i, _, rfl⟩ := List.mem_map.mp hq
    rfl
  have hbits1 : ∀ b ∈ Enc.dataToBits header, b ≤ 1 := dataToBits_le_one header
  have hbits2 : ∀ b ∈ Enc.dataToBits ct, b ≤ 1 := dataToBits_le_one ct
  refine ⟨?_, ?_, ?_, ?_⟩
  · rw [hd2, writeBits_length, hd1len]
  · intro i hi3
    have hnm2 : ∀ p ∈ positions2.take (ct.length * 8), p.byteIndex ≠ i := by
      intro p hp
      have hmem := hposmem p (List.take_subset _ _ hp)
      have hbyte := henumMem p.byteIndex (List.drop_subset _ _ hmem.2)
      omega
    have hnm1 : ∀ p ∈ ((Enc.enumerateRGBByteIndices data).take (HEADER_SIZE * 8)).map
        (fun i => (⟨i, 0⟩ : BitPos)), p.byteIndex ≠ i := by
      intro p hp
      obtain ⟨j, hj, rfl⟩ := List.mem_map.mp hp
      have hbyte := henumMem j (List.take_subset _ _ hj)
      simp only []
      omega
    rw [hd2, byteAt_writeBits_not_mem _ _ _ _ hnm2, hd1, byteAt_writeBits_not_mem _ _ _ _ hnm1]
  · intro i
    have hp2 : ∀ p ∈ positions2.take (ct.length * 8), p.plane = 0 := by
      intro p hp
      exact (hposmem p (List.take_subset _ _ hp)).1
    have hp1 : ∀ p ∈ ((Enc.enumerateRGBByteIndices data).take (HEADER_SIZE * 8)).map
        (fun i => (⟨i, 0⟩ : BitPos)), p.plane = 0 := hhdrplane
    rw [hd2, byteAt_writeBits_div2 _ _ _ _ hp2 hbits2, hd1,
      byteAt_writeBits_div2 _ _ _ _ hp1 hbits1]
  · intro i hne
    by_contra hcon
    push_neg at hcon
    obtain ⟨hc1, hc2⟩ := hcon
    have hnm2 : ∀ p ∈ positions2.take (ct.length * 8), p.byteIndex ≠ i := by
      intro p hp hpi
      apply hc2
      rw [List.mem_map]
      refine ⟨p, ?_, hpi⟩
      have : ct.length * 8 = 8 * ct.length := by omega
      rw [← this]
      exact hp
    have hnm1 : ∀ p ∈ ((Enc.enumerateRGBByteIndices data).take (HEADER_SIZE * 8)).map
        (fun i => (⟨i, 0⟩ : BitPos)), p.byteIndex ≠ i := by
      intro p hp hpi
      obtain ⟨j, hj, rfl⟩ := List.mem_map.mp hp
      exact hc1 (hpi ▸ hj)
    apply hne
    rw [hd2, byteAt_writeBits_not_mem _ _ _ _ hnm2, hd1, byteAt_writeBits_not_mem _ _ _ _ hnm1]

theorem c9_len : c9data.length = 640 := by
  show (List.replicate 640 7 : List Nat).length = 640
  exact List.length_replicate 640 7

theorem c9_dvd : (4 : Nat) ∣ c9data.length := by
  rw [c9_len]
  norm_num

theorem c9_enum_len : (Enc.enumerateRGBByteIndices c9data).length = 480 := by
  obtain ⟨hlen, _, _⟩ := enumerateRGB_spec c9data c9_dvd
  rw [hlen, c9_len]

theorem c9_hw : Enc.writeHeaderBits c9data c2hdr = .ok c9d1 := by
  rw [Enc.writeHeaderBits, if_neg (by rw [c9_enum_len]; norm_num [HEADER_SIZE])]
  rfl

theorem c9_he : Enc.embedBits c9d1
    (Enc.shufflePositions c2prims.hmac (Enc.buildPayloadPositions c9d1 1)
      (Enc.prngInit (c2prims.hmac (List.replicate 32 1) ECAP_PERMUTE))).1 []
    = .ok (Enc.writeBits c9d1
      ((Enc.shufflePositions c2prims.hmac (Enc.buildPayloadPositions c9d1 1)
        (Enc.prngInit (c2prims.hmac (List.replicate 32 1) ECAP_PERMUTE))).1.take 0)
      (Enc.dataToBits [])) := by
  rw [Enc.embedBits, if_neg (by simp)]
  rfl

set_option maxRecDepth 10000 in
/-- C9 witness: the frame-effect facts at a concrete 160-pixel carrier with
an empty ciphertext. -/
theorem c9_witness :
    ((4 : Nat) ∣ c9data.length ∧ Enc.writeHeaderBits c9data c2hdr = .ok c9d1) ∧
    ((Enc.writeBits c9d1 ((Enc.shufflePositions c2prims.hmac (Enc.buildPayloadPositions c9d1 1) (Enc.prngInit (c2prims.hmac (List.replicate 32 1) ECAP_PERMUTE))).1.take 0) (Enc.dataToBits [])).length = c9data.length ∧
      (∀ i, i % 4 = 3 →
        byteAt (Enc.writeBits c9d1 ((Enc.shufflePositions c2prims.hmac (Enc.buildPayloadPositions c9d1 1) (Enc.prngInit (c2prims.hmac (List.replicate 32 1) ECAP_PERMUTE))).1.take 0) (Enc.dataToBits [])) i = byteAt c9data i) ∧
      (∀ i, byteAt (Enc.writeBits c9d1 ((Enc.shufflePositions c2prims.hmac (Enc.buildPayloadPositions c9d1 1) (Enc.prngInit (c2prims.hmac (List.replicate 32 1) ECAP_PERMUTE))).1.take 0) (Enc.dataToBits [])) i / 2
        = byteAt c9data i / 2) ∧
      (∀ i, byteAt (Enc.writeBits c9d1 ((Enc.shufflePositions c2prims.hmac (Enc.buildPayloadPositions c9d1 1) (Enc.prngInit (c2prims.hmac (List.replicate 32 1) ECAP_PERMUTE))).1.take 0) (Enc.dataToBits [])) i ≠ byteAt c9data i →
        i ∈ (Enc.enumerateRGBByteIndices c9data).take (HEADER_SIZE * 8)
          ∨ i ∈ ((Enc.shufflePositions c2prims.hmac (Enc.buildPayloadPositions c9d1 1) (Enc.prngInit (c2prims.hmac (List.replicate 32 1) ECAP_PERMUTE))).1.take (8 * ([] : List Nat).length)).map (fun p => p.byteIndex))) :=
  ⟨⟨c9_dvd, c9_hw⟩,
    c9_png_frame_effect c2prims c9data c2hdr [] (List.replicate 32 1) c9d1
      (Enc.writeBits c9d1 ((Enc.shufflePositions c2prims.hmac (Enc.buildPayloadPositions c9d1 1) (Enc.prngInit (c2prims.hmac (List.replicate 32 1) ECAP_PERMUTE))).1.take 0) (Enc.dataToBits []))
      ((Enc.shufflePositions c2prims.hmac (Enc.buildPayloadPositions c9d1 1) (Enc.prngInit (c2prims.hmac (List.replicate 32 1) ECAP_PERMUTE))).1)
      c9_dvd c9_hw rfl c9_he⟩

/-! ## JPEG insertion: walk behaviour and output shape -/

theorem jpegWalk_stop_of_not (l : List Nat) (pos : Nat)
    (h : ¬(pos + 4 ≤ l.length ∧ byteAt l pos = 255)) : Enc.jpegWalk l pos = pos := by
  rw [Enc.jpegWalk, dif_neg h]

theorem jpegWalk_stop_sos_eoi (l : List Nat) (pos : Nat)
    (hb : pos + 4 ≤ l.length) (hff : byteAt l pos = 255)
    (hc : byteAt l (pos + 1) = 218 ∨ byteAt l (pos + 1) = 217) :
    Enc.jpegWalk l pos = pos := by
  rw [Enc.jpegWalk, dif_pos ⟨hb, hff⟩]
  simp only []
  rw [if_pos hc]

theorem jpegWalk_rst (l : List Nat) (pos : Nat)
    (hb : pos + 4 ≤ l.length) (hff : byteAt l pos = 255)
    (hr : 208 ≤ byteAt l (pos + 1) ∧ byteAt l (pos + 1) ≤ 215) :
    Enc.jpegWalk l pos = Enc.jpegWalk l (pos + 2) := by
  rw [Enc.jpegWalk, dif_pos ⟨hb, hff⟩]
  simp only []
  rw [if_neg (by omega), dif_pos hr]

theorem jpegWalk_seg (l : List Nat) (pos : Nat)
    (hb : pos + 4 ≤ l.length) (hff : byteAt l pos = 255)
    (hc1 : byteAt l (pos + 1) ≠ 218) (hc2 : byteAt l (pos + 1) ≠ 217)
    (hc3 : ¬(208 ≤ byteAt l (pos + 1) ∧ byteAt l (pos + 1) ≤ 215))
    (hseg : 2 ≤ readU16BE l (pos + 2)) :
    Enc.jpegWalk l pos = Enc.jpegWalk l (pos + 2 + readU16BE l (pos + 2)) := by
  rw [Enc.jpegWalk, dif_pos ⟨hb, hff⟩]
  simp only []
  rw [if_neg (by tauto), dif_neg hc3, dif_neg (by omega)]

theorem jpegWalk_stop_short_seg (l : List Nat) (pos : Nat)
    (hb : pos + 4 ≤ l.length) (hff : byteAt l pos = 255)
    (hc1 : byteAt l (pos + 1) ≠ 218) (hc2 : byteAt l (pos + 1) ≠ 217)
    (hc3 : ¬(208 ≤ byteAt l (pos + 1) ∧ byteAt l (pos + 1) ≤ 215))
    (hseg : readU16BE l (pos + 2) < 2) :
    Enc.jpegWalk l pos = pos := by
  rw [Enc.jpegWalk, dif_pos ⟨hb, hff⟩]
  simp only []
  rw [if_neg (by tauto), dif_neg hc3, dif_pos hseg]

theorem insertJpegAPP15_ok (orig blob : List Nat)
    (hj : Enc.isJpeg orig = true) (hlen : blob.length ≤ 65533) :
    Enc.insertJpegAPP15 orig blob = .ok (orig.take (Enc.jpegWalk orig 2)
      ++ 255 :: 239 :: (u16be (blob.length + 2) ++ blob)
      ++ orig.drop (Enc.jpegWalk orig 2)) := by
  rw [Enc.insertJpegAPP15, if_neg (by rw [hj]; simp), if_neg (by omega)]

theorem insertJpegAPP15_overflow (orig blob : List Nat)
    (hj : Enc.isJpeg orig = true) (hlen : 65533 < blob.length) :
    Enc.insertJpegAPP15 orig blob = .error "Payload too large for one JPEG segment" := by
  rw [Enc.insertJpegAPP15, if_neg (by rw [hj]; simp), if_pos hlen]

theorem byteAt_take {l : List Nat} {n i : Nat} (h : i < n) :
    byteAt (l.take n) i = byteAt l i := by
  simp [byteAt, List.getD, List.getElem?_take_of_lt h]

theorem byteAt_drop (l : List Nat) (n i : Nat) : byteAt (l.drop n) i = byteAt l (n + i) := by
  simp [byteAt, List.getD, List.getElem?_drop]

theorem insert_shape_bytes (orig seg : List Nat) (p : Nat) (hp : p ≤ orig.length) :
    (orig.take p ++ seg ++ orig.drop p).length = orig.length + seg.length ∧
    (∀ i, i < p → byteAt (orig.take p ++ seg ++ orig.drop p) i = byteAt orig i) ∧
    (∀ i, p ≤ i → i < orig.length →
      byteAt (orig.take p ++ seg ++ orig.drop p) (i + seg.length) = byteAt orig i) := by
  have htake : (orig.take p).length = p := by
    rw [List.length_take]
    omega
  refine ⟨?_, ?_, ?_⟩
  · simp [List.length_append, List.length_drop]
    omega
  · intro i hi
    rw [List.append_assoc, byteAt_append_left (by omega)]
    exact byteAt_take hi
  · intro i hpi hi
    rw [List.append_assoc, byteAt_append_right (by omega)]
    rw [htake]
    have h2 : i + seg.length - p = seg.length + (i - p) := by omega
    rw [h2, byteAt_append_right (by omega)]
    have h3 : seg.length + (i - p) - seg.length = i - p := by omega
    rw [h3, byteAt_drop]
    congr 1
    omega

/-- C8 (amended): the JPEG embed walks markers from offset 2, advancing by
`2 + be16 length` at each non-SOS, non-EOI, non-restart marker, *skipping*
each restart marker by 2 bytes (rather than stopping at it), stopping at the
first SOS or EOI marker (or when the walk runs out of bounds, meets a
non-FF byte, or a segment length below 2); it inserts at the resulting
offset exactly one segment `FF EF ‖ be16(blob length + 2) ‖ blob`, leaving
every other byte of the carrier unchanged, and it fails when the blob
(header plus ciphertext) exceeds 65,533 bytes. -/
theorem c8_jpeg_insertion :
    (∀ (l : List Nat) (pos : Nat), pos + 4 ≤ l.length → byteAt l pos = 255 →
      ((byteAt l (pos + 1) = 218 ∨ byteAt l (pos + 1) = 217) →
        Enc.jpegWalk l pos = pos) ∧
      (208 ≤ byteAt l (pos + 1) ∧ byteAt l (pos + 1) ≤ 215 →
        Enc.jpegWalk l pos = Enc.jpegWalk l (pos + 2)) ∧
      (byteAt l (pos + 1) ≠ 218 → byteAt l (pos + 1) ≠ 217 →
        ¬(208 ≤ byteAt l (pos + 1) ∧ byteAt l (pos + 1) ≤ 215) →
        2 ≤ readU16BE l (pos + 2) →
        Enc.jpegWalk l pos = Enc.jpegWalk l (pos + 2 + readU16BE l (pos + 2)))) ∧
    (∀ orig blob : List Nat, Enc.isJpeg orig = true → blob.length ≤ 65533 →
      Enc.insertJpegAPP15 orig blob = .ok (orig.take (Enc.jpegWalk orig 2)
        ++ 255 :: 239 :: (u16be (blob.length + 2) ++ blob)
        ++ orig.drop (Enc.jpegWalk orig 2))) ∧
    (∀ orig blob : List Nat, Enc.isJpeg orig = true → 65533 < blob.length →
      Enc.insertJpegAPP15 orig blob = .error "Payload too large for one JPEG segment") ∧
    (∀ orig blob out : List Nat, Enc.isJpeg orig = true → blob.length ≤ 65533 →
      Enc.jpegWalk orig 2 ≤ orig.length →
      Enc.insertJpegAPP15 orig blob = .ok out →
      out.length = orig.length + blob.length + 4 ∧
      (∀ i, i < Enc.jpegWalk orig 2 → byteAt out i = byteAt orig i) ∧
      (∀ i, Enc.jpegWalk orig 2 ≤ i → i < orig.length →
        byteAt out (i + blob.length + 4) = byteAt orig i)) := by
  refine ⟨?_, ?_, ?_, ?_⟩
  · intro l pos hb hff
    exact ⟨jpegWalk_stop_sos_eoi l pos hb hff,
      fun hr => jpegWalk_rst l pos hb hff hr,
      fun h1 h2 h3 h4 => jpegWalk_seg l pos hb hff h1 h2 h3 h4⟩
  · exact insertJpegAPP15_ok
  · exact insertJpegAPP15_overflow
  · intro orig blob out hj hlen hple hok
    rw [insertJpegAPP15_ok orig blob hj hlen] at hok
    have hout : out = orig.take (Enc.jpegWalk orig 2)
        ++ (255 :: 239 :: (u16be (blob.length + 2) ++ blob))
        ++ orig.drop (Enc.jpegWalk orig 2) := by
      cases hok
      rfl
    have hseglen : (255 :: 239 :: (u16be (blob.length + 2) ++ blob)).length
        = blob.length + 4 := by
      simp [u16be]
    obtain ⟨hl, hlo, hhi⟩ := insert_shape_bytes orig
      (255 :: 239 :: (u16be (blob.length + 2) ++ blob)) (Enc.jpegWalk orig 2) hple
    subst hout
    refine ⟨by rw [hl, hseglen]; try omega, hlo, ?_⟩
    intro i h1 h2
    have := hhi i h1 h2
    rw [hseglen] at this
    have harith : i + blob.length + 4 = i + (blob.length + 4) := by omega
    rw [harith]
    exact this

/-- C8 counterexample: the claim says the walk stops at the first SOS, EOI,
or *restart* marker and inserts there; but on the carrier
`FF D8 FF D0 FF D9` (SOI, RST0, EOI) the first such marker is the restart
at offset 2, while the code skips it and inserts at offset 4: the output
keeps `FF D0` at offsets 2-3 and the new segment `FF EF 00 06 ...` begins
only at offset 4. -/
theorem c8_counterexample :
    Enc.insertJpegAPP15 [255, 216, 255, 208, 255, 217] [65, 66, 67, 68]
      = .ok [255, 216, 255, 208, 255, 239, 0, 6, 65, 66, 67, 68, 255, 217] := by
  have hwalk : Enc.jpegWalk [255, 216, 255, 208, 255, 217] 2 = 4 := by
    rw [jpegWalk_rst _ _ (by decide) (by decide) (by decide)]
    exact jpegWalk_stop_of_not _ _ (by decide)
  rw [insertJpegAPP15_ok _ _ (by decide) (by decide), hwalk]
  rfl

/-- C8 witness for the amended claim: a restart-marker skip step, a
successful insertion at a minimal JPEG, and the overflow failure. -/
theorem c8_witness :
    ((2 : Nat) + 4 ≤ ([255, 216, 255, 208, 255, 217] : List Nat).length ∧
      byteAt [255, 216, 255, 208, 255, 217] 2 = 255 ∧
      Enc.jpegWalk [255, 216, 255, 208, 255, 217] 2
        = Enc.jpegWalk [255, 216, 255, 208, 255, 217] 4) ∧
    Enc.insertJpegAPP15 [255, 216, 255, 217] [1]
      = .ok ([255, 216, 255, 217].take (Enc.jpegWalk [255, 216, 255, 217] 2)
        ++ 255 :: 239 :: (u16be 3 ++ [1])
        ++ [255, 216, 255, 217].drop (Enc.jpegWalk [255, 216, 255, 217] 2)) ∧
    Enc.insertJpegAPP15 [255, 216, 255, 217] (List.replicate 65534 0)
      = .error "Payload too large for one JPEG segment" :=
  ⟨⟨by decide, by decide,
    (c8_jpeg_insertion.1 [255, 216, 255, 208, 255, 217] 2 (by decide) (by decide)).2.1
      (by decide)⟩,
    c8_jpeg_insertion.2.1 [255, 216, 255, 217] [1] (by decide) (by decide),
    c8_jpeg_insertion.2.2.1 [255, 216, 255, 217] (List.replicate 65534 0) (by decide)
      (by rw [List.length_replicate]; norm_num)⟩

/-! ## PNG embed/extract round trip -/

theorem readHeaderBits_ok_shape (px : List Nat)
    (h : HEADER_SIZE * 8 ≤ (Dec.enumerateRGBByteIndices px).length) :
    Dec.readHeaderBits px = .ok (Dec.bitsToBytes
      (((Dec.enumerateRGBByteIndices px).take (HEADER_SIZE * 8)).map
        (fun i => Dec.readPos px ⟨i, 0⟩))) := by
  rw [Dec.readHeaderBits, if_neg (by omega)]

theorem extractBits_ok_shape (px : List Nat) (positions : List BitPos) (n : Nat)
    (h : n * 8 ≤ positions.length) :
    Dec.extractBits px positions n = .ok (Dec.bitsToBytes
      ((positions.take (n * 8)).map (Dec.readPos px))) := by
  rw [Dec.extractBits, if_neg (by omega)]

theorem png_extract_roundtrip (pr : Prims) (data header ct key d1 d2 : List Nat)
    (h4 : 4 ∣ data.length)
    (hhlen : header.length = HEADER_SIZE) (hhbytes : ∀ b ∈ header, b < 256)
    (hctbytes : ∀ b ∈ ct, b < 256)
    (hw : Enc.writeHeaderBits data header = .ok d1)
    (he : Enc.embedBits d1 ((Enc.shufflePositions pr.hmac (Enc.buildPayloadPositions d1 1)
      (Enc.prngInit (pr.hmac key ECAP_PERMUTE))).1) ct = .ok d2) :
    Dec.readHeaderBits d2 = .ok header ∧
    Dec.extractBits d2 ((Dec.shufflePositions pr.hmac (Dec.buildPayloadPositions d2 1)
      (Dec.prngInit (pr.hmac key ECAP_PERMUTE))).1) ct.length = .ok ct := by
  obtain ⟨hd1, hset1⟩ := writeHeaderBits_ok data header d1 hw
  obtain ⟨hd2, hset2⟩ := embedBits_ok d1 _ ct d2 he
  have hd1len : d1.length = data.length := by
    rw [hd1]
    exact writeBits_length _ _ _
  have hd2len : d2.length = data.length := by
    rw [hd2, writeBits_length, hd1len]
  -- the encoder-side index list; all decoder-side lists are equal to it
  obtain ⟨henumLen, henumMem, henumNodup⟩ := enumerateRGB_spec data h4
  have henum1 : Enc.enumerateRGBByteIndices d1 = Enc.enumerateRGBByteIndices data := by
    rw [Enc.enumerateRGBByteIndices, Enc.enumerateRGBByteIndices, hd1len]
  have henum2D : Dec.enumerateRGBByteIndices d2 = Enc.enumerateRGBByteIndices data := by
    rw [Dec.enumerateRGBByteIndices, Enc.enumerateRGBByteIndices, hd2len, enumRGBAux_encDec]
  -- the decoder-side shuffled positions equal the encoder-side ones
  have hposDec : (Dec.shufflePositions pr.hmac (Dec.buildPayloadPositions d2 1)
      (Dec.prngInit (pr.hmac key ECAP_PERMUTE))).1
      = (Enc.shufflePositions pr.hmac (Enc.buildPayloadPositions d1 1)
        (Enc.prngInit (pr.hmac key ECAP_PERMUTE))).1 := by
    rw [← buildPayloadPositions_encDec d1 d2 1 (by omega)]
    have hinit : Dec.prngInit (pr.hmac key ECAP_PERMUTE)
        = encDecState (Enc.prngInit (pr.hmac key ECAP_PERMUTE)) := rfl
    rw [hinit, shufflePositions_encDec]
  set positions2 := (Enc.shufflePositions pr.hmac (Enc.buildPayloadPositions d1 1)
    (Enc.prngInit (pr.hmac key ECAP_PERMUTE))).1 with hpos2
  have hperm : positions2.Perm (Enc.buildPayloadPositions d1 1) :=
    shufflePositions_perm pr.hmac _ _
  have hbp1 : Enc.buildPayloadPositions d1 1
      = ((Enc.enumerateRGBByteIndices data).drop (HEADER_SIZE * 8)).map
        (fun i => ⟨i, 0⟩) := by
    rw [buildPayloadPositions_one, henum1]
  have hposmem : ∀ p ∈ positions2, p.plane = 0 ∧
      p.byteIndex ∈ (Enc.enumerateRGBByteIndices data).drop (HEADER_SIZE * 8) := by
    intro p hp
    have hp2 := hperm.mem_iff.mp hp
    rw [hbp1] at hp2
    obtain ⟨i, hi, rfl⟩ := List.mem_map.mp hp2
    exact ⟨rfl, hi⟩
  have hposnd : positions2.Nodup := by
    have : (Enc.buildPayloadPositions d1 1).Nodup := by
      rw [hbp1]
      refine List.Nodup.map ?_ (henumNodup.sublist (List.drop_sublist _ _))
      intro a b hab
      cases hab
      rfl
    exact this.perm hperm.symm
  have hdisj : (List.take (HEADER_SIZE * 8) (Enc.enumerateRGBByteIndices data)).Disjoint
      (List.drop (HEADER_SIZE * 8) (Enc.enumerateRGBByteIndices data)) :=
    List.disjoint_take_drop henumNodup (le_refl _)
  -- the header positions used by the encoder
  set hdrPs := ((Enc.enumerateRGBByteIndices data).take (HEADER_SIZE * 8)).map
    (fun i => (⟨i, 0⟩ : BitPos)) with hhdrPs
  have hhdrLen : hdrPs.length = HEADER_SIZE * 8 := by
    rw [hhdrPs, List.length_map, List.length_take]
    omega
  have hhdrNodup : hdrPs.Nodup := by
    rw [hhdrPs]
    refine List.Nodup.map ?_ (henumNodup.sublist (List.take_sublist _ _))
    intro a b hab
    cases hab
    rfl
  have hhdrBound : ∀ p ∈ hdrPs, p.byteIndex < data.length := by
    intro p hp
    rw [hhdrPs] at hp
    obtain ⟨i, hi, rfl⟩ := List.mem_map.mp hp
    exact (henumMem i (List.take_subset _ _ hi)).1
  have hdrbits_len : (Enc.dataToBits header).length = hdrPs.length := by
    rw [dataToBits_length, hhdrLen, hhlen]
    rfl
  -- bytes of d2 at header positions are those of d1
  have hread_d2_hdr : ∀ q ∈ hdrPs, Dec.readPos d2 q = Dec.readPos d1 q := by
    intro q hq
    rw [hd2]
    apply readPos_writeBits_not_mem
    · exact fun b hb => dataToBits_le_one ct b hb
    · intro hqin
      have hq2 := hposmem q (List.take_subset _ _ hqin)
      rw [hhdrPs] at hq
      obtain ⟨i, hi, rfl⟩ := List.mem_map.mp hq
      exact hdisj hi hq2.2
  -- header read-back
  have hmap_hdr : hdrPs.map (Dec.readPos d1) = Enc.dataToBits header := by
    rw [hd1]
    exact map_readPos_writeBits hdrPs _ data hhdrNodup hdrbits_len
      (fun b hb => dataToBits_le_one header b hb) hhdrBound
  constructor
  · rw [readHeaderBits_ok_shape d2 (by rw [henum2D]; omega), henum2D]
    have hmm : ((Enc.enumerateRGBByteIndices data).take (HEADER_SIZE * 8)).map
        (fun i => Dec.readPos d2 ⟨i, 0⟩) = hdrPs.map (Dec.readPos d2) := by
      rw [hhdrPs, List.map_map]
      rfl
    rw [hmm, List.map_congr_left hread_d2_hdr, hmap_hdr,
      bitsToBytes_dataToBits header hhbytes]
  · have hctlen8 : ct.length * 8 ≤ positions2.length := hset2
    rw [hposDec, extractBits_ok_shape d2 positions2 ct.length hctlen8]
    have hplen : (positions2.take (ct.length * 8)).length = ct.length * 8 := by
      rw [List.length_take]
      omega
    have hctbits_len : (Enc.dataToBits ct).length = (positions2.take (ct.length * 8)).length := by
      rw [dataToBits_length, hplen]
      omega
    have hptNodup : (positions2.take (ct.length * 8)).Nodup :=
      hposnd.sublist (List.take_sublist _ _)
    have hptBound : ∀ p ∈ positions2.take (ct.length * 8), p.byteIndex < d1.length := by
      intro p hp
      have hm := hposmem p (List.take_subset _ _ hp)
      rw [hd1len]
      exact (henumMem p.byteIndex (List.drop_subset _ _ hm.2)).1
    have hmap_ct : (positions2.take (ct.length * 8)).map (Dec.readPos d2)
        = Enc.dataToBits ct := by
      rw [hd2]
      exact map_readPos_writeBits _ _ d1 hptNodup hctbits_len
        (fun b hb => dataToBits_le_one ct b hb) hptBound
    rw [hmap_ct, bitsToBytes_dataToBits ct hctbytes]

/-! ## JPEG extraction finds the inserted segment -/

theorem jpegWalk_ge_fuel : ∀ (d : Nat) (l : List Nat) (pos : Nat),
    l.length - pos ≤ d → pos ≤ Enc.jpegWalk l pos := by
  intro d
  induction d with
  | zero =>
    intro l pos hd
    rw [jpegWalk_stop_of_not l pos (by omega)]
  | succ n ih =>
    intro l pos hd
    by_cases hcond : pos + 4 ≤ l.length ∧ byteAt l pos = 255
    · by_cases hsos : byteAt l (pos + 1) = 218 ∨ byteAt l (pos + 1) = 217
      · rw [jpegWalk_stop_sos_eoi l pos hcond.1 hcond.2 hsos]
      · by_cases hrst : 208 ≤ byteAt l (pos + 1) ∧ byteAt l (pos + 1) ≤ 215
        · rw [jpegWalk_rst l pos hcond.1 hcond.2 hrst]
          have := ih l (pos + 2) (by omega)
          omega
        · by_cases hshort : readU16BE l (pos + 2) < 2
          · rw [jpegWalk_stop_short_seg l pos hcond.1 hcond.2 (by tauto) (by tauto)
              hrst hshort]
          · rw [jpegWalk_seg l pos hcond.1 hcond.2 (by tauto) (by tauto) hrst (by omega)]
            have := ih l (pos + 2 + readU16BE l (pos + 2)) (by omega)
            omega
    · rw [jpegWalk_stop_of_not l pos hcond]

theorem jpegWalk_ge (l : List Nat) (pos : Nat) : pos ≤ Enc.jpegWalk l pos :=
  jpegWalk_ge_fuel (l.length - pos) l pos (le_refl _)

theorem extractJpegWalk_stop_of_not (l : List Nat) (pos : Nat)
    (h : ¬(pos + 4 ≤ l.length ∧ byteAt l pos = 255)) :
    Dec.extractJpegWalk l pos = none := by
  rw [Dec.extractJpegWalk, dif_neg h]

theorem extractJpegWalk_rst (l : List Nat) (pos : Nat)
    (hb : pos + 4 ≤ l.length) (hff : byteAt l pos = 255)
    (hr : 208 ≤ byteAt l (pos + 1) ∧ byteAt l (pos + 1) ≤ 215) :
    Dec.extractJpegWalk l pos = Dec.extractJpegWalk l (pos + 2) := by
  rw [Dec.extractJpegWalk, dif_pos ⟨hb, hff⟩]
  simp only []
  rw [if_neg (by omega), dif_pos hr]

theorem extractJpegWalk_seg (l : List Nat) (pos : Nat)
    (hb : pos + 4 ≤ l.length) (hff : byteAt l pos = 255)
    (hc1 : byteAt l (pos + 1) ≠ 218) (hc2 : byteAt l (pos + 1) ≠ 217)
    (hc3 : ¬(208 ≤ byteAt l (pos + 1) ∧ byteAt l (pos + 1) ≤ 215))
    (hseg : 2 ≤ readU16BE l (pos + 2)) (hbound : pos + 2 + readU16BE l (pos + 2) ≤ l.length) :
    Dec.extractJpegWalk l pos =
      (if 4 ≤ ((l.drop (pos + 4)).take (readU16BE l (pos + 2) - 2)).length ∧
          ((l.drop (pos + 4)).take (readU16BE l (pos + 2) - 2)).take 4 = MAGIC then
        some ((l.drop (pos + 4)).take (readU16BE l (pos + 2) - 2))
      else Dec.extractJpegWalk l (pos + 2 + readU16BE l (pos + 2))) := by
  rw [Dec.extractJpegWalk, dif_pos ⟨hb, hff⟩]
  simp only []
  rw [if_neg (by tauto), dif_neg hc3, dif_neg (by omega)]

theorem slice_eq_of_byteAt (l1 l2 : List Nat) (a b : Nat)
    (h1 : a + b ≤ l1.length) (h2 : a + b ≤ l2.length)
    (h : ∀ i, i < b → byteAt l1 (a + i) = byteAt l2 (a + i)) :
    (l1.drop a).take b = (l2.drop a).take b := by
  apply List.ext_getElem?
  intro n
  by_cases hn : n < b
  · have e1 : ((l1.drop a).take b)[n]? = l1[a + n]? := by
      rw [List.getElem?_take_of_lt hn, List.getElem?_drop]
    have e2 : ((l2.drop a).take b)[n]? = l2[a + n]? := by
      rw [List.getElem?_take_of_lt hn, List.getElem?_drop]
    rw [e1, e2]
    have hb1 : a + n < l1.length := by omega
    have hb2 : a + n < l2.length := by omega
    rw [List.getElem?_eq_getElem hb1, List.getElem?_eq_getElem hb2]
    have hba := h n hn
    have hv1 : byteAt l1 (a + n) = l1[a + n] := by
      simp [byteAt, List.getD, List.getElem?_eq_getElem hb1]
    have hv2 : byteAt l2 (a + n) = l2[a + n] := by
      simp [byteAt, List.getD, List.getElem?_eq_getElem hb2]
    rw [hv1, hv2] at hba
    rw [hba]
  · have e1 : ((l1.drop a).take b)[n]? = none := by
      rw [List.getElem?_eq_none]
      rw [List.length_take, List.length_drop]
      omega
    have e2 : ((l2.drop a).take b)[n]? = none := by
      rw [List.getElem?_eq_none]
      rw [List.length_take, List.length_drop]
      omega
    rw [e1, e2]

theorem seg_reassoc (p : Nat) (orig blob : List Nat) :
    orig.take p ++ 255 :: 239 :: (u16be (blob.length + 2) ++ blob) ++ orig.drop p
      = (orig.take p ++ 255 :: 239 :: u16be (blob.length + 2)) ++ (blob ++ orig.drop p) := by
  simp [List.append_assoc]

theorem extract_at_seg (orig blob : List Nat) (p : Nat)
    (hple : p ≤ orig.length)
    (hmagic : blob.take 4 = MAGIC) (hlen4 : 4 ≤ blob.length) (hlen : blob.length ≤ 65533) :
    Dec.extractJpegWalk
      (orig.take p ++ 255 :: 239 :: (u16be (blob.length + 2) ++ blob) ++ orig.drop p) p
      = some blob := by
  set out := orig.take p ++ 255 :: 239 :: (u16be (blob.length + 2) ++ blob) ++ orig.drop p
    with hout
  have htakep : (orig.take p).length = p := by
    rw [List.length_take]
    omega
  have hseglen : (255 :: 239 :: (u16be (blob.length + 2) ++ blob)).length
      = blob.length + 4 := by
    simp [u16be]
  have houtlen : out.length = orig.length + blob.length + 4 := by
    rw [hout]
    simp [u16be, List.length_append, List.length_drop]
    omega
  have htail : ∀ k : Nat, byteAt out (p + k)
      = byteAt (255 :: 239 :: (u16be (blob.length + 2) ++ blob) ++ orig.drop p) k := by
    intro k
    rw [hout, List.append_assoc, byteAt_append_right (by omega), htakep]
    congr 1
    omega
  have hb0 : byteAt out p = 255 := by
    have := htail 0
    rw [Nat.add_zero] at this
    rw [this]
    rfl
  have hb1 : byteAt out (p + 1) = 239 := by
    rw [htail 1]
    rfl
  have hseg : readU16BE out (p + 2) = blob.length + 2 := by
    have h2 : byteAt out (p + 2) = (blob.length + 2) / 2 ^ 8 % 256 := by
      rw [htail 2]
      rfl
    have h3 : byteAt out (p + 2 + 1) = (blob.length + 2) % 256 := by
      have : p + 2 + 1 = p + 3 := by omega
      rw [this, htail 3]
      rfl
    rw [readU16BE, h2, h3]
    omega
  have hdrop : out.drop (p + 4) = blob ++ orig.drop p := by
    rw [hout, seg_reassoc]
    have hprelen : (orig.take p ++ 255 :: 239 :: u16be (blob.length + 2)).length = p + 4 := by
      simp [u16be, List.length_append]
      omega
    rw [← hprelen, List.drop_left]
  have hpayload : (out.drop (p + 4)).take (readU16BE out (p + 2) - 2) = blob := by
    rw [hdrop, hseg]
    have : blob.length + 2 - 2 = blob.length := by omega
    rw [this, List.take_left]
  rw [Dec.extractJpegWalk, dif_pos ⟨by omega, hb0⟩]
  simp only []
  rw [if_neg (by rw [hb1]; omega), dif_neg (by rw [hb1]; omega),
    dif_neg (by rw [hseg]; omega)]
  rw [hpayload, if_pos ⟨by omega, hmagic⟩]

theorem jpeg_lockstep (orig blob : List Nat) (p : Nat)
    (hple : p ≤ orig.length)
    (hmagic : blob.take 4 = MAGIC) (hlen4 : 4 ≤ blob.length) (hlen : blob.length ≤ 65533) :
    ∀ (d pos : Nat), p - pos ≤ d → pos ≤ p →
      Enc.jpegWalk orig pos = p →
      Dec.extractJpegWalk orig pos = none →
      Dec.extractJpegWalk
        (orig.take p ++ 255 :: 239 :: (u16be (blob.length + 2) ++ blob) ++ orig.drop p) pos
        = some blob := by
  have hshape := insert_shape_bytes orig (255 :: 239 :: (u16be (blob.length + 2) ++ blob))
    p hple
  obtain ⟨houtlen, hlo, _⟩ := hshape
  have hseglen : (255 :: 239 :: (u16be (blob.length + 2) ++ blob)).length
      = blob.length + 4 := by
    simp [u16be]
  set out := orig.take p ++ 255 :: 239 :: (u16be (blob.length + 2) ++ blob) ++ orig.drop p
    with hout
  have houtlen2 : out.length = orig.length + blob.length + 4 := by
    rw [houtlen, hseglen]
    omega
  intro d
  induction d with
  | zero =>
    intro pos hd hpos hwalk _
    have hpp : pos = p := by omega
    subst hpp
    exact extract_at_seg orig blob pos hple hmagic hlen4 hlen
  | succ n ih =>
    intro pos hd hpos hwalk hnone
    by_cases hpp : pos = p
    · subst hpp
      exact extract_at_seg orig blob pos hple hmagic hlen4 hlen
    · have hposlt : pos < p := by omega
      by_cases hcond : pos + 4 ≤ orig.length ∧ byteAt orig pos = 255
      · by_cases hsos : byteAt orig (pos + 1) = 218 ∨ byteAt orig (pos + 1) = 217
        · rw [jpegWalk_stop_sos_eoi orig pos hcond.1 hcond.2 hsos] at hwalk
          omega
        · by_cases hrst : 208 ≤ byteAt orig (pos + 1) ∧ byteAt orig (pos + 1) ≤ 215
          · rw [jpegWalk_rst orig pos hcond.1 hcond.2 hrst] at hwalk
            have hge := jpegWalk_ge orig (pos + 2)
            rw [hwalk] at hge
            rw [extractJpegWalk_rst orig pos hcond.1 hcond.2 hrst] at hnone
            have hob0 : byteAt out pos = byteAt orig pos := hlo pos hposlt
            have hob1 : byteAt out (pos + 1) = byteAt orig (pos + 1) :=
              hlo (pos + 1) (by omega)
            rw [extractJpegWalk_rst out pos (by omega) (by rw [hob0]; exact hcond.2)
              (by rw [hob1]; exact hrst)]
            exact ih (pos + 2) (by omega) (by omega) hwalk hnone
          · by_cases hshort : readU16BE orig (pos + 2) < 2
            · rw [jpegWalk_stop_short_seg orig pos hcond.1 hcond.2 (by tauto) (by tauto)
                hrst hshort] at hwalk
              omega
            · have hwalk2 := hwalk
              rw [jpegWalk_seg orig pos hcond.1 hcond.2 (by tauto) (by tauto) hrst
                (by omega)] at hwalk2
              have hge := jpegWalk_ge orig (pos + 2 + readU16BE orig (pos + 2))
              rw [hwalk2] at hge
              have hob0 : byteAt out pos = byteAt orig pos := hlo pos hposlt
              have hob1 : byteAt out (pos + 1) = byteAt orig (pos + 1) :=
                hlo (pos + 1) (by omega)
              have hob2 : byteAt out (pos + 2) = byteAt orig (pos + 2) :=
                hlo (pos + 2) (by omega)
              have hob3 : byteAt out (pos + 2 + 1) = byteAt orig (pos + 2 + 1) :=
                hlo (pos + 2 + 1) (by omega)
              have hsegeq : readU16BE out (pos + 2) = readU16BE orig (pos + 2) := by
                rw [readU16BE, readU16BE, hob2, hob3]
              rw [extractJpegWalk_seg orig pos hcond.1 hcond.2 (by tauto) (by tauto)
                hrst (by omega) (by omega)] at hnone
              have hnotfound : ¬(4 ≤ ((orig.drop (pos + 4)).take
                  (readU16BE orig (pos + 2) - 2)).length ∧
                  ((orig.drop (pos + 4)).take (readU16BE orig (pos + 2) - 2)).take 4
                    = MAGIC) := by
                intro hf
                rw [if_pos hf] at hnone
                exact absurd hnone (by simp)
              rw [if_neg hnotfound] at hnone
              have hpayeq : (out.drop (pos + 4)).take (readU16BE orig (pos + 2) - 2)
                  = (orig.drop (pos + 4)).take (readU16BE orig (pos + 2) - 2) := by
                apply slice_eq_of_byteAt
                · omega
                · omega
                · intro i hi
                  exact hlo (pos + 4 + i) (by omega)
              rw [extractJpegWalk_seg out pos (by omega) (by rw [hob0]; exact hcond.2)
                (by rw [hob1]; tauto) (by rw [hob1]; tauto) (by rw [hob1]; exact hrst)
                (by rw [hsegeq]; omega) (by rw [hsegeq]; omega)]
              rw [hsegeq, hpayeq, if_neg hnotfound]
              exact ih (pos + 2 + readU16BE orig (pos + 2)) (by omega) (by omega)
                hwalk2 hnone
      · rw [jpegWalk_stop_of_not orig pos hcond] at hwalk
        omega

theorem jpeg_insert_then_extract (orig blob out : List Nat)
    (hj : Enc.isJpeg orig = true)
    (hmagic : blob.take 4 = MAGIC) (hlen4 : 4 ≤ blob.length) (hlen : blob.length ≤ 65533)
    (hple : Enc.jpegWalk orig 2 ≤ orig.length)
    (hnone : Dec.extractJpegAPP15 orig = none)
    (hins : Enc.insertJpegAPP15 orig blob = .ok out) :
    Dec.extractJpegAPP15 out = some blob := by
  rw [insertJpegAPP15_ok orig blob hj hlen] at hins
  have hout : out = orig.take (Enc.jpegWalk orig 2)
      ++ 255 :: 239 :: (u16be (blob.length + 2) ++ blob)
      ++ orig.drop (Enc.jpegWalk orig 2) := by
    cases hins
    rfl
  subst hout
  have hp2 : 2 ≤ Enc.jpegWalk orig 2 := jpegWalk_ge orig 2
  obtain ⟨houtlen, hlo, _⟩ := insert_shape_bytes orig
    (255 :: 239 :: (u16be (blob.length + 2) ++ blob)) (Enc.jpegWalk orig 2) hple
  have hjorig : 2 ≤ orig.length ∧ byteAt orig 0 = 255 ∧ byteAt orig 1 = 216 := by
    rw [Enc.isJpeg] at hj
    simp only [Bool.and_eq_true, decide_eq_true_eq] at hj
    exact ⟨hj.1.1, hj.1.2, hj.2⟩
  have hjout : Dec.isJpeg (orig.take (Enc.jpegWalk orig 2)
      ++ 255 :: 239 :: (u16be (blob.length + 2) ++ blob)
      ++ orig.drop (Enc.jpegWalk orig 2)) = true := by
    rw [Dec.isJpeg]
    simp only [Bool.and_eq_true, decide_eq_true_eq]
    refine ⟨⟨?_, ?_⟩, ?_⟩
    · rw [houtlen]
      have := hjorig.1
      omega
    · exact (hlo 0 (by omega)).trans hjorig.2.1
    · exact (hlo 1 (by omega)).trans hjorig.2.2
  have hnone2 : Dec.extractJpegWalk orig 2 = none := by
    rw [Dec.extractJpegAPP15] at hnone
    rw [if_pos ?hjo] at hnone
    · exact hnone
    case hjo =>
      rw [Dec.isJpeg]
      simp only [Bool.and_eq_true, decide_eq_true_eq]
      exact ⟨⟨hjorig.1, hjorig.2.1⟩, hjorig.2.2⟩
  rw [Dec.extractJpegAPP15, if_pos hjout]
  exact jpeg_lockstep orig blob (Enc.jpegWalk orig 2) hple hmagic hlen4 hlen
    (Enc.jpegWalk orig 2 - 2) 2 (le_refl _) hp2 rfl hnone2

theorem insertWebPChunk_ok (orig blob : List Nat) (hw : Enc.isWebP orig = true) :
    Enc.insertWebPChunk orig blob = .ok (webpOut orig blob) := by
  rw [Enc.insertWebPChunk, if_neg (by simp [hw])]
  rfl

theorem ecapChunk_length (blob : List Nat) :
    (ecapChunk blob).length = 8 + blob.length + (if blob.length % 2 = 1 then 1 else 0) := by
  rw [ecapChunk]
  by_cases h : blob.length % 2 = 1
  · rw [if_pos h, if_pos h]
    simp [MAGIC, u32le, List.length_append]
    omega
  · rw [if_neg h, if_neg h]
    simp [MAGIC, u32le, List.length_append]
    omega

theorem ecapChunk_take4 (blob : List Nat) : (ecapChunk blob).take 4 = MAGIC := by
  rw [ecapChunk]
  rw [List.append_assoc, List.append_assoc]
  exact List.take_left' rfl

theorem ecapChunk_drop8 (blob : List Nat) :
    (ecapChunk blob).drop 8 = blob ++ (if blob.length % 2 = 1 then [0] else []) := by
  rw [ecapChunk, List.append_assoc]
  have h : ((MAGIC ++ u32le blob.length)).length = 8 := by
    simp [MAGIC, u32le]
  rw [show MAGIC ++ u32le blob.length ++ (blob ++ if blob.length % 2 = 1 then [0] else [])
    = (MAGIC ++ u32le blob.length) ++ (blob ++ if blob.length % 2 = 1 then [0] else [])
    from by rw [List.append_assoc]]
  rw [← h, List.drop_left]

theorem webpOut_length (orig blob : List Nat) (h12 : 12 ≤ orig.length) :
    (webpOut orig blob).length = orig.length + (ecapChunk blob).length := by
  rw [webpOut]
  simp [u32le, List.length_append, List.length_drop]
  omega

theorem webpOut_drop (orig blob : List Nat) (h12 : 12 ≤ orig.length) :
    (webpOut orig blob).drop orig.length = ecapChunk blob := by
  rw [webpOut]
  rw [show [82, 73, 70, 70] ++ u32le ((orig.drop 12 ++ ecapChunk blob).length + 4)
      ++ [87, 69, 66, 80] ++ (orig.drop 12 ++ ecapChunk blob)
    = ([82, 73, 70, 70] ++ u32le ((orig.drop 12 ++ ecapChunk blob).length + 4)
      ++ [87, 69, 66, 80] ++ orig.drop 12) ++ ecapChunk blob
    from by simp [List.append_assoc]]
  have h : ([82, 73, 70, 70] ++ u32le ((orig.drop 12 ++ ecapChunk blob).length + 4)
      ++ [87, 69, 66, 80] ++ orig.drop 12).length = orig.length := by
    simp [u32le, List.length_append, List.length_drop]
    omega
  rw [← h, List.drop_left]

theorem webpOut_byteAt (orig blob : List Nat) (h12 : 12 ≤ orig.length) (i : Nat)
    (hi : 12 ≤ i) (hlt : i < orig.length) :
    byteAt (webpOut orig blob) i = byteAt orig i := by
  rw [webpOut]
  rw [show [82, 73, 70, 70] ++ u32le ((orig.drop 12 ++ ecapChunk blob).length + 4)
      ++ [87, 69, 66, 80] ++ (orig.drop 12 ++ ecapChunk blob)
    = ([82, 73, 70, 70] ++ u32le ((orig.drop 12 ++ ecapChunk blob).length + 4)
      ++ [87, 69, 66, 80]) ++ (orig.drop 12 ++ ecapChunk blob)
    from by simp [List.append_assoc]]
  have h : ([82, 73, 70, 70] ++ u32le ((orig.drop 12 ++ ecapChunk blob).length + 4)
      ++ [87, 69, 66, 80]).length = 12 := by
    simp [u32le, List.length_append]
  rw [byteAt_append_right (by omega)]
  rw [h, byteAt_append_left (by rw [List.length_drop]; omega)]
  rw [byteAt_drop]
  congr 1
  omega

theorem webpScan_stop_of_not (l : List Nat) (pos : Nat) (h : ¬ pos + 8 ≤ l.length) :
    Dec.webpScan l pos = (none, pos) := by
  rw [Dec.webpScan, dif_neg h]

theorem webpScan_overrun (l : List Nat) (pos : Nat) (h : pos + 8 ≤ l.length)
    (hb : l.length < pos + 8 + readU32LE l (pos + 4)) :
    Dec.webpScan l pos = (none, pos) := by
  rw [Dec.webpScan, dif_pos h]
  simp only []
  rw [dif_pos hb]

theorem webpScan_found (l : List Nat) (pos : Nat) (h : pos + 8 ≤ l.length)
    (hb : ¬ l.length < pos + 8 + readU32LE l (pos + 4))
    (hm : asciiStr ((l.drop pos).take 4) = MAGIC) :
    Dec.webpScan l pos = (some ((l.drop (pos + 8)).take (readU32LE l (pos + 4))), pos) := by
  rw [Dec.webpScan, dif_pos h]
  simp only []
  rw [dif_neg hb, if_pos hm]

theorem webpScan_step (l : List Nat) (pos : Nat) (h : pos + 8 ≤ l.length)
    (hb : ¬ l.length < pos + 8 + readU32LE l (pos + 4))
    (hm : ¬ asciiStr ((l.drop pos).take 4) = MAGIC) :
    Dec.webpScan l pos
      = Dec.webpScan l (pos + 8 + readU32LE l (pos + 4) + readU32LE l (pos + 4) % 2) := by
  rw [Dec.webpScan, dif_pos h]
  simp only []
  rw [dif_neg hb, if_neg hm]

theorem webp_scan_at_end (orig blob : List Nat) (hsize : blob.length < 2 ^ 32)
    (h12 : 12 ≤ orig.length) :
    Dec.webpScan (webpOut orig blob) orig.length = (some blob, orig.length) := by
  have hdrop := webpOut_drop orig blob h12
  have hlen := webpOut_length orig blob h12
  have hchlen := ecapChunk_length blob
  have hbyte : ∀ k : Nat, byteAt (webpOut orig blob) (orig.length + k)
      = byteAt (ecapChunk blob) k := by
    intro k
    rw [← hdrop, byteAt_drop]
  have hsz : readU32LE (webpOut orig blob) (orig.length + 4) = blob.length := by
    rw [readU32LE]
    have e0 : byteAt (webpOut orig blob) (orig.length + 4) = blob.length % 2 ^ 32 % 256 := by
      rw [hbyte 4]
      simp [ecapChunk, MAGIC, u32le, byteAt]
    have e1 : byteAt (webpOut orig blob) (orig.length + 4 + 1)
        = blob.length % 2 ^ 32 / 2 ^ 8 % 256 := by
      rw [show orig.length + 4 + 1 = orig.length + 5 from by omega, hbyte 5]
      simp [ecapChunk, MAGIC, u32le, byteAt]
    have e2 : byteAt (webpOut orig blob) (orig.length + 4 + 2)
        = blob.length % 2 ^ 32 / 2 ^ 16 % 256 := by
      rw [show orig.length + 4 + 2 = orig.length + 6 from by omega, hbyte 6]
      simp [ecapChunk, MAGIC, u32le, byteAt]
    have e3 : byteAt (webpOut orig blob) (orig.length + 4 + 3)
        = blob.length % 2 ^ 32 / 2 ^ 24 % 256 := by
      rw [show orig.length + 4 + 3 = orig.length + 7 from by omega, hbyte 7]
      simp [ecapChunk, MAGIC, u32le, byteAt]
    rw [e0, e1, e2, e3]
    omega
  have hm : asciiStr (((webpOut orig blob).drop orig.length).take 4) = MAGIC := by
    rw [hdrop, ecapChunk_take4]
    rfl
  rw [webpScan_found (webpOut orig blob) orig.length (by omega) (by omega) hm]
  rw [hsz]
  have hpay : ((webpOut orig blob).drop (orig.length + 8)).take blob.length = blob := by
    rw [← List.drop_drop, hdrop, ecapChunk_drop8]
    exact List.take_left' rfl
  rw [hpay]

theorem webp_lockstep (orig blob : List Nat) (hsize : blob.length < 2 ^ 32)
    (h12 : 12 ≤ orig.length) :
    ∀ (d pos : Nat), orig.length - pos ≤ d → 12 ≤ pos → pos ≤ orig.length →
      Dec.webpScan orig pos = (none, orig.length) →
      Dec.webpScan (webpOut orig blob) pos = (some blob, orig.length) := by
  have hlen := webpOut_length orig blob h12
  intro d
  induction d with
  | zero =>
    intro pos hd hpos hple _
    have : pos = orig.length := by omega
    subst this
    exact webp_scan_at_end orig blob hsize h12
  | succ n ih =>
    intro pos hd hpos hple hscan
    by_cases hpp : pos = orig.length
    · subst hpp
      exact webp_scan_at_end orig blob hsize h12
    · have hposlt : pos < orig.length := by omega
      by_cases h8 : pos + 8 ≤ orig.length
      · by_cases hover : orig.length < pos + 8 + readU32LE orig (pos + 4)
        · rw [webpScan_overrun orig pos h8 hover] at hscan
          have : pos = orig.length := by
            have := congrArg Prod.snd hscan
            simpa using this
          omega
        · by_cases hmag : asciiStr ((orig.drop pos).take 4) = MAGIC
          · rw [webpScan_found orig pos h8 hover hmag] at hscan
            have := congrArg Prod.fst hscan
            simp at this
          · have hstep := webpScan_step orig pos h8 hover hmag
            rw [hstep] at hscan
            set pos2 := pos + 8 + readU32LE orig (pos + 4) + readU32LE orig (pos + 4) % 2
              with hpos2
            have hple2 : pos2 ≤ orig.length := by
              by_contra hgt
              rw [webpScan_stop_of_not orig pos2 (by omega)] at hscan
              have := congrArg Prod.snd hscan
              simp at this
              omega
            have hsame : ∀ k : Nat, k < 8 →
                byteAt (webpOut orig blob) (pos + k) = byteAt orig (pos + k) := by
              intro k hk
              exact webpOut_byteAt orig blob h12 (pos + k) (by omega) (by omega)
            have hszeq : readU32LE (webpOut orig blob) (pos + 4)
                = readU32LE orig (pos + 4) := by
              rw [readU32LE, readU32LE]
              rw [show pos + 4 + 3 = pos + 7 from by omega,
                show pos + 4 + 2 = pos + 6 from by omega,
                show pos + 4 + 1 = pos + 5 from by omega]
              rw [hsame 4 (by omega), hsame 5 (by omega), hsame 6 (by omega),
                hsame 7 (by omega)]
            have hmageq : ((webpOut orig blob).drop pos).take 4
                = (orig.drop pos).take 4 := by
              apply slice_eq_of_byteAt
              · omega
              · omega
              · intro i hi
                exact hsame i (by omega)
            rw [webpScan_step (webpOut orig blob) pos (by omega)
              (by rw [hszeq]; omega) (by rw [hmageq]; exact hmag)]
            rw [hszeq]
            exact ih pos2 (by omega) (by omega) hple2 hscan
      · rw [webpScan_stop_of_not orig pos h8] at hscan
        have := congrArg Prod.snd hscan
        simp at this
        omega

theorem webp_insert_then_extract (orig blob out : List Nat)
    (hw : Enc.isWebP orig = true)
    (hsize : blob.length < 2 ^ 32)
    (hclean : Dec.webpScan orig 12 = (none, orig.length))
    (hins : Enc.insertWebPChunk orig blob = .ok out) :
    Dec.extractWebPChunk out = some blob := by
  have h12 : 12 ≤ orig.length := by
    rw [Enc.isWebP] at hw
    simp only [Bool.and_eq_true, decide_eq_true_eq] at hw
    exact hw.1.1
  rw [insertWebPChunk_ok orig blob hw] at hins
  have hout : out = webpOut orig blob := by
    cases hins
    rfl
  subst hout
  have hwout : Dec.isWebP (webpOut orig blob) = true := by
    rw [Dec.isWebP]
    simp only [Bool.and_eq_true, decide_eq_true_eq]
    refine ⟨⟨?_, ?_⟩, ?_⟩
    · rw [webpOut_length orig blob h12]
      omega
    · rw [webpOut]
      simp only [List.append_assoc]
      rw [List.take_left' (show ([82, 73, 70, 70] : List Nat).length = 4 from rfl)]
      rfl
    · rw [webpOut]
      rw [show ([82, 73, 70, 70] ++ u32le ((orig.drop 12 ++ ecapChunk blob).length + 4)
          ++ [87, 69, 66, 80] ++ (orig.drop 12 ++ ecapChunk blob))
        = ([82, 73, 70, 70] ++ u32le ((orig.drop 12 ++ ecapChunk blob).length + 4))
          ++ ([87, 69, 66, 80] ++ (orig.drop 12 ++ ecapChunk blob))
        from by simp [List.append_assoc]]
      have h8 : ([82, 73, 70, 70]
          ++ u32le ((orig.drop 12 ++ ecapChunk blob).length + 4)).length = 8 := by
        simp [u32le]
      rw [← h8, List.drop_left,
        List.take_left' (show ([87, 69, 66, 80] : List Nat).length = 4 from rfl)]
      rfl
  rw [Dec.extractWebPChunk, if_pos hwout]
  rw [webp_lockstep orig blob hsize h12 (orig.length - 12) 12 (le_refl _) (le_refl _)
    h12 hclean]

theorem take_eq_of_byteAt (l t : List Nat) (a : Nat)
    (hlen : a + t.length ≤ l.length)
    (h : ∀ k, k < t.length → byteAt l (a + k) = byteAt t k) :
    (l.drop a).take t.length = t := by
  apply List.ext_getElem?
  intro n
  by_cases hn : n < t.length
  · rw [List.getElem?_take_of_lt hn, List.getElem?_drop]
    rw [List.getElem?_eq_getElem (show a + n < l.length by omega),
      List.getElem?_eq_getElem hn]
    have hba := h n hn
    have hv1 : byteAt l (a + n) = l[a + n] := by
      simp [byteAt, List.getD, List.getElem?_eq_getElem (show a + n < l.length by omega)]
    have hv2 : byteAt t n = t[n] := by
      simp [byteAt, List.getD, List.getElem?_eq_getElem hn]
    rw [hv1, hv2] at hba
    rw [hba]
  · have e1 : ((l.drop a).take t.length)[n]? = none := by
      rw [List.getElem?_eq_none]
      rw [List.length_take]
      omega
    have e2 : t[n]? = none := by
      rw [List.getElem?_eq_none]
      omega
    rw [e1, e2]

theorem sigAt_true_iff (l : List Nat) (i : Nat) :
    Dec.sigAt l i = true ↔ i + 6 ≤ l.length ∧ byteAt l i = 69 ∧ byteAt l (i + 1) = 67
      ∧ byteAt l (i + 2) = 65 ∧ byteAt l (i + 3) = 80 ∧ byteAt l (i + 4) = 84
      ∧ byteAt l (i + 5) = 82 := by
  rw [Dec.sigAt, decide_eq_true_iff]
  constructor
  · intro h
    have hl := congrArg List.length h
    rw [List.length_take, List.length_drop,
      show TRAILER_SIG.length = 6 from rfl] at hl
    have hlen : i + 6 ≤ l.length := by omega
    have hb : ∀ k, k < 6 → byteAt l (i + k) = byteAt TRAILER_SIG k := by
      intro k hk
      have e : byteAt ((l.drop i).take 6) k = byteAt l (i + k) := by
        rw [byteAt_take hk, byteAt_drop]
      rw [h] at e
      exact e.symm
    exact ⟨hlen, hb 0 (by omega), hb 1 (by omega), hb 2 (by omega), hb 3 (by omega),
      hb 4 (by omega), hb 5 (by omega)⟩
  · rintro ⟨hlen, h0, h1, h2, h3, h4, h5⟩
    have := take_eq_of_byteAt l TRAILER_SIG i
      (by rw [show TRAILER_SIG.length = 6 from rfl]; omega)
      (by
        intro k hk
        rw [show TRAILER_SIG.length = 6 from rfl] at hk
        interval_cases k
        · exact h0
        · exact h1
        · exact h2
        · exact h3
        · exact h4
        · exact h5)
    rw [show TRAILER_SIG.length = 6 from rfl] at this
    exact this

theorem sigAt_append (a b : List Nat) (k : Nat) :
    Dec.sigAt (a ++ b) (a.length + k) = Dec.sigAt b k := by
  rw [Dec.sigAt, Dec.sigAt]
  rw [← List.drop_drop, List.drop_left]

theorem filter_range_stable (P : Nat → Bool) (m k : Nat)
    (hz : ∀ j, m < j → P j = false) :
    (List.range (m + 1 + k)).filter P = (List.range (m + 1)).filter P := by
  induction k with
  | zero => rfl
  | succ n ih =>
    rw [show m + 1 + (n + 1) = (m + 1 + n) + 1 from by omega, List.range_succ,
      List.filter_append]
    have hf : List.filter P [m + 1 + n] = [] := by
      simp [List.filter, hz (m + 1 + n) (by omega)]
    rw [hf, List.append_nil, ih]

theorem lastIndexOfSig_eq (l : List Nat) (m : Nat) (hm : m ≤ l.length)
    (hP : Dec.sigAt l m = true) (hz : ∀ j, m < j → Dec.sigAt l j = false) :
    Dec.lastIndexOfSig l = some m := by
  rw [Dec.lastIndexOfSig]
  rw [show l.length + 1 = m + 1 + (l.length - m) from by omega]
  rw [filter_range_stable (fun i => Dec.sigAt l i) m (l.length - m) hz]
  rw [List.range_succ, List.filter_append]
  have hf : List.filter (fun i => Dec.sigAt l i) [m] = [m] := by
    simp [List.filter, hP]
  rw [hf, List.getLast?_concat]

theorem readU32BE_shift (l : List Nat) (p : Nat) :
    readU32BE l p = readU32BE (l.drop p) 0 := by
  rw [readU32BE, readU32BE]
  simp only [byteAt_drop, Nat.zero_add, Nat.add_zero]

theorem extractTrailer_appendTrailer (orig blob : List Nat)
    (hsize : blob.length < 2 ^ 32)
    (hfree : ∀ j, j < (u32be blob.length ++ blob).length →
      Dec.sigAt (u32be blob.length ++ blob) j = false) :
    Dec.extractTrailer (Enc.appendTrailer orig blob) = some blob := by
  rw [Enc.appendTrailer]
  set out := orig ++ TRAILER_SIG ++ u32be blob.length ++ blob with hout
  have hassoc : out = orig ++ (TRAILER_SIG ++ (u32be blob.length ++ blob)) := by
    rw [hout]
    simp [List.append_assoc]
  have hassoc2 : out = (orig ++ TRAILER_SIG) ++ (u32be blob.length ++ blob) := by
    rw [hout]
    simp [List.append_assoc]
  have hassoc3 : out = (orig ++ TRAILER_SIG ++ u32be blob.length) ++ blob := by
    rw [hout]
  have houtlen : out.length = orig.length + 10 + blob.length := by
    rw [hassoc]
    simp [TRAILER_SIG, u32be, List.length_append]
    omega
  have htail : ∀ k : Nat, byteAt out (orig.length + k)
      = byteAt (TRAILER_SIG ++ (u32be blob.length ++ blob)) k := by
    intro k
    rw [hassoc, byteAt_append_right (by omega)]
    congr 1
    omega
  have hsig : Dec.sigAt out orig.length = true := by
    rw [sigAt_true_iff]
    refine ⟨by omega, ?_, ?_, ?_, ?_, ?_, ?_⟩
    · have := htail 0
      rw [Nat.add_zero] at this
      rw [this]
      rfl
    · rw [htail 1]
      rfl
    · rw [htail 2]
      rfl
    · rw [htail 3]
      rfl
    · rw [htail 4]
      rfl
    · rw [htail 5]
      rfl
  have hnone : ∀ j, orig.length < j → Dec.sigAt out j = false := by
    intro j hj
    by_cases hj6 : j < orig.length + 6
    · by_contra hb
      rw [Bool.not_eq_false, sigAt_true_iff] at hb
      obtain ⟨_, hb0, _⟩ := hb
      have h69 : byteAt (TRAILER_SIG ++ (u32be blob.length ++ blob)) (j - orig.length)
          = 69 := by
        have := htail (j - orig.length)
        rw [show orig.length + (j - orig.length) = j from by omega] at this
        rw [← this, hb0]
      have hd : j - orig.length = 1 ∨ j - orig.length = 2 ∨ j - orig.length = 3
          ∨ j - orig.length = 4 ∨ j - orig.length = 5 := by omega
      rcases hd with h | h | h | h | h
      · rw [h] at h69
        exact absurd (show (67 : Nat) = 69 from h69) (by decide)
      · rw [h] at h69
        exact absurd (show (65 : Nat) = 69 from h69) (by decide)
      · rw [h] at h69
        exact absurd (show (80 : Nat) = 69 from h69) (by decide)
      · rw [h] at h69
        exact absurd (show (84 : Nat) = 69 from h69) (by decide)
      · rw [h] at h69
        exact absurd (show (82 : Nat) = 69 from h69) (by decide)
    · have hj' : j = (orig ++ TRAILER_SIG).length + (j - orig.length - 6) := by
        simp [TRAILER_SIG, List.length_append]
        omega
      rw [hassoc2, hj', sigAt_append]
      rcases Nat.lt_or_ge (j - orig.length - 6) (u32be blob.length ++ blob).length
        with hlt | hge
      · exact hfree _ hlt
      · by_contra hb
        rw [Bool.not_eq_false, sigAt_true_iff] at hb
        obtain ⟨hl6, _⟩ := hb
        omega
  have hlast : Dec.lastIndexOfSig out = some orig.length :=
    lastIndexOfSig_eq out orig.length (by omega) hsig hnone
  rw [Dec.extractTrailer, hlast]
  simp only []
  rw [if_neg (by omega)]
  have hdrop6 : out.drop (orig.length + 6) = u32be blob.length ++ blob := by
    rw [hassoc2]
    rw [show orig.length + 6 = (orig ++ TRAILER_SIG).length from by
      simp [TRAILER_SIG, List.length_append]]
    rw [List.drop_left]
  have hlenread : readU32BE out (orig.length + 6) = blob.length := by
    rw [readU32BE_shift, hdrop6, readU32BE_u32be_append]
    omega
  rw [hlenread]
  rw [if_neg (by omega)]
  have hdrop10 : out.drop (orig.length + 6 + 4) = blob := by
    rw [hassoc3]
    rw [show orig.length + 6 + 4 = (orig ++ TRAILER_SIG ++ u32be blob.length).length from by
      simp [TRAILER_SIG, u32be, List.length_append]]
    rw [List.drop_left]
  rw [hdrop10, List.take_length]

theorem buildHeader_bytes (hp : HeaderParams) (bytes : List Nat)
    (hbuild : Enc.buildHeader hp = .ok bytes)
    (hs : ∀ b ∈ hp.salt, b < 256) (hi : ∀ b ∈ hp.iv, b < 256)
    (ht : ∀ b ∈ hp.tag, b < 256) :
    ∀ b ∈ bytes, b < 256 := by
  rw [Enc.buildHeader] at hbuild
  by_cases h1 : hp.salt.length ≠ 16
  · rw [if_pos h1] at hbuild
    exact absurd hbuild (by simp)
  · rw [if_neg h1] at hbuild
    by_cases h2 : hp.iv.length ≠ 12
    · rw [if_pos h2] at hbuild
      exact absurd hbuild (by simp)
    · rw [if_neg h2] at hbuild
      by_cases h3 : hp.tag.length ≠ 16
      · rw [if_pos h3] at hbuild
        exact absurd hbuild (by simp)
      · rw [if_neg h3] at hbuild
        simp only [Except.ok.injEq] at hbuild
        subst hbuild
        intro b hb
        simp only [MAGIC, VERSION, u32be, List.mem_append, List.mem_cons,
          List.not_mem_nil, or_false] at hb
        casesm* _ ∨ _
        all_goals first
        | omega
        | exact hs b (by assumption)
        | exact hi b (by assumption)
        | exact ht b (by assumption)

theorem processEncoding_ok_inv (pr : Prims) (fb ext plaintext password salt iv : List Nat)
    (key header out : List Nat) (logNUsed : Nat)
    (hkdf : Enc.deriveKeyAdaptive pr password salt 15 8 1 = .ok (key, logNUsed))
    (hbuild : Enc.buildHeader
      { encrypted := true, randomized := true, bitsPerChannel := 1,
        channelsMask := 7, payloadLen := plaintext.length, kdf := KDF_SCRYPT,
        logN := logNUsed, r := 8, p := 1, salt := salt, iv := iv,
        tag := (pr.aesEnc key iv plaintext).2 } = .ok header)
    (hok : Enc.processEncoding pr fb ext plaintext password salt iv = .ok ⟨none, out⟩) :
    Enc.embedAuto pr fb ext header (pr.aesEnc key iv plaintext).1 key = .ok out := by
  rw [Enc.processEncoding, hkdf] at hok
  simp only [] at hok
  rw [hbuild] at hok
  simp only [] at hok
  cases hemb : Enc.embedAuto pr fb ext header (pr.aesEnc key iv plaintext).1 key with
  | ok o =>
    rw [hemb] at hok
    simp only [Except.ok.injEq, Enc.EncOutcome.mk.injEq] at hok
    rw [hok.2]
  | error e =>
    rw [hemb] at hok
    simp only [Except.ok.injEq, Enc.EncOutcome.mk.injEq] at hok
    exact absurd hok.1 (by simp)

theorem containerDecode_ok (pr : Prims) (hpr : PrimsOK pr)
    (fb password plaintext salt iv key header : List Nat) (logNUsed : Nat)
    (hkdf : Enc.deriveKeyAdaptive pr password salt 15 8 1 = .ok (key, logNUsed))
    (hbuild : Enc.buildHeader
      { encrypted := true, randomized := true, bitsPerChannel := 1,
        channelsMask := 7, payloadLen := plaintext.length, kdf := KDF_SCRYPT,
        logN := logNUsed, r := 8, p := 1, salt := salt, iv := iv,
        tag := (pr.aesEnc key iv plaintext).2 } = .ok header)
    (hsalt : salt.length = 16) (hiv : iv.length = 12)
    (hptlen : plaintext.length < 2 ^ 32)
    (hne : plaintext ≠ [])
    (hextract : Dec.extractContainerBlob fb
      = some (header ++ (pr.aesEnc key iv plaintext).1)) :
    Dec.containerDecode pr fb password = .ok plaintext := by
  have hhlen : header.length = 60 := buildHeader_length _ _ hbuild
  have hctlen : (pr.aesEnc key iv plaintext).1.length = plaintext.length :=
    hpr.encLen key iv plaintext
  have hgo := go_ok_inv (fun logN => pr.scrypt password salt 32 (1 <<< logN) 8 1)
    15 key logNUsed (by rw [← Enc.deriveKeyAdaptive]; exact hkdf)
  obtain ⟨hl12, hl15, hscr⟩ := hgo
  have hparse := parseHeader_buildHeader _ _ hbuild hsalt hiv
    (hpr.tagLen key iv plaintext) rfl (by norm_num) (by norm_num)
    (by show logNUsed < 256; omega) (by norm_num) (by norm_num) hptlen
  have hne1 : 1 ≤ plaintext.length := by
    cases plaintext with
    | nil => exact absurd rfl hne
    | cons a t => simp
  rw [Dec.containerDecode, hextract]
  simp only []
  rw [if_neg (by
    rw [List.length_append, hhlen, hctlen]
    norm_num [HEADER_SIZE]
    omega)]
  have htake : (header ++ (pr.aesEnc key iv plaintext).1).take HEADER_SIZE = header := by
    rw [show HEADER_SIZE = 60 from rfl, ← hhlen, List.take_left]
  have hdrop : (header ++ (pr.aesEnc key iv plaintext).1).drop HEADER_SIZE
      = (pr.aesEnc key iv plaintext).1 := by
    rw [show HEADER_SIZE = 60 from rfl, ← hhlen, List.drop_left]
  rw [htake, hparse]
  simp only []
  have hfix : Dec.deriveKeyFixed pr password salt logNUsed 8 1 = .ok key := by
    rw [Dec.deriveKeyFixed, Nat.mod_eq_of_lt (by omega)]
    exact hscr
  rw [hfix]
  simp only []
  rw [hdrop, hpr.decInv key iv plaintext]

theorem processDecoding_container (pr : Prims) (fb password plaintext : List Nat)
    (hnopng : pr.pngRead fb = none)
    (hcd : Dec.containerDecode pr fb password = .ok plaintext)
    (hne : plaintext ≠ []) :
    Dec.processDecoding pr fb password = .ok plaintext := by
  have hpng : Dec.pngDecodeAttempt pr fb password = none := by
    rw [Dec.pngDecodeAttempt, hnopng]
  rw [Dec.processDecoding, hpng]
  simp only []
  rw [hcd]
  simp only []
  rw [if_neg hne]

theorem appendTrailer_isJpeg_false (fb blob : List Nat) (h : Enc.isJpeg fb = false) :
    Dec.isJpeg (Enc.appendTrailer fb blob) = false := by
  match fb with
  | [] =>
    rw [Dec.isJpeg]
    have : byteAt (Enc.appendTrailer [] blob) 0 = 69 := rfl
    simp [this]
  | [a] =>
    rw [Dec.isJpeg]
    have : byteAt (Enc.appendTrailer [a] blob) 1 = 69 := rfl
    simp [this]
  | a :: b :: t =>
    rw [Enc.isJpeg] at h
    rw [Dec.isJpeg]
    have h0 : byteAt (Enc.appendTrailer (a :: b :: t) blob) 0 = a := rfl
    have h1 : byteAt (Enc.appendTrailer (a :: b :: t) blob) 1 = b := rfl
    have ha : byteAt (a :: b :: t) 0 = a := rfl
    have hb : byteAt (a :: b :: t) 1 = b := rfl
    rw [ha, hb] at h
    rw [h0, h1]
    simp only [Bool.and_eq_false_iff, decide_eq_false_iff_not] at h ⊢
    rcases h with (h | h) | h
    · exact absurd (by simp) h
    · tauto
    · tauto

theorem buildHeader_ok_inv (hp : HeaderParams) (bytes : List Nat)
    (h : Enc.buildHeader hp = .ok bytes) :
    hp.salt.length = 16 ∧ hp.iv.length = 12 ∧ hp.tag.length = 16 ∧
    bytes = MAGIC ++ VERSION ::
      ((if hp.encrypted then 1 else 0) + (if hp.randomized then 2 else 0)) % 256 ::
      hp.bitsPerChannel % 256 :: hp.channelsMask % 256 ::
      (u32be hp.payloadLen ++ hp.kdf % 256 :: hp.logN % 256 :: hp.r % 256 :: hp.p % 256 ::
        (hp.salt ++ hp.iv ++ hp.tag)) := by
  rw [Enc.buildHeader] at h
  by_cases h1 : hp.salt.length ≠ 16
  · rw [if_pos h1] at h
    exact absurd h (by simp)
  · rw [if_neg h1] at h
    by_cases h2 : hp.iv.length ≠ 12
    · rw [if_pos h2] at h
      exact absurd h (by simp)
    · rw [if_neg h2] at h
      by_cases h3 : hp.tag.length ≠ 16
      · rw [if_pos h3] at h
        exact absurd h (by simp)
      · rw [if_neg h3] at h
        simp only [Except.ok.injEq] at h
        exact ⟨by omega, by omega, by omega, h.symm⟩

theorem header_append_take4 (hp : HeaderParams) (header ct : List Nat)
    (h : Enc.buildHeader hp = .ok header) : (header ++ ct).take 4 = MAGIC := by
  obtain ⟨_, _, _, hbytes⟩ := buildHeader_ok_inv hp header h
  subst hbytes
  rw [List.append_assoc]
  exact List.take_left' rfl

theorem extractContainer_jpeg (fb blob out : List Nat)
    (hj : Enc.isJpeg fb = true)
    (hmagic : blob.take 4 = MAGIC) (hlen4 : 4 ≤ blob.length) (hlen : blob.length ≤ 65533)
    (hple : Enc.jpegWalk fb 2 ≤ fb.length)
    (hnone : Dec.extractJpegAPP15 fb = none)
    (hins : Enc.insertJpegAPP15 fb blob = .ok out) :
    Dec.extractContainerBlob out = some blob := by
  rw [Dec.extractContainerBlob,
    jpeg_insert_then_extract fb blob out hj hmagic hlen4 hlen hple hnone hins]

theorem extractContainer_webp (fb blob out : List Nat)
    (hw : Enc.isWebP fb = true)
    (hsize : blob.length < 2 ^ 32)
    (hclean : Dec.webpScan fb 12 = (none, fb.length))
    (hins : Enc.insertWebPChunk fb blob = .ok out) :
    Dec.extractContainerBlob out = some blob := by
  have hout : out = webpOut fb blob := by
    rw [insertWebPChunk_ok fb blob hw] at hins
    cases hins
    rfl
  have hnj : Dec.extractJpegAPP15 out = none := by
    rw [Dec.extractJpegAPP15, if_neg ?hc]
    case hc =>
      rw [hout, Dec.isJpeg]
      have h0 : byteAt (webpOut fb blob) 0 = 82 := rfl
      simp [h0]
  rw [Dec.extractContainerBlob, hnj]
  simp only []
  rw [webp_insert_then_extract fb blob out hw hsize hclean hins]

theorem extractContainer_trailer (fb blob : List Nat)
    (hnj : Enc.isJpeg fb = false)
    (hnw : Dec.extractWebPChunk (Enc.appendTrailer fb blob) = none)
    (hsize : blob.length < 2 ^ 32)
    (hfree : ∀ j, j < (u32be blob.length ++ blob).length →
      Dec.sigAt (u32be blob.length ++ blob) j = false) :
    Dec.extractContainerBlob (Enc.appendTrailer fb blob) = some blob := by
  have hj : Dec.extractJpegAPP15 (Enc.appendTrailer fb blob) = none := by
    rw [Dec.extractJpegAPP15, if_neg (by
      rw [appendTrailer_isJpeg_false fb blob hnj]
      simp)]
  rw [Dec.extractContainerBlob, hj]
  simp only []
  rw [hnw, extractTrailer_appendTrailer fb blob hsize hfree]

theorem roundtrip_jpeg (pr : Prims) (hpr : PrimsOK pr)
    (fb ext plaintext password salt iv key header out : List Nat) (logNUsed : Nat)
    (hkdf : Enc.deriveKeyAdaptive pr password salt 15 8 1 = .ok (key, logNUsed))
    (hbuild : Enc.buildHeader
      { encrypted := true, randomized := true, bitsPerChannel := 1,
        channelsMask := 7, payloadLen := plaintext.length, kdf := KDF_SCRYPT,
        logN := logNUsed, r := 8, p := 1, salt := salt, iv := iv,
        tag := (pr.aesEnc key iv plaintext).2 } = .ok header)
    (hsalt : salt.length = 16) (hiv : iv.length = 12)
    (hne : plaintext ≠ []) (hptlen : plaintext.length < 2 ^ 32)
    (hdet : Enc.detectCarrier fb ext = .jpeg)
    (hj : Enc.isJpeg fb = true)
    (hple : Enc.jpegWalk fb 2 ≤ fb.length)
    (hnone : Dec.extractJpegAPP15 fb = none)
    (hok : Enc.processEncoding pr fb ext plaintext password salt iv = .ok ⟨none, out⟩)
    (hnopng : pr.pngRead out = none) :
    Dec.processDecoding pr out password = .ok plaintext := by
  have hemb := processEncoding_ok_inv pr fb ext plaintext password salt iv key header out
    logNUsed hkdf hbuild hok
  rw [Enc.embedAuto, hdet] at hemb
  simp only [] at hemb
  by_cases hbig : 65533 < (header ++ (pr.aesEnc key iv plaintext).1).length
  · rw [if_pos hbig] at hemb
    exact absurd hemb (by simp)
  · rw [if_neg hbig] at hemb
    have hhlen : header.length = 60 := buildHeader_length _ _ hbuild
    have hblob4 := header_append_take4 _ header (pr.aesEnc key iv plaintext).1 hbuild
    have hext := extractContainer_jpeg fb (header ++ (pr.aesEnc key iv plaintext).1) out
      hj hblob4 (by rw [List.length_append, hhlen]; omega) (by omega) hple hnone hemb
    exact processDecoding_container pr out password plaintext hnopng
      (containerDecode_ok pr hpr out password plaintext salt iv key header logNUsed
        hkdf hbuild hsalt hiv hptlen hne hext) hne

theorem roundtrip_webp (pr : Prims) (hpr : PrimsOK pr)
    (fb ext plaintext password salt iv key header out : List Nat) (logNUsed : Nat)
    (hkdf : Enc.deriveKeyAdaptive pr password salt 15 8 1 = .ok (key, logNUsed))
    (hbuild : Enc.buildHeader
      { encrypted := true, randomized := true, bitsPerChannel := 1,
        channelsMask := 7, payloadLen := plaintext.length, kdf := KDF_SCRYPT,
        logN := logNUsed, r := 8, p := 1, salt := salt, iv := iv,
        tag := (pr.aesEnc key iv plaintext).2 } = .ok header)
    (hsalt : salt.length = 16) (hiv : iv.length = 12)
    (hne : plaintext ≠ []) (hsz : plaintext.length + 60 < 2 ^ 32)
    (hdet : Enc.detectCarrier fb ext = .webp)
    (hw : Enc.isWebP fb = true)
    (hclean : Dec.webpScan fb 12 = (none, fb.length))
    (hok : Enc.processEncoding pr fb ext plaintext password salt iv = .ok ⟨none, out⟩)
    (hnopng : pr.pngRead out = none) :
    Dec.processDecoding pr out password = .ok plaintext := by
  have hemb := processEncoding_ok_inv pr fb ext plaintext password salt iv key header out
    logNUsed hkdf hbuild hok
  rw [Enc.embedAuto, hdet] at hemb
  simp only [] at hemb
  have hhlen : header.length = 60 := buildHeader_length _ _ hbuild
  have hctlen : (pr.aesEnc key iv plaintext).1.length = plaintext.length :=
    hpr.encLen key iv plaintext
  have hext := extractContainer_webp fb (header ++ (pr.aesEnc key iv plaintext).1) out hw
    (by rw [List.length_append, hhlen, hctlen]; omega) hclean hemb
  exact processDecoding_container pr out password plaintext hnopng
    (containerDecode_ok pr hpr out password plaintext salt iv key header logNUsed
      hkdf hbuild hsalt hiv (by omega) hne hext) hne

theorem roundtrip_trailer (pr : Prims) (hpr : PrimsOK pr)
    (fb ext plaintext password salt iv key header out : List Nat) (logNUsed : Nat)
    (hkdf : Enc.deriveKeyAdaptive pr password salt 15 8 1 = .ok (key, logNUsed))
    (hbuild : Enc.buildHeader
      { encrypted := true, randomized := true, bitsPerChannel := 1,
        channelsMask := 7, payloadLen := plaintext.length, kdf := KDF_SCRYPT,
        logN := logNUsed, r := 8, p := 1, salt := salt, iv := iv,
        tag := (pr.aesEnc key iv plaintext).2 } = .ok header)
    (hsalt : salt.length = 16) (hiv : iv.length = 12)
    (hne : plaintext ≠ []) (hsz : plaintext.length + 60 < 2 ^ 32)
    (hdet : Enc.detectCarrier fb ext = .pdf ∨ Enc.detectCarrier fb ext = .other)
    (hnj : Enc.isJpeg fb = false)
    (hok : Enc.processEncoding pr fb ext plaintext password salt iv = .ok ⟨none, out⟩)
    (hnopng : pr.pngRead out = none)
    (hnw : Dec.extractWebPChunk out = none)
    (hfree : ∀ j, j < (u32be (header ++ (pr.aesEnc key iv plaintext).1).length
        ++ (header ++ (pr.aesEnc key iv plaintext).1)).length →
      Dec.sigAt (u32be (header ++ (pr.aesEnc key iv plaintext).1).length
        ++ (header ++ (pr.aesEnc key iv plaintext).1)) j = false) :
    Dec.processDecoding pr out password = .ok plaintext := by
  have hemb := processEncoding_ok_inv pr fb ext plaintext password salt iv key header out
    logNUsed hkdf hbuild hok
  have hout : out
      = Enc.appendTrailer fb (header ++ (pr.aesEnc key iv plaintext).1) := by
    rcases hdet with hdet | hdet <;>
    · rw [Enc.embedAuto, hdet] at hemb
      simp only [Except.ok.injEq] at hemb
      exact hemb.symm
  subst hout
  have hhlen : header.length = 60 := buildHeader_length _ _ hbuild
  have hctlen : (pr.aesEnc key iv plaintext).1.length = plaintext.length :=
    hpr.encLen key iv plaintext
  have hext := extractContainer_trailer fb (header ++ (pr.aesEnc key iv plaintext).1)
    hnj hnw (by rw [List.length_append, hhlen, hctlen]; omega) hfree
  exact processDecoding_container pr _ password plaintext hnopng
    (containerDecode_ok pr hpr _ password plaintext salt iv key header logNUsed
      hkdf hbuild hsalt hiv (by omega) hne hext) hne

theorem roundtrip_png (pr : Prims) (hpr : PrimsOK pr)
    (fb ext plaintext password salt iv key header out data : List Nat) (logNUsed : Nat)
    (hkdf : Enc.deriveKeyAdaptive pr password salt 15 8 1 = .ok (key, logNUsed))
    (hbuild : Enc.buildHeader
      { encrypted := true, randomized := true, bitsPerChannel := 1,
        channelsMask := 7, payloadLen := plaintext.length, kdf := KDF_SCRYPT,
        logN := logNUsed, r := 8, p := 1, salt := salt, iv := iv,
        tag := (pr.aesEnc key iv plaintext).2 } = .ok header)
    (hsalt : salt.length = 16) (hiv : iv.length = 12)
    (hne : plaintext ≠ []) (hptlen : plaintext.length < 2 ^ 32)
    (hsbytes : ∀ b ∈ salt, b < 256) (hibytes : ∀ b ∈ iv, b < 256)
    (hpbytes : ∀ b ∈ plaintext, b < 256)
    (hdet : Enc.detectCarrier fb ext = .png)
    (hread : pr.pngRead fb = some data) (h4 : 4 ∣ data.length)
    (hrw : ∀ d, pr.pngRead (pr.pngWrite d) = some d)
    (hok : Enc.processEncoding pr fb ext plaintext password salt iv = .ok ⟨none, out⟩) :
    Dec.processDecoding pr out password = .ok plaintext := by
  have hemb := processEncoding_ok_inv pr fb ext plaintext password salt iv key header out
    logNUsed hkdf hbuild hok
  rw [Enc.embedAuto, hdet] at hemb
  simp only [] at hemb
  rw [hread] at hemb
  simp only [] at hemb
  by_cases hcap : Enc.capacityBits data 1 < (8 * (pr.aesEnc key iv plaintext).1.length : Nat)
  · rw [if_pos hcap] at hemb
    exact absurd hemb (by simp)
  · rw [if_neg hcap] at hemb
    cases hwh : Enc.writeHeaderBits data header with
    | error e =>
      rw [hwh] at hemb
      exact absurd hemb (by simp)
    | ok d1 =>
      rw [hwh] at hemb
      simp only [] at hemb
      cases hbits : Enc.embedBits d1
          ((Enc.shufflePositions pr.hmac (Enc.buildPayloadPositions d1 1)
            (Enc.prngInit (pr.hmac key ECAP_PERMUTE))).1)
          (pr.aesEnc key iv plaintext).1 with
      | error e =>
        rw [hbits] at hemb
        exact absurd hemb (by simp)
      | ok d2 =>
        rw [hbits] at hemb
        simp only [Except.ok.injEq] at hemb
        subst hemb
        have hhlen : header.length = HEADER_SIZE := by
          rw [show HEADER_SIZE = 60 from rfl]
          exact buildHeader_length _ _ hbuild
        have hhbytes : ∀ b ∈ header, b < 256 :=
          buildHeader_bytes _ _ hbuild hsbytes hibytes (hpr.tagBytes key iv plaintext)
        have hctbytes : ∀ b ∈ (pr.aesEnc key iv plaintext).1, b < 256 :=
          hpr.encBytes key iv plaintext hpbytes
        obtain ⟨hrd, hex⟩ := png_extract_roundtrip pr data header
          (pr.aesEnc key iv plaintext).1 key d1 d2 h4 hhlen hhbytes hctbytes hwh hbits
        have hctlen : (pr.aesEnc key iv plaintext).1.length = plaintext.length :=
          hpr.encLen key iv plaintext
        have hgo := go_ok_inv (fun logN => pr.scrypt password salt 32 (1 <<< logN) 8 1)
          15 key logNUsed (by rw [← Enc.deriveKeyAdaptive]; exact hkdf)
        obtain ⟨hl12, hl15, hscr⟩ := hgo
        have hparse : Dec.parseHeader header = .ok
            { version := 1, encrypted := true, randomized := true, bitsPerChannel := 1,
              channelsMask := 7, payloadLen := plaintext.length, kdf := 1,
              logN := logNUsed, r := 8, p := 1, salt := salt, iv := iv,
              tag := (pr.aesEnc key iv plaintext).2 } :=
          parseHeader_buildHeader _ _ hbuild hsalt hiv
            (hpr.tagLen key iv plaintext) rfl (by norm_num) (by norm_num)
            (by show logNUsed < 256; omega) (by norm_num) (by norm_num) hptlen
        have hfix : Dec.deriveKeyFixed pr password salt logNUsed 8 1 = .ok key := by
          rw [Dec.deriveKeyFixed, Nat.mod_eq_of_lt (by omega)]
          exact hscr
        have hex2 : Dec.extractBits d2
            ((Dec.shufflePositions pr.hmac (Dec.buildPayloadPositions d2 1)
              (Dec.prngInit (pr.hmac key ECAP_PERMUTE))).1) plaintext.length
            = .ok (pr.aesEnc key iv plaintext).1 := by
          rw [← hctlen]
          exact hex
        have hpda : Dec.pngDecodeAttempt pr (pr.pngWrite d2) password = some plaintext := by
          rw [Dec.pngDecodeAttempt, hrw d2]
          simp only []
          rw [hrd]
          simp only []
          rw [hparse]
          simp only []
          rw [hfix]
          simp only [if_true]
          rw [hex2]
          simp only []
          exact hpr.decInv key iv plaintext
        rw [Dec.processDecoding, hpda]
        simp only []
        rw [if_neg hne]

theorem c5prims_ok : PrimsOK c5prims := by
  constructor
  · intro k iv pt
    rfl
  · intro k iv pt h b hb
    exact h b hb
  · intro k iv pt
    rfl
  · intro k iv pt b hb
    rw [List.eq_of_mem_replicate hb]
    norm_num
  · intro k iv pt
    rfl

/-- C1 (amended): encode-then-decode returns the original plaintext for all
four carrier kinds, under the conditions the code actually requires: the
plaintext is nonempty (the decoder treats an empty decoded message as a
failure), the embedding succeeded (`processEncoding` returned with no
recorded error), the carrier really is of the dispatched kind and carries
no prior `ECAP` payload (JPEG APP15 scan clean, WebP chunks tile exactly
with no `ECAP` chunk, no later `ECAPTR` occurrence in the appended
trailer), the PNG pipeline round-trips pixels, and the payload fits the
size bounds of the format fields. -/
theorem c1_encode_decode_roundtrip (pr : Prims) (hpr : PrimsOK pr) :
    (∀ fb ext plaintext password salt iv key header out data logNUsed,
      Enc.deriveKeyAdaptive pr password salt 15 8 1 = .ok (key, logNUsed) →
      Enc.buildHeader
        { encrypted := true, randomized := true, bitsPerChannel := 1,
          channelsMask := 7, payloadLen := plaintext.length, kdf := KDF_SCRYPT,
          logN := logNUsed, r := 8, p := 1, salt := salt, iv := iv,
          tag := (pr.aesEnc key iv plaintext).2 } = .ok header →
      salt.length = 16 → iv.length = 12 →
      plaintext ≠ [] → plaintext.length < 2 ^ 32 →
      (∀ b ∈ salt, b < 256) → (∀ b ∈ iv, b < 256) → (∀ b ∈ plaintext, b < 256) →
      Enc.detectCarrier fb ext = .png →
      pr.pngRead fb = some data → 4 ∣ data.length →
      (∀ d, pr.pngRead (pr.pngWrite d) = some d) →
      Enc.processEncoding pr fb ext plaintext password salt iv = .ok ⟨none, out⟩ →
      Dec.processDecoding pr out password = .ok plaintext) ∧
    (∀ fb ext plaintext password salt iv key header out logNUsed,
      Enc.deriveKeyAdaptive pr password salt 15 8 1 = .ok (key, logNUsed) →
      Enc.buildHeader
        { encrypted := true, randomized := true, bitsPerChannel := 1,
          channelsMask := 7, payloadLen := plaintext.length, kdf := KDF_SCRYPT,
          logN := logNUsed, r := 8, p := 1, salt := salt, iv := iv,
          tag := (pr.aesEnc key iv plaintext).2 } = .ok header →
      salt.length = 16 → iv.length = 12 →
      plaintext ≠ [] → plaintext.length < 2 ^ 32 →
      Enc.detectCarrier fb ext = .jpeg →
      Enc.isJpeg fb = true →
      Enc.jpegWalk fb 2 ≤ fb.length →
      Dec.extractJpegAPP15 fb = none →
      Enc.processEncoding pr fb ext plaintext password salt iv = .ok ⟨none, out⟩ →
      pr.pngRead out = none →
      Dec.processDecoding pr out password = .ok plaintext) ∧
    (∀ fb ext plaintext password salt iv key header out logNUsed,
      Enc.deriveKeyAdaptive pr password salt 15 8 1 = .ok (key, logNUsed) →
      Enc.buildHeader
        { encrypted := true, randomized := true, bitsPerChannel := 1,
          channelsMask := 7, payloadLen := plaintext.length, kdf := KDF_SCRYPT,
          logN := logNUsed, r := 8, p := 1, salt := salt, iv := iv,
          tag := (pr.aesEnc key iv plaintext).2 } = .ok header →
      salt.length = 16 → iv.length = 12 →
      plaintext ≠ [] → plaintext.length + 60 < 2 ^ 32 →
      Enc.detectCarrier fb ext = .webp →
      Enc.isWebP fb = true →
      Dec.webpScan fb 12 = (none, fb.length) →
      Enc.processEncoding pr fb ext plaintext password salt iv = .ok ⟨none, out⟩ →
      pr.pngRead out = none →
      Dec.processDecoding pr out password = .ok plaintext) ∧
    (∀ fb ext plaintext password salt iv key header out logNUsed,
      Enc.deriveKeyAdaptive pr password salt 15 8 1 = .ok (key, logNUsed) →
      Enc.buildHeader
        { encrypted := true, randomized := true, bitsPerChannel := 1,
          channelsMask := 7, payloadLen := plaintext.length, kdf := KDF_SCRYPT,
          logN := logNUsed, r := 8, p := 1, salt := salt, iv := iv,
          tag := (pr.aesEnc key iv plaintext).2 } = .ok header →
      salt.length = 16 → iv.length = 12 →
      plaintext ≠ [] → plaintext.length + 60 < 2 ^ 32 →
      (Enc.detectCarrier fb ext = .pdf ∨ Enc.detectCarrier fb ext = .other) →
      Enc.isJpeg fb = false →
      Enc.processEncoding pr fb ext plaintext password salt iv = .ok ⟨none, out⟩ →
      pr.pngRead out = none →
      Dec.extractWebPChunk out = none →
      (∀ j, j < (u32be (header ++ (pr.aesEnc key iv plaintext).1).length
          ++ (header ++ (pr.aesEnc key iv plaintext).1)).length →
        Dec.sigAt (u32be (header ++ (pr.aesEnc key iv plaintext).1).length
          ++ (header ++ (pr.aesEnc key iv plaintext).1)) j = false) →
      Dec.processDecoding pr out password = .ok plaintext) := by
  refine ⟨?_, ?_, ?_, ?_⟩
  · intro fb ext plaintext password salt iv key header out data logNUsed
      hkdf hbuild hsalt hiv hne hptlen hsb hib hpb hdet hread h4 hrw hok
    exact roundtrip_png pr hpr fb ext plaintext password salt iv key header out data
      logNUsed hkdf hbuild hsalt hiv hne hptlen hsb hib hpb hdet hread h4 hrw hok
  · intro fb ext plaintext password salt iv key header out logNUsed
      hkdf hbuild hsalt hiv hne hptlen hdet hj hple hnone hok hnopng
    exact roundtrip_jpeg pr hpr fb ext plaintext password salt iv key header out
      logNUsed hkdf hbuild hsalt hiv hne hptlen hdet hj hple hnone hok hnopng
  · intro fb ext plaintext password salt iv key header out logNUsed
      hkdf hbuild hsalt hiv hne hsz hdet hw hclean hok hnopng
    exact roundtrip_webp pr hpr fb ext plaintext password salt iv key header out
      logNUsed hkdf hbuild hsalt hiv hne hsz hdet hw hclean hok hnopng
  · intro fb ext plaintext password salt iv key header out logNUsed
      hkdf hbuild hsalt hiv hne hsz hdet hnj hok hnopng hnw hfree
    exact roundtrip_trailer pr hpr fb ext plaintext password salt iv key header out
      logNUsed hkdf hbuild hsalt hiv hne hsz hdet hnj hok hnopng hnw hfree

/-- C1 counterexample: a zero-length plaintext violates the unamended
claim.  Encoding `P = []` into the carrier `[0]` (trailer backend) succeeds
with no recorded error, but decoding the output returns a no-payload error
instead of `P`: the embedded blob is the bare 60-byte header, which the
container decode path rejects as shorter than 61 bytes. -/
theorem c1_counterexample :
    Enc.processEncoding c5prims [0] [] [] [7] (List.replicate 16 0) (List.replicate 12 0)
      = .ok ⟨none, Enc.appendTrailer [0] c1hdr0⟩ ∧
    Dec.processDecoding c5prims (Enc.appendTrailer [0] c1hdr0) [7]
      = .error .noPayload := by
  constructor
  · rfl
  · rfl

/-- C1 witness: on the trailer path with `c5prims`, encoding the 1-byte
message `[104]` into the carrier `[0]` with password `[7]`, all-zero salt
and iv succeeds, and decoding the output returns `[104]`. -/
theorem c1_witness :
    Enc.processEncoding c5prims [0] [] [104] [7] (List.replicate 16 0)
        (List.replicate 12 0)
      = .ok ⟨none, Enc.appendTrailer [0] (c1hdr ++ [104])⟩ ∧
    Dec.processDecoding c5prims (Enc.appendTrailer [0] (c1hdr ++ [104])) [7]
      = .ok [104] :=
  ⟨rfl,
    (c1_encode_decode_roundtrip c5prims c5prims_ok).2.2.2 [0] [] [104] [7]
      (List.replicate 16 0) (List.replicate 12 0) (List.replicate 32 1) c1hdr
      (Enc.appendTrailer [0] (c1hdr ++ [104])) 13
      rfl rfl rfl rfl (by decide) (by decide) (Or.inr rfl) rfl rfl rfl rfl
      (by decide)⟩

theorem processDecoding_short_blob (pr : Prims) (fb password blob : List Nat)
    (hnopng : pr.pngRead fb = none)
    (hext : Dec.extractContainerBlob fb = some blob)
    (hshort : blob.length < HEADER_SIZE + 1) :
    Dec.processDecoding pr fb password = .error .noPayload := by
  have hpng : Dec.pngDecodeAttempt pr fb password = none := by
    rw [Dec.pngDecodeAttempt, hnopng]
  have hcd : Dec.containerDecode pr fb password = .error .noPayload := by
    rw [Dec.containerDecode, hext]
    simp only []
    rw [if_pos hshort]
  rw [Dec.processDecoding, hpng]
  simp only []
  rw [hcd]

/-- C10: the container decode path rejects any extracted blob shorter than
`HEADER_SIZE + 1 = 61` bytes as no-payload; consequently a zero-length
message embedded into a JPEG, WebP, or generic/trailer carrier — whose
embedded blob is exactly the 60-byte header — is never decrypted: for every
password, decode reports the no-payload failure. -/
theorem c10_zero_length_rejected (pr : Prims) (hpr : PrimsOK pr) :
    (∀ fb password blob,
      pr.pngRead fb = none →
      Dec.extractContainerBlob fb = some blob →
      blob.length < HEADER_SIZE + 1 →
      Dec.processDecoding pr fb password = .error .noPayload) ∧
    (∀ fb ext password salt iv key header out logNUsed pw2,
      Enc.deriveKeyAdaptive pr password salt 15 8 1 = .ok (key, logNUsed) →
      Enc.buildHeader
        { encrypted := true, randomized := true, bitsPerChannel := 1,
          channelsMask := 7, payloadLen := ([] : List Nat).length, kdf := KDF_SCRYPT,
          logN := logNUsed, r := 8, p := 1, salt := salt, iv := iv,
          tag := (pr.aesEnc key iv []).2 } = .ok header →
      Enc.detectCarrier fb ext = .jpeg →
      Enc.isJpeg fb = true →
      Enc.jpegWalk fb 2 ≤ fb.length →
      Dec.extractJpegAPP15 fb = none →
      Enc.processEncoding pr fb ext [] password salt iv = .ok ⟨none, out⟩ →
      pr.pngRead out = none →
      Dec.processDecoding pr out pw2 = .error .noPayload) ∧
    (∀ fb ext password salt iv key header out logNUsed pw2,
      Enc.deriveKeyAdaptive pr password salt 15 8 1 = .ok (key, logNUsed) →
      Enc.buildHeader
        { encrypted := true, randomized := true, bitsPerChannel := 1,
          channelsMask := 7, payloadLen := ([] : List Nat).length, kdf := KDF_SCRYPT,
          logN := logNUsed, r := 8, p := 1, salt := salt, iv := iv,
          tag := (pr.aesEnc key iv []).2 } = .ok header →
      Enc.detectCarrier fb ext = .webp →
      Enc.isWebP fb = true →
      Dec.webpScan fb 12 = (none, fb.length) →
      Enc.processEncoding pr fb ext [] password salt iv = .ok ⟨none, out⟩ →
      pr.pngRead out = none →
      Dec.processDecoding pr out pw2 = .error .noPayload) ∧
    (∀ fb ext password salt iv key header out logNUsed pw2,
      Enc.deriveKeyAdaptive pr password salt 15 8 1 = .ok (key, logNUsed) →
      Enc.buildHeader
        { encrypted := true, randomized := true, bitsPerChannel := 1,
          channelsMask := 7, payloadLen := ([] : List Nat).length, kdf := KDF_SCRYPT,
          logN := logNUsed, r := 8, p := 1, salt := salt, iv := iv,
          tag := (pr.aesEnc key iv []).2 } = .ok header →
      (Enc.detectCarrier fb ext = .pdf ∨ Enc.detectCarrier fb ext = .other) →
      Enc.isJpeg fb = false →
      Enc.processEncoding pr fb ext [] password salt iv = .ok ⟨none, out⟩ →
      pr.pngRead out = none →
      Dec.extractWebPChunk out = none →
      (∀ j, j < (u32be (header ++ (pr.aesEnc key iv []).1).length
          ++ (header ++ (pr.aesEnc key iv []).1)).length →
        Dec.sigAt (u32be (header ++ (pr.aesEnc key iv []).1).length
          ++ (header ++ (pr.aesEnc key iv []).1)) j = false) →
      Dec.processDecoding pr out pw2 = .error .noPayload) := by
  have hctnil : ∀ key iv, (pr.aesEnc key iv ([] : List Nat)).1 = [] := by
    intro key iv
    have h := hpr.encLen key iv []
    rw [List.length_nil] at h
    exact List.length_eq_zero.mp h
  refine ⟨processDecoding_short_blob pr, ?_, ?_, ?_⟩
  · intro fb ext password salt iv key header out logNUsed pw2
      hkdf hbuild hdet hj hple hnone hok hnopng
    have hemb := processEncoding_ok_inv pr fb ext [] password salt iv key header out
      logNUsed hkdf hbuild hok
    rw [Enc.embedAuto, hdet] at hemb
    simp only [] at hemb
    have hhlen : header.length = 60 := buildHeader_length _ _ hbuild
    by_cases hbig : 65533 < (header ++ (pr.aesEnc key iv ([] : List Nat)).1).length
    · rw [if_pos hbig] at hemb
      exact absurd hemb (by simp)
    · rw [if_neg hbig] at hemb
      have hext := extractContainer_jpeg fb (header ++ (pr.aesEnc key iv []).1) out hj
        (header_append_take4 _ header _ hbuild)
        (by rw [List.length_append, hhlen]; omega) (by omega) hple hnone hemb
      apply processDecoding_short_blob pr out pw2 _ hnopng hext
      rw [List.length_append, hhlen, hctnil key iv]
      norm_num [HEADER_SIZE]
  · intro fb ext password salt iv key header out logNUsed pw2
      hkdf hbuild hdet hw hclean hok hnopng
    have hemb := processEncoding_ok_inv pr fb ext [] password salt iv key header out
      logNUsed hkdf hbuild hok
    rw [Enc.embedAuto, hdet] at hemb
    simp only [] at hemb
    have hhlen : header.length = 60 := buildHeader_length _ _ hbuild
    have hext := extractContainer_webp fb (header ++ (pr.aesEnc key iv []).1) out hw
      (by rw [List.length_append, hhlen, hctnil key iv]; norm_num) hclean hemb
    apply processDecoding_short_blob pr out pw2 _ hnopng hext
    rw [List.length_append, hhlen, hctnil key iv]
    norm_num [HEADER_SIZE]
  · intro fb ext password salt iv key header out logNUsed pw2
      hkdf hbuild hdet hnj hok hnopng hnw hfree
    have hemb := processEncoding_ok_inv pr fb ext [] password salt iv key header out
      logNUsed hkdf hbuild hok
    have hout : out = Enc.appendTrailer fb (header ++ (pr.aesEnc key iv []).1) := by
      rcases hdet with hdet | hdet <;>
      · rw [Enc.embedAuto, hdet] at hemb
        simp only [Except.ok.injEq] at hemb
        exact hemb.symm
    subst hout
    have hhlen : header.length = 60 := buildHeader_length _ _ hbuild
    have hext := extractContainer_trailer fb (header ++ (pr.aesEnc key iv []).1)
      hnj hnw (by rw [List.length_append, hhlen, hctnil key iv]; norm_num) hfree
    apply processDecoding_short_blob pr _ pw2 _ hnopng hext
    rw [List.length_append, hhlen, hctnil key iv]
    norm_num [HEADER_SIZE]

/-- C10 witness: the zero-length message embedded into the carrier `[0]`
by the trailer backend yields the bare 60-byte header blob, and decoding
with a different password `[9]` reports the no-payload failure. -/
theorem c10_witness :
    Dec.processDecoding c5prims (Enc.appendTrailer [0] c1hdr0) [9]
      = .error .noPayload :=
  (c10_zero_length_rejected c5prims c5prims_ok).2.2.2 [0] [] [7]
    (List.replicate 16 0) (List.replicate 12 0) (List.replicate 32 1) c1hdr0
    (Enc.appendTrailer [0] c1hdr0) 13 [9]
    rfl rfl (Or.inr rfl) rfl rfl rfl rfl (by decide)

end Encapsula
